import Mathlib

/-!
# Peer-to-peer group file sharing: tracker registry, framing, piece server, download job

A shallow embedding of the C++ sources

* `System_Files/common/proto.cpp`  (framing, `split_ws`),
* `System_Files/tracker/tracker.cpp` (`handle_command`, `handle_sync`, `save`, `load`),
* `System_Files/client/client.cpp`  (piece server worker, `start_peer_server`,
  `fetch_one_piece`, `run_download_job`, `compute_piece_and_file_sha1`,
  `send_to_endpoint`, `tracker_roundtrip`, `parse_hashes` and the manifest parsing of
  `main`),
* `System_Files/common/sha1.cpp`,

and, for comparison with `sha1.cpp`, the definition of SHA-1 in FIPS 180-4 (`fips_sha1`).

Conventions.  A C++ `std::string` is a `List Char` (one `Char` per C++ `char`);
`std::unordered_map<string, V>` is an association list searched from the front;
`std::set<string>` is a list kept in increasing byte order by `set_insert`.
Machine integers are `Nat`/`Int` with the casts of the source written out where they
can change a value.  An uncaught C++ exception (which ends the process through
`std::terminate`) is the `Except.error` result of the function that throws.
-/

namespace P2P

/-! ## Strings, tokens and string streams -/

/-- A C++ `std::string`. -/
abbrev Str := List Char

/-- The exceptions the standard library calls of the sources can throw. -/
inductive Exn where
  | invalid_argument
  | out_of_range
deriving DecidableEq, Repr

/-- The C-locale `isspace`: space, and the control characters 9 to 13. -/
def isspace (c : Char) : Bool :=
  c.toNat = 32 || (9 ≤ c.toNat && c.toNat ≤ 13)

/-- The C-locale `isdigit`. -/
def isdigit (c : Char) : Bool :=
  48 ≤ c.toNat && c.toNat ≤ 57

/-- The C-locale `isxdigit`: `0-9`, `A-F`, `a-f`. -/
def isxdigit (c : Char) : Bool :=
  isdigit c || (65 ≤ c.toNat && c.toNat ≤ 70) || (97 ≤ c.toNat && c.toNat ≤ 102)

/-- Worker of `split_ws`: `cur` is the token being read. -/
def split_ws_go : List Char → Str → List Str
  | [], cur => if cur.isEmpty then [] else [cur]
  | c :: cs, cur =>
    if isspace c then
      (if cur.isEmpty then split_ws_go cs [] else cur :: split_ws_go cs [])
    else split_ws_go cs (cur ++ [c])

/-- The function `split_ws` of `proto.cpp`: the whitespace separated tokens of `s`. -/
def split_ws (s : Str) : List Str := split_ws_go s []

/-- The value of a decimal digit string (most significant digit first). -/
def digits_value (ds : List Char) : Nat :=
  ds.foldl (fun acc c => 10 * acc + (c.toNat - 48)) 0

/-- The call `std::stoi(s)`: `strtol` in base 10 (leading whitespace, an optional
sign, the longest run of digits, the rest ignored); `invalid_argument` without a
digit, `out_of_range` when the value does not fit an `int`. -/
def stoi (s : Str) : Except Exn Int :=
  let t := s.dropWhile isspace
  let neg : Bool := t.head? = some (Char.ofNat 45)
  let body := if t.head? = some (Char.ofNat 45) ∨ t.head? = some (Char.ofNat 43) then t.tail else t
  let ds := body.takeWhile isdigit
  if ds.isEmpty then .error .invalid_argument
  else
    let v : Int := if neg then -(digits_value ds : Int) else (digits_value ds : Int)
    if v < -2147483648 ∨ 2147483647 < v then .error .out_of_range else .ok v

/-- A `std::istringstream`: the characters not read yet and the fail bit. -/
structure IStream where
  buf : List Char
  fail : Bool
deriving DecidableEq, Repr

/-- The extraction `iss >> str` of a `std::string`: fails on a failed stream or when only
whitespace is left, otherwise skips whitespace and reads up to the next whitespace.
The string is empty after a failed extraction into a fresh variable. -/
def IStream.getStr (s : IStream) : Str × IStream :=
  if s.fail then ([], s)
  else
    match s.buf.dropWhile isspace with
    | [] => ([], { buf := [], fail := true })
    | c :: cs =>
      ((c :: cs).takeWhile (fun x => !isspace x),
       { buf := (c :: cs).dropWhile (fun x => !isspace x), fail := false })

/-- The extraction `iss >> n` of a `uint64_t` (`num_get` in the C locale, base 10):
skip whitespace, an optional sign, the longest run of digits; no digit or a value
above `2^64 - 1` sets the fail bit; a minus sign negates modulo `2^64`. -/
def IStream.getU64 (s : IStream) : Nat × IStream :=
  if s.fail then (0, s)
  else
    let t := s.buf.dropWhile isspace
    let neg : Bool := t.head? = some (Char.ofNat 45)
    let body := if t.head? = some (Char.ofNat 45) ∨ t.head? = some (Char.ofNat 43) then t.tail else t
    let ds := body.takeWhile isdigit
    let rest := body.dropWhile isdigit
    if ds.isEmpty then (0, { buf := rest, fail := true })
    else if 18446744073709551615 < digits_value ds then
      (18446744073709551615, { buf := rest, fail := true })
    else
      ((if neg then (18446744073709551616 - digits_value ds) % 18446744073709551616
        else digits_value ds),
       { buf := rest, fail := false })

/-- The tokens a loop `while(iss >> tok)` still reads from the stream. -/
def IStream.tokens (s : IStream) : List Str :=
  if s.fail then [] else split_ws s.buf

/-- Concatenation `parts[0] + " " + parts[1] + ...` of tokens with single spaces. -/
def join_sp : List Str → Str
  | [] => []
  | [p] => p
  | p :: q :: rest => p ++ ' ' :: join_sp (q :: rest)

/-! ## Containers -/

/-- The lookup `m.find(key)` in an `unordered_map`. -/
def map_find {V : Type} : List (Str × V) → Str → Option V
  | [], _ => none
  | (k, v) :: rest, key => if k = key then some v else map_find rest key

/-- The test `m.count(key)`. -/
def map_count {V : Type} (m : List (Str × V)) (key : Str) : Bool :=
  (map_find m key).isSome

/-- The assignment `m[key] = v`: overwrite the entry of `key` or add one. -/
def map_assign {V : Type} : List (Str × V) → Str → V → List (Str × V)
  | [], key, v => [(key, v)]
  | (k, w) :: rest, key, v =>
    if k = key then (k, v) :: rest else (k, w) :: map_assign rest key v

/-- The removal `m.erase(key)`. -/
def map_erase {V : Type} (m : List (Str × V)) (key : Str) : List (Str × V) :=
  m.filter (fun p => decide (p.1 ≠ key))

/-- The order of `std::string::operator<`: lexicographic on the byte values. -/
def str_lt : Str → Str → Bool
  | [], [] => false
  | [], _ :: _ => true
  | _ :: _, [] => false
  | a :: as, b :: bs =>
    if a.toNat < b.toNat then true
    else if b.toNat < a.toNat then false
    else str_lt as bs

/-- The insertion `s.insert(x)` into a `std::set<string>`, kept in increasing order. -/
def set_insert (x : Str) : List Str → List Str
  | [] => [x]
  | y :: ys =>
    if x = y then y :: ys
    else if str_lt x y then x :: y :: ys
    else y :: set_insert x ys

/-- The removal `s.erase(x)` from a `std::set<string>`. -/
def set_erase (x : Str) (s : List Str) : List Str :=
  s.filter (fun y => decide (y ≠ x))

/-- The test `s.count(x)` on a `std::set<string>`. -/
def set_count (x : Str) (s : List Str) : Bool :=
  decide (x ∈ s)

/-! ## The tracker registry (`tracker.cpp`) -/

/-- The constant `PIECE_SZ`: 512 KiB per piece. -/
def PIECE_SZ : Nat := 524288

/-- The struct `User`. -/
structure User where
  pass : Str
  logged : Bool
deriving DecidableEq, Repr

/-- The struct `File`; `peers` is the `std::set<string>` of peer endpoints. -/
structure File where
  group : Str
  filename : Str
  owner : Str
  sha : Str
  size : Nat
  piece_sha : List Str
  peers : List Str
deriving DecidableEq, Repr

/-- The four global tables of the tracker: `users`, `groups` (owner and member set),
`requests` and `files` (keyed by `group + " " + filename`). -/
structure Registry where
  users : List (Str × User)
  groups : List (Str × (Str × List Str))
  requests : List (Str × List Str)
  files : List (Str × File)
deriving DecidableEq, Repr

/-- The registry of a tracker that has loaded nothing. -/
def Registry.empty : Registry :=
  { users := [], groups := [], requests := [], files := [] }

/-- The function `is_member`. -/
def is_member (s : Registry) (user group : Str) : Bool :=
  match map_find s.groups group with
  | none => false
  | some g => set_count user g.2

/-- The function `is_owner`. -/
def is_owner (s : Registry) (user group : Str) : Bool :=
  match map_find s.groups group with
  | none => false
  | some g => decide (g.1 = user)

/-- The value of `requests[group]`: the stored list, or the empty vector that
`operator[]` creates for a new key. -/
def requests_at (s : Registry) (group : Str) : List Str :=
  (map_find s.requests group).getD []

/-- The value of `groups[group]`: the stored pair, or the default pair that
`operator[]` creates for a new key. -/
def groups_at (s : Registry) (group : Str) : Str × List Str :=
  (map_find s.groups group).getD ([], [])

/-- The fields `group filename size np_str sha peer user` read from an upload record. -/
structure UploadFields where
  group : Str
  filename : Str
  size : Nat
  np_str : Str
  sha : Str
  peer : Str
  user : Str
deriving DecidableEq, Repr

/-- The chain `iss >> file.group >> file.filename >> file.size >> np_str >> file.sha
>> peer >> user`, with the stream it leaves. -/
def extract_upload (s0 : IStream) : UploadFields × IStream :=
  let r1 := s0.getStr
  let r2 := r1.2.getStr
  let r3 := r2.2.getU64
  let r4 := r3.2.getStr
  let r5 := r4.2.getStr
  let r6 := r5.2.getStr
  let r7 := r6.2.getStr
  ({ group := r1.1, filename := r2.1, size := r3.1, np_str := r4.1,
     sha := r5.1, peer := r6.1, user := r7.1 }, r7.2)

/-- The loop `while(iss >> hash && (int)piece_sha.size() < np) if(hash.length() == 40)
piece_sha.push_back(hash)` over the tokens left in the stream.  The cast to `int` never
changes the size: it only grows below `np`, an `int`. -/
def hash_loop (np : Int) : List Str → List Str → List Str
  | [], acc => acc
  | h :: hs, acc =>
    if (acc.length : Int) < np then
      hash_loop np hs (if h.length = 40 then acc ++ [h] else acc)
    else acc

/-- The loop of LEAVE_GROUP over `files`: erase the records of `group` owned by `user`. -/
def erase_owned_files (files : List (Str × File)) (user group : Str) : List (Str × File) :=
  files.filter (fun p => !(decide (p.2.group = group) && decide (p.2.owner = user)))

/-- The record the three upload paths store: the fields read, the collected piece
hashes, `file.owner = user` and `file.peers.insert(peer)` on the empty set. -/
def upload_file_record (f : UploadFields) (piece_sha : List Str) : File :=
  { group := f.group, filename := f.filename, owner := f.user, sha := f.sha,
    size := f.size, piece_sha := piece_sha, peers := set_insert f.peer [] }

/-- The assignment `files[file.group + " " + file.filename] = file` of the upload paths. -/
def store_upload (s : Registry) (f : UploadFields) (piece_sha : List Str) : Registry :=
  { s with files := map_assign s.files (f.group ++ ' ' :: f.filename)
                      (upload_file_record f piece_sha) }

/-! ### `handle_sync`, branch by branch -/

/-- Branch REGISTER of `handle_sync`. -/
def sync_register (s : Registry) (iss : IStream) : Registry :=
  let ru := iss.getStr
  let rp := ru.2.getStr
  if rp.2.fail then s
  else { s with users := map_assign s.users ru.1 { pass := rp.1, logged := false } }

/-- Branch CREATE_GROUP of `handle_sync`. -/
def sync_create_group (s : Registry) (iss : IStream) : Registry :=
  let ru := iss.getStr
  let rg := ru.2.getStr
  if rg.2.fail then s
  else { s with groups := map_assign s.groups rg.1 (ru.1, set_insert ru.1 []) }

/-- Branch JOIN_GROUP of `handle_sync`. -/
def sync_join_group (s : Registry) (iss : IStream) : Registry :=
  let ru := iss.getStr
  let rg := ru.2.getStr
  if rg.2.fail then s
  else
    let v := requests_at s rg.1
    let v1 := if ru.1 ∈ v then v else v ++ [ru.1]
    { s with requests := map_assign s.requests rg.1 v1 }

/-- Branch ACCEPT_REQUEST of `handle_sync`; `requests[group]` and `groups[group]` create
their entries when they are missing. -/
def sync_accept_request (s : Registry) (iss : IStream) : Registry :=
  let rg := iss.getStr
  let ru := rg.2.getStr
  if ru.2.fail then s
  else
    let v := requests_at s rg.1
    if ru.1 ∈ v then
      let gi := groups_at s rg.1
      { s with requests := map_assign s.requests rg.1 (v.erase ru.1),
               groups := map_assign s.groups rg.1 (gi.1, set_insert ru.1 gi.2) }
    else { s with requests := map_assign s.requests rg.1 v }

/-- Branch LEAVE_GROUP of `handle_sync`. -/
def sync_leave_group (s : Registry) (iss : IStream) : Registry :=
  let ru := iss.getStr
  let rg := ru.2.getStr
  if rg.2.fail then s
  else
    match map_find s.groups rg.1 with
    | none => s
    | some gi =>
      if set_count ru.1 gi.2 then
        let members := set_erase ru.1 gi.2
        let files := erase_owned_files s.files ru.1 rg.1
        if gi.1 = ru.1 then
          if members.isEmpty then
            { s with groups := map_erase s.groups rg.1,
                     requests := map_erase s.requests rg.1, files := files }
          else
            { s with groups := map_assign s.groups rg.1 (members.headD [], members),
                     files := files }
        else
          { s with groups := map_assign s.groups rg.1 (gi.1, members), files := files }
      else s

/-- Branch STOP_SHARE of `handle_sync`. -/
def sync_stop_share (s : Registry) (iss : IStream) : Registry :=
  let rg := iss.getStr
  let rf := rg.2.getStr
  let rp := rf.2.getStr
  if rp.2.fail then s
  else
    let key := rg.1 ++ ' ' :: rf.1
    match map_find s.files key with
    | none => s
    | some f =>
      let peers := set_erase rp.1 f.peers
      if peers.isEmpty then { s with files := map_erase s.files key }
      else { s with files := map_assign s.files key { f with peers := peers } }

/-- Branch ADD_PEER of `handle_sync`. -/
def sync_add_peer (s : Registry) (iss : IStream) : Registry :=
  let rg := iss.getStr
  let rf := rg.2.getStr
  let rp := rf.2.getStr
  if rp.2.fail then s
  else
    let key := rg.1 ++ ' ' :: rf.1
    match map_find s.files key with
    | none => s
    | some f =>
      { s with files := map_assign s.files key { f with peers := set_insert rp.1 f.peers } }

/-- Branch UPLOAD_META of `handle_sync`, and its last branch, which reads the whole
payload as an upload record: `iss` is the stream the record is read from. -/
def sync_upload_meta (s : Registry) (iss : IStream) : Except Exn Registry :=
  let r := extract_upload iss
  if r.2.fail then .ok s
  else
    match stoi r.1.np_str with
    | .error e => .error e
    | .ok np =>
      let piece_sha := hash_loop np r.2.tokens []
      if (piece_sha.length : Int) = np then .ok (store_upload s r.1 piece_sha)
      else .ok s

/-- The function `handle_sync`: apply a replicated mutation.  The result is the registry
after the call, or the exception `stoi` throws. -/
def handle_sync (s : Registry) (sync_data : Str) : Except Exn Registry :=
  let r0 := IStream.getStr { buf := sync_data, fail := false }
  let cmd := r0.1
  let iss := r0.2
  if iss.fail then .ok s
  else if cmd = "REGISTER".toList then .ok (sync_register s iss)
  else if cmd = "CREATE_GROUP".toList then .ok (sync_create_group s iss)
  else if cmd = "JOIN_GROUP".toList then .ok (sync_join_group s iss)
  else if cmd = "ACCEPT_REQUEST".toList then .ok (sync_accept_request s iss)
  else if cmd = "LEAVE_GROUP".toList then .ok (sync_leave_group s iss)
  else if cmd = "STOP_SHARE".toList then .ok (sync_stop_share s iss)
  else if cmd = "ADD_PEER".toList then .ok (sync_add_peer s iss)
  else if cmd = "UPLOAD_META".toList then sync_upload_meta s iss
  else sync_upload_meta s { buf := sync_data, fail := false }

/-! ### `handle_command`, branch by branch -/

/-- What one call of `handle_command` does when it returns: the registry it leaves,
the payload of the one `send_msg` reply, and the argument of `broadcast_sync` if it
was called. -/
structure Handled where
  state : Registry
  reply : Str
  bcast : Option Str
deriving DecidableEq, Repr

/-- The concatenation `out += x + "\n"` over a list. -/
def lines_of (xs : List Str) : Str :=
  xs.foldr (fun x acc => x ++ '\n' :: acc) []

/-- The piece hashes written with commas between them (`(i ? "," : "") + piece_sha[i]`). -/
def join_comma : List Str → Str
  | [] => []
  | [h] => h
  | h :: k :: rest => h ++ ',' :: join_comma (k :: rest)

/-- The call `std::to_string(n)` for an unsigned value. -/
def to_string (n : Nat) : Str := (Nat.repr n).toList

/-- Branch REGISTER (`parts = [REGISTER, p1, p2]`). -/
def cmd_register (s : Registry) (p1 p2 : Str) : Handled :=
  if map_count s.users p1 then
    { state := s, reply := "ERR user_exists".toList, bcast := none }
  else
    { state := { s with users := map_assign s.users p1 { pass := p2, logged := false } },
      reply := "OK".toList,
      bcast := some ("REGISTER ".toList ++ p1 ++ ' ' :: p2) }

/-- Branch LOGIN. -/
def cmd_login (s : Registry) (p1 p2 : Str) : Handled :=
  match map_find s.users p1 with
  | none => { state := s, reply := "ERR user_not_found".toList, bcast := none }
  | some u =>
    if u.pass ≠ p2 then
      { state := s, reply := "ERR wrong_password".toList, bcast := none }
    else
      { state := { s with users := map_assign s.users p1 { u with logged := true } },
        reply := "OK".toList, bcast := none }

/-- Branch CREATE_GROUP (`p1` the user, `p2` the group). -/
def cmd_create_group (s : Registry) (p1 p2 : Str) : Handled :=
  if map_count s.groups p2 then
    { state := s, reply := "ERR grp_exists".toList, bcast := none }
  else
    { state := { s with groups := map_assign s.groups p2 (p1, set_insert p1 []) },
      reply := "OK".toList,
      bcast := some ("CREATE_GROUP ".toList ++ p1 ++ ' ' :: p2) }

/-- Branch JOIN_GROUP (`p1` the user, `p2` the group). -/
def cmd_join_group (s : Registry) (p1 p2 : Str) : Handled :=
  if !map_count s.groups p2 then
    { state := s, reply := "ERR no_group".toList, bcast := none }
  else if is_member s p1 p2 then
    { state := s, reply := "ERR already_member".toList, bcast := none }
  else
    let v := requests_at s p2
    let v1 := if p1 ∈ v then v else v ++ [p1]
    { state := { s with requests := map_assign s.requests p2 v1 },
      reply := "OK".toList,
      bcast := some ("JOIN_GROUP ".toList ++ p1 ++ ' ' :: p2) }

/-- Branch LIST_GROUPS. -/
def cmd_list_groups (s : Registry) : Handled :=
  { state := s, reply := lines_of (s.groups.map (fun p => p.1)), bcast := none }

/-- Branch LIST_REQUESTS (`p1` the group, `p2` the user); `requests[p1]` creates the
entry when it is missing. -/
def cmd_list_requests (s : Registry) (p1 p2 : Str) : Handled :=
  if !is_owner s p2 p1 then
    { state := s, reply := "ERR not_owner".toList, bcast := none }
  else
    let v := requests_at s p1
    { state := { s with requests := map_assign s.requests p1 v },
      reply := lines_of v, bcast := none }

/-- Branch ACCEPT_REQUEST (`p1` the group, `p2` the user, `p3` the owner). -/
def cmd_accept_request (s : Registry) (p1 p2 p3 : Str) : Handled :=
  if !is_owner s p3 p1 then
    { state := s, reply := "ERR not_owner".toList, bcast := none }
  else
    let v := requests_at s p1
    if p2 ∈ v then
      let gi := groups_at s p1
      { state := { s with requests := map_assign s.requests p1 (v.erase p2),
                          groups := map_assign s.groups p1 (gi.1, set_insert p2 gi.2) },
        reply := "OK".toList,
        bcast := some ("ACCEPT_REQUEST ".toList ++ p1 ++ ' ' :: p2) }
    else
      { state := { s with requests := map_assign s.requests p1 v },
        reply := "ERR no_request".toList, bcast := none }

/-- Branch LEAVE_GROUP (`p1` the user, `p2` the group). -/
def cmd_leave_group (s : Registry) (p1 p2 : Str) : Handled :=
  if !is_member s p1 p2 then
    { state := s, reply := "ERR not_member".toList, bcast := none }
  else
    let gi := groups_at s p2
    let members := set_erase p1 gi.2
    let files := erase_owned_files s.files p1 p2
    let bc := some ("LEAVE_GROUP ".toList ++ p1 ++ ' ' :: p2)
    if gi.1 = p1 then
      if members.isEmpty then
        { state := { s with groups := map_erase s.groups p2,
                            requests := map_erase s.requests p2, files := files },
          reply := "OK".toList, bcast := bc }
      else
        { state := { s with groups := map_assign s.groups p2 (members.headD [], members),
                            files := files },
          reply := "OK".toList, bcast := bc }
    else
      { state := { s with groups := map_assign s.groups p2 (gi.1, members), files := files },
        reply := "OK".toList, bcast := bc }

/-- Branch LIST_FILES (`p1` the group, `p2` the user). -/
def cmd_list_files (s : Registry) (p1 p2 : Str) : Handled :=
  if !is_member s p2 p1 then
    { state := s, reply := "ERR not_member".toList, bcast := none }
  else
    let listed := s.files.filter (fun p => decide (p.2.group = p1))
    { state := s, reply := lines_of (listed.map (fun p => p.2.filename)), bcast := none }

/-- Branch GET_FILE_PEERS (`p1` the group, `p2` the file name, `p3` the user). -/
def cmd_get_file_peers (s : Registry) (p1 p2 p3 : Str) : Handled :=
  if !is_member s p3 p1 then
    { state := s, reply := "ERR not_member".toList, bcast := none }
  else
    match map_find s.files (p1 ++ ' ' :: p2) with
    | none => { state := s, reply := "ERR no_file".toList, bcast := none }
    | some f =>
      if f.peers.isEmpty then
        { state := s, reply := "ERR no_peers_available".toList, bcast := none }
      else
        let head := to_string f.size ++ ' ' :: to_string f.piece_sha.length ++ '\n' :: f.sha
        let out := head ++ '\n' :: join_comma f.piece_sha ++ "\nPEERS\n".toList ++ lines_of f.peers
        { state := s, reply := out, bcast := none }

/-- Branch STOP_SHARE (`p1` the group, `p2` the file name, `p3` the peer). -/
def cmd_stop_share (s : Registry) (p1 p2 p3 : Str) : Handled :=
  let key := p1 ++ ' ' :: p2
  let bc := some ("STOP_SHARE ".toList ++ p1 ++ ' ' :: p2 ++ ' ' :: p3)
  match map_find s.files key with
  | none => { state := s, reply := "OK".toList, bcast := bc }
  | some f =>
    let peers := set_erase p3 f.peers
    if peers.isEmpty then
      { state := { s with files := map_erase s.files key }, reply := "OK".toList, bcast := bc }
    else
      { state := { s with files := map_assign s.files key { f with peers := peers } },
        reply := "OK".toList, bcast := bc }

/-- Branch ADD_PEER (`p1` the group, `p2` the file name, `p3` the peer). -/
def cmd_add_peer (s : Registry) (p1 p2 p3 : Str) : Handled :=
  let key := p1 ++ ' ' :: p2
  let bc := some ("ADD_PEER ".toList ++ p1 ++ ' ' :: p2 ++ ' ' :: p3)
  match map_find s.files key with
  | none => { state := s, reply := "OK".toList, bcast := bc }
  | some f =>
    let f1 : File := { f with peers := set_insert p3 f.peers }
    { state := { s with files := map_assign s.files key f1 }, reply := "OK".toList, bcast := bc }

/-- Branch UPLOAD_META: `full` is the command joined again with single spaces;
`full.substr(12)` throws when `full` has fewer than 12 characters, `stoi` when `np_str`
is not a number. -/
def cmd_upload_meta (s : Registry) (full : Str) : Except Exn Handled :=
  if full.length < 12 then .error .out_of_range
  else
    let r := extract_upload { buf := full.drop 12, fail := false }
    match stoi r.1.np_str with
    | .error e => .error e
    | .ok np =>
      let piece_sha := hash_loop np r.2.tokens []
      if !is_member s r.1.user r.1.group then
        .ok { state := s, reply := "ERR not_member".toList, bcast := none }
      else if (piece_sha.length : Int) ≠ np then
        .ok { state := s, reply := "ERR piece_count_mismatch".toList, bcast := none }
      else
        .ok { state := store_upload s r.1 piece_sha,
              reply := "OK".toList,
              bcast := some ("UPLOAD_META ".toList ++ full.drop 12) }

/-- Branch SYNC: `rest` is `parts` without its first token. -/
def cmd_sync (s : Registry) (rest : List Str) : Except Exn Handled :=
  let sync_data := join_sp rest
  if sync_data.isEmpty then .ok { state := s, reply := "OK".toList, bcast := none }
  else
    match handle_sync s sync_data with
    | .error e => .error e
    | .ok s1 => .ok { state := s1, reply := "OK".toList, bcast := none }

/-- The function `handle_command`: one client or tracker command, given as its
whitespace separated tokens `parts` (never empty: `serve_client` checks, and `parts[0]`
of an empty vector is out of range).  The result is what the call did, or the exception
that `substr` or `stoi` throws. -/
def handle_command (s : Registry) (parts : List Str) : Except Exn Handled :=
  let cmd := parts.headD []
  let p1 := parts.getD 1 []
  let p2 := parts.getD 2 []
  let p3 := parts.getD 3 []
  if parts = [] then .error .out_of_range
  else if cmd = "REGISTER".toList ∧ parts.length = 3 then .ok (cmd_register s p1 p2)
  else if cmd = "LOGIN".toList ∧ parts.length = 3 then .ok (cmd_login s p1 p2)
  else if cmd = "CREATE_GROUP".toList ∧ parts.length = 3 then .ok (cmd_create_group s p1 p2)
  else if cmd = "JOIN_GROUP".toList ∧ parts.length = 3 then .ok (cmd_join_group s p1 p2)
  else if cmd = "LIST_GROUPS".toList then .ok (cmd_list_groups s)
  else if cmd = "LIST_REQUESTS".toList ∧ parts.length = 3 then .ok (cmd_list_requests s p1 p2)
  else if cmd = "ACCEPT_REQUEST".toList ∧ parts.length = 4 then
    .ok (cmd_accept_request s p1 p2 p3)
  else if cmd = "LEAVE_GROUP".toList ∧ parts.length = 3 then .ok (cmd_leave_group s p1 p2)
  else if cmd = "LIST_FILES".toList ∧ parts.length = 3 then .ok (cmd_list_files s p1 p2)
  else if cmd = "GET_FILE_PEERS".toList ∧ parts.length = 4 then
    .ok (cmd_get_file_peers s p1 p2 p3)
  else if cmd = "STOP_SHARE".toList ∧ parts.length = 4 then .ok (cmd_stop_share s p1 p2 p3)
  else if cmd = "ADD_PEER".toList ∧ parts.length = 4 then .ok (cmd_add_peer s p1 p2 p3)
  else if cmd.take 11 = "UPLOAD_META".toList then cmd_upload_meta s (join_sp parts)
  else if cmd = "SYNC".toList ∧ 2 ≤ parts.length then cmd_sync s parts.tail
  else .ok { state := s, reply := "ERR unknown_cmd".toList, bcast := none }

/-- The registries reachable from the empty one by commands that satisfy `allow`, each
handled by a call of `handle_command` that returns. -/
inductive Reachable (allow : List Str → Prop) : Registry → Prop where
  | init : Reachable allow Registry.empty
  | step {s : Registry} {parts : List Str} {h : Handled} :
      Reachable allow s → parts ≠ [] → allow parts →
      handle_command s parts = .ok h → Reachable allow h.state

/-- A client command: any token list whose verb is not SYNC. -/
def client_command (parts : List Str) : Prop := parts.headD [] ≠ "SYNC".toList

/-- Any command, SYNC messages included. -/
def any_command (_parts : List Str) : Prop := True

/-- The guard-and-result alternatives of one returning call of `handle_command`. -/
def dispatched (s : Registry) (parts : List Str) (h : Handled) : Prop :=
  let cmd := parts.headD []
  let p1 := parts.getD 1 []
  let p2 := parts.getD 2 []
  let p3 := parts.getD 3 []
  (cmd = "REGISTER".toList ∧ parts.length = 3 ∧ h = cmd_register s p1 p2) ∨
  (cmd = "LOGIN".toList ∧ parts.length = 3 ∧ h = cmd_login s p1 p2) ∨
  (cmd = "CREATE_GROUP".toList ∧ parts.length = 3 ∧ h = cmd_create_group s p1 p2) ∨
  (cmd = "JOIN_GROUP".toList ∧ parts.length = 3 ∧ h = cmd_join_group s p1 p2) ∨
  (cmd = "LIST_GROUPS".toList ∧ h = cmd_list_groups s) ∨
  (cmd = "LIST_REQUESTS".toList ∧ parts.length = 3 ∧ h = cmd_list_requests s p1 p2) ∨
  (cmd = "ACCEPT_REQUEST".toList ∧ parts.length = 4 ∧ h = cmd_accept_request s p1 p2 p3) ∨
  (cmd = "LEAVE_GROUP".toList ∧ parts.length = 3 ∧ h = cmd_leave_group s p1 p2) ∨
  (cmd = "LIST_FILES".toList ∧ parts.length = 3 ∧ h = cmd_list_files s p1 p2) ∨
  (cmd = "GET_FILE_PEERS".toList ∧ parts.length = 4 ∧ h = cmd_get_file_peers s p1 p2 p3) ∨
  (cmd = "STOP_SHARE".toList ∧ parts.length = 4 ∧ h = cmd_stop_share s p1 p2 p3) ∨
  (cmd = "ADD_PEER".toList ∧ parts.length = 4 ∧ h = cmd_add_peer s p1 p2 p3) ∨
  (cmd.take 11 = "UPLOAD_META".toList ∧ cmd_upload_meta s (join_sp parts) = .ok h) ∨
  (cmd = "SYNC".toList ∧ cmd_sync s parts.tail = .ok h) ∨
  h = { state := s, reply := "ERR unknown_cmd".toList, bcast := none }

/-- Two results of a call that can throw are equal or not, decidably. -/
instance instDecidableEqExcept {ε α : Type} [DecidableEq ε] [DecidableEq α] :
    DecidableEq (Except ε α) := fun x y =>
  match x, y with
  | .ok a, .ok b =>
    if h : a = b then isTrue (by rw [h]) else isFalse (fun e => h (by injection e))
  | .error a, .error b =>
    if h : a = b then isTrue (by rw [h]) else isFalse (fun e => h (by injection e))
  | .ok _, .error _ => isFalse (fun e => by cases e)
  | .error _, .ok _ => isFalse (fun e => by cases e)

/-! ## Framing (`proto.cpp`) -/

/-- The four bytes `htonl(n)` leaves in memory for a 32-bit `n`: most significant first. -/
def u32_be (n : Nat) : List Char :=
  [Char.ofNat (n / 16777216 % 256), Char.ofNat (n / 65536 % 256),
   Char.ofNat (n / 256 % 256), Char.ofNat (n % 256)]

/-- The value `ntohl` reads from four received bytes. -/
def u32_of_be (b0 b1 b2 b3 : Char) : Nat :=
  (b0.toNat % 256) * 16777216 + (b1.toNat % 256) * 65536 + (b2.toNat % 256) * 256 +
    b3.toNat % 256

/-- The bytes `send_msg(fd, s)` writes to a socket that accepts them all: the length cast
to `uint32_t` in network order, then the payload (nothing more for an empty payload). -/
def send_msg (s : Str) : List Char :=
  u32_be (s.length % 4294967296) ++ (if s.isEmpty then [] else s)

/-- The function `recv_msg` on the bytes that arrive on the socket before it closes: the
message and the bytes left unread, or `none` when it returns false. -/
def recv_msg : List Char → Option (Str × List Char)
  | b0 :: b1 :: b2 :: b3 :: rest =>
    let n := u32_of_be b0 b1 b2 b3
    if n = 0 then some ([], rest)
    else if 2 * 1024 * 1024 < n then none
    else if rest.length < n then none
    else some (rest.take n, rest.drop n)
  | _ => none

/-! ## SHA-1 (`sha1.cpp`) -/

/-- The function `rotl` of `sha1.cpp` on 32-bit words. -/
def rotl (x n : Nat) : Nat := ((x <<< n) % 4294967296) ||| (x >>> (32 - n))

/-- The padded buffer of `sha1`: the data, the byte `0x80`, zeros up to a multiple of 64
bytes, and the bit length in the last eight bytes, most significant first. -/
def sha1_pad (data : List Nat) : List Nat :=
  let len := data.length
  let padded := ((len + 9 + 63) / 64) * 64
  let bitlen := (len * 8) % 18446744073709551616
  data ++ [128] ++ List.replicate (padded - len - 9) 0 ++
    (List.range 8).map (fun i => (bitlen >>> (8 * (7 - i))) % 256)

/-- The big-endian 32-bit words `w[0..15]` of one 64-byte chunk. -/
def sha1_words : List Nat → List Nat
  | b0 :: b1 :: b2 :: b3 :: rest =>
    ((b0 <<< 24) ||| (b1 <<< 16) ||| (b2 <<< 8) ||| b3) :: sha1_words rest
  | _ => []

/-- The loop `for(i = 16; i < 80; i++) w[i] = rotl(w[i-3] ^ w[i-8] ^ w[i-14] ^ w[i-16], 1)`;
the first argument counts the words still to add. -/
def sha1_extend : Nat → List Nat → List Nat
  | 0, w => w
  | n + 1, w =>
    let i := w.length
    sha1_extend n (w ++ [rotl (w.getD (i - 3) 0 ^^^ w.getD (i - 8) 0 ^^^ w.getD (i - 14) 0
      ^^^ w.getD (i - 16) 0) 1])

/-- The five working variables `a b c d e`. -/
structure Sha1State where
  a : Nat
  b : Nat
  c : Nat
  d : Nat
  e : Nat
deriving DecidableEq, Repr

/-- One round `i` of the 80-round loop with message word `wi`. -/
def sha1_round (st : Sha1State) (i wi : Nat) : Sha1State :=
  let notb := st.b ^^^ 4294967295
  let f := if i < 20 then (st.b &&& st.c) ||| (notb &&& st.d)
           else if i < 40 then st.b ^^^ st.c ^^^ st.d
           else if i < 60 then (st.b &&& st.c) ||| (st.b &&& st.d) ||| (st.c &&& st.d)
           else st.b ^^^ st.c ^^^ st.d
  let k := if i < 20 then 1518500249
           else if i < 40 then 1859775393
           else if i < 60 then 2400959708
           else 3395469782
  let temp := (rotl st.a 5 + f + st.e + k + wi) % 4294967296
  { a := temp, b := st.a, c := rotl st.b 30, d := st.c, e := st.d }

/-- The rounds over the words from index `i` on. -/
def sha1_rounds : Sha1State → Nat → List Nat → Sha1State
  | st, _, [] => st
  | st, i, wi :: ws => sha1_rounds (sha1_round st i wi) (i + 1) ws

/-- The body of the chunk loop: `h` is `h0..h4` before the chunk. -/
def sha1_chunk (h : Sha1State) (chunk : List Nat) : Sha1State :=
  let w := sha1_extend 64 (sha1_words chunk)
  let r := sha1_rounds h 0 w
  { a := (h.a + r.a) % 4294967296, b := (h.b + r.b) % 4294967296,
    c := (h.c + r.c) % 4294967296, d := (h.d + r.d) % 4294967296,
    e := (h.e + r.e) % 4294967296 }

/-- The chunk loop; the first argument is the number of 64-byte chunks left. -/
def sha1_chunks : Nat → Sha1State → List Nat → Sha1State
  | 0, h, _ => h
  | n + 1, h, buf => sha1_chunks n (sha1_chunk h (buf.take 64)) (buf.drop 64)

/-- The four bytes of a 32-bit word, most significant first. -/
def word_bytes (x : Nat) : List Nat :=
  [(x >>> 24) % 256, (x >>> 16) % 256, (x >>> 8) % 256, x % 256]

/-- The function `sha1`: the 20 digest bytes of a byte string. -/
def sha1 (data : List Nat) : List Nat :=
  let buf := sha1_pad data
  let h := sha1_chunks (buf.length / 64)
    { a := 1732584193, b := 4023233417, c := 2562383102, d := 271733878, e := 3285377520 } buf
  word_bytes h.a ++ word_bytes h.b ++ word_bytes h.c ++ word_bytes h.d ++ word_bytes h.e

/-- The table `hex[]` of `sha1_hex`. -/
def hex_digit (n : Nat) : Char := "0123456789abcdef".toList.getD n '0'

/-- The two hex characters of each byte. -/
def hex_of_bytes : List Nat → Str
  | [] => []
  | b :: bs => hex_digit ((b >>> 4) % 16) :: hex_digit (b % 16) :: hex_of_bytes bs

/-- The function `sha1_hex`: the digest as 40 lowercase hex characters; a C++ byte is
the value of the `Char` modulo 256. -/
def sha1_hex (data : List Char) : Str :=
  hex_of_bytes (sha1 (data.map (fun c => c.toNat % 256)))


/-! ## The peer: hashing a file, the piece server, the download job (`client.cpp`) -/

/-- The call `fread(buf, 1, to_read, f)` at the file position `pos`: the bytes it
delivers, fewer than `to_read` when the file ends before. -/
def fread (content : List Char) (pos to_read : Nat) : List Char :=
  (content.drop pos).take to_read

/-- The outputs `piece_hex`, `file_hex` and `size` of `compute_piece_and_file_sha1`. -/
structure FileHashes where
  piece_hex : List Str
  file_hex : Str
  size : Nat
deriving DecidableEq, Repr

/-- The loop `for(size_t i = 0; i < np; i++)` of `compute_piece_and_file_sha1` from piece
`i` on, with the file position `pos` and the hashes `piece_hex` collected so far; the
first argument is `np - i`.  A short read leaves the loop (`break`); `size - i * PIECE_SZ`
is a `uint64_t` subtraction. -/
def piece_loop (content : List Char) (size np : Nat) : Nat → Nat → Nat → List Str → List Str
  | 0, _, _, piece_hex => piece_hex
  | left + 1, i, pos, piece_hex =>
    let to_read :=
      if i = np - 1 then (size + 18446744073709551616 - i * PIECE_SZ) % 18446744073709551616
      else PIECE_SZ
    let data := fread content pos to_read
    if data.length ≠ to_read then piece_hex
    else piece_loop content size np left (i + 1) (pos + data.length) (piece_hex ++ [sha1_hex data])

/-- The function `compute_piece_and_file_sha1` on a file that opens and whose bytes are
`content`: `ftell` gives the size, the loop hashes piece after piece, and the file hash is
the hash of the concatenated piece hashes. -/
def compute_piece_and_file_sha1 (content : List Char) : FileHashes :=
  let size := content.length
  let np := (size + PIECE_SZ - 1) / PIECE_SZ
  let piece_hex := piece_loop content size np np 0 0 []
  { piece_hex := piece_hex, file_hex := sha1_hex piece_hex.flatten, size := size }

/-- The conversion `(int)n` of a `size_t`: the low 32 bits read as two's complement. -/
def to_int32 (n : Nat) : Int :=
  if n % 4294967296 < 2147483648 then ((n % 4294967296 : Nat) : Int)
  else ((n % 4294967296 : Nat) : Int) - 4294967296

/-- The worker of `peer_server_thread` after `recv_msg` delivered the request `rq`: the
bytes it writes to the connection, or the exception `stoi` throws.  `uploaded_files`
is the shared-file table, `fs` gives the bytes of the file `fopen` opens (or fails);
`fsz - off` is a `size_t` subtraction. -/
def serve_request (uploaded_files : List (Str × Str)) (fs : Str → Option (List Char))
    (rq : Str) : Except Exn (List Char) :=
  let parts := split_ws rq
  if parts.length ≠ 3 ∨ parts.headD [] ≠ "GETPIECE".toList then .ok (send_msg "ERR".toList)
  else
    match stoi (parts.getD 2 []) with
    | .error e => .error e
    | .ok idx =>
      match map_find uploaded_files (parts.getD 1 []) with
      | none => .ok (send_msg "ERR".toList)
      | some filepath =>
        match fs filepath with
        | none => .ok (send_msg "ERR".toList)
        | some content =>
          let fsz := content.length
          let np := (fsz + PIECE_SZ - 1) / PIECE_SZ
          if idx < 0 ∨ idx ≥ to_int32 np then .ok (send_msg "ERR".toList)
          else
            let off := idx.toNat * PIECE_SZ
            let to_read :=
              if idx = to_int32 np - 1 then
                (fsz + 18446744073709551616 - off) % 18446744073709551616
              else PIECE_SZ
            let data := (content.drop off).take to_read
            if data.length ≠ to_read then .ok (send_msg "ERR".toList)
            else .ok (send_msg "OK".toList ++ u32_be (to_read % 4294967296) ++ data)

/-- The bytes of a file after `lseek(off)` and a complete `write` of `buf`; a gap
between the old end of the file and `off` reads as zero bytes. -/
def write_at (content : List Char) (off : Nat) (buf : List Char) : List Char :=
  (content ++ List.replicate (off - content.length) (Char.ofNat 0)).take off ++ buf ++
    content.drop (off + buf.length)

/-- The function `fetch_one_piece`.  `answer` is what the connection to `peer` gives:
`none` when `connect` or sending the request fails, otherwise the bytes the peer sends
before it closes.  `disk` is the destination file (`none`: it cannot be opened).  The
result is the returned flag with the destination file afterwards, or the exception of
`stoi` on the port. -/
def fetch_one_piece (answer : Option (List Char)) (peer : Str) (idx : Nat)
    (disk : Option (List Char)) (expected_sha : Str) : Except Exn (Bool × Option (List Char)) :=
  if ¬ (':' ∈ peer) then .ok (false, disk)
  else
    match stoi ((peer.dropWhile (fun c => c ≠ ':')).drop 1) with
    | .error e => .error e
    | .ok _ =>
      match answer with
      | none => .ok (false, disk)
      | some bytes =>
        match recv_msg bytes with
        | none => .ok (false, disk)
        | some (rep, rest) =>
          if rep ≠ "OK".toList then .ok (false, disk)
          else
            match rest with
            | b0 :: b1 :: b2 :: b3 :: body =>
              let n := u32_of_be b0 b1 b2 b3
              if PIECE_SZ < n then .ok (false, disk)
              else if body.length < n then .ok (false, disk)
              else if sha1_hex (body.take n) ≠ expected_sha then .ok (false, disk)
              else
                match disk with
                | none => .ok (false, disk)
                | some content => .ok (true, some (write_at content (idx * PIECE_SZ) (body.take n)))
            | _ => .ok (false, disk)

/-- The network seen by a download job: the answer to the request `req` sent to `peer`
at the given attempt (0 or 1). -/
abbrev Net := Str → Str → Nat → Option (List Char)

/-- The loop `for(retry = 0; retry < 2; retry++)` of a piece worker for one peer; the
first argument counts the attempts left. -/
def fetch_retries (net : Net) (peer fname : Str) (idx : Nat) (hash : Str) :
    Nat → Nat → Option (List Char) → Except Exn (Bool × Option (List Char))
  | 0, _, disk => .ok (false, disk)
  | left + 1, retry, disk =>
    match fetch_one_piece (net peer ("GETPIECE ".toList ++ fname ++ ' ' :: to_string idx) retry)
        peer idx disk hash with
    | .error e => .error e
    | .ok (true, disk1) => .ok (true, disk1)
    | .ok (false, disk1) => fetch_retries net peer fname idx hash left (retry + 1) disk1

/-- The loop `for(const auto& peer : peers)` of a piece worker: stop at the first peer
that delivers the piece. -/
def fetch_from_peers (net : Net) (fname : Str) (idx : Nat) (hash : Str) :
    List Str → Option (List Char) → Except Exn (Bool × Option (List Char))
  | [], disk => .ok (false, disk)
  | peer :: peers, disk =>
    match fetch_retries net peer fname idx hash 2 0 disk with
    | .error e => .error e
    | .ok (true, disk1) => .ok (true, disk1)
    | .ok (false, disk1) => fetch_from_peers net fname idx hash peers disk1

/-- The struct `DownloadStatus` (without its mutex; the vector `have` is `have_`). -/
structure DownloadStatus where
  group : Str
  filename : Str
  dest : Str
  npieces : Nat
  have_ : List Nat
  remaining : Int
  completed : Bool
  running : Bool
deriving DecidableEq, Repr

/-- What a download job leaves: its status record, the destination file, the ADD_PEER
message sent to the tracker (if any) and whether `uploaded_files[fname] = dest` ran. -/
structure JobResult where
  ds : DownloadStatus
  disk : Option (List Char)
  add_peer : Option Str
  shared : Bool
deriving DecidableEq, Repr

/-- The piece workers of all batches, piece after piece (workers of one batch write
disjoint byte ranges of the destination, so their order does not matter): `idx` is the
next piece, the list holds the hashes from `idx` on. -/
def run_pieces (net : Net) (fname : Str) (peers : List Str) :
    List Str → Nat → DownloadStatus → Option (List Char) →
    Except Exn (DownloadStatus × Option (List Char))
  | [], _, ds, disk => .ok (ds, disk)
  | hash :: hashes, idx, ds, disk =>
    match fetch_from_peers net fname idx hash peers disk with
    | .error e => .error e
    | .ok (true, disk1) =>
      run_pieces net fname peers hashes (idx + 1)
        { ds with have_ := ds.have_.set idx 1, remaining := ds.remaining - 1 } disk1
    | .ok (false, disk1) => run_pieces net fname peers hashes (idx + 1) ds disk1

/-- The function `run_download_job`.  `disk` is the destination file as `main` left it,
`peer_port` the port of the own piece server, `temp_size0` the value the uninitialised
`temp_size` holds when the destination cannot be opened for the final check. -/
def run_download_job (net : Net) (peer_port temp_size0 : Nat) (g fname dest : Str)
    (hashes peers : List Str) (fsz : Nat) (fsha : Str) (disk : Option (List Char)) :
    Except Exn JobResult :=
  let ds0 : DownloadStatus :=
    { group := g, filename := fname, dest := dest, npieces := hashes.length,
      have_ := List.replicate hashes.length 0, remaining := hashes.length,
      completed := false, running := true }
  match run_pieces net fname peers hashes 0 ds0 disk with
  | .error e => .error e
  | .ok (ds1, disk1) =>
    let ds2 : DownloadStatus := { ds1 with running := false }
    if ds2.remaining = (0 : Int) then
      let ds3 : DownloadStatus := { ds2 with completed := true }
      let temp : FileHashes :=
        match disk1 with
        | none => { piece_hex := [], file_hex := [], size := temp_size0 }
        | some content => compute_piece_and_file_sha1 content
      if temp.file_hex = fsha ∧ temp.size = fsz then
        let peer_addr := "127.0.0.1:".toList ++ to_string peer_port
        .ok { ds := ds3, disk := disk1,
              add_peer := some ("ADD_PEER ".toList ++ g ++ ' ' :: fname ++ ' ' :: peer_addr),
              shared := true }
      else .ok { ds := ds3, disk := disk1, add_peer := none, shared := false }
    else .ok { ds := ds2, disk := disk1, add_peer := none, shared := false }

/-! ## Snapshots (`save`, `load` of `tracker.cpp`) -/

/-- The four text files of a snapshot directory. -/
structure Snapshot where
  users_txt : Str
  groups_txt : Str
  requests_txt : Str
  files_txt : Str
deriving DecidableEq, Repr

/-- The output `" " << x` for every element of a list. -/
def sp_each (xs : List Str) : Str :=
  xs.foldr (fun x acc => ' ' :: x ++ acc) []

/-- The line `save` writes for a group. -/
def save_group_line (p : Str × (Str × List Str)) : Str :=
  p.1 ++ ' ' :: p.2.1 ++ sp_each p.2.2 ++ ['\n']

/-- The line `save` writes for a request list, nothing for an empty list. -/
def save_request_line (p : Str × List Str) : Str :=
  if p.2.isEmpty then [] else p.1 ++ sp_each p.2 ++ ['\n']

/-- The line `save` writes for a file record: the piece hashes follow a space and are
separated by commas, the peers follow each after a space. -/
def save_file_line (f : File) : Str :=
  f.group ++ ' ' :: f.filename ++ ' ' :: to_string f.size ++ ' ' ::
    to_string f.piece_sha.length ++ ' ' :: f.sha ++ ' ' :: f.owner ++
    (if f.piece_sha.isEmpty then [] else ' ' :: join_comma f.piece_sha) ++
    sp_each f.peers ++ ['\n']

/-- The function `save`: the contents of the four files. -/
def save (s : Registry) : Snapshot :=
  { users_txt := (s.users.map (fun p => p.1 ++ ' ' :: p.2.pass ++ ['\n'])).flatten,
    groups_txt := (s.groups.map save_group_line).flatten,
    requests_txt := (s.requests.map save_request_line).flatten,
    files_txt := (s.files.map (fun p => save_file_line p.2)).flatten }

/-- The lines the loop `while(getline(f, line) && !line.empty())` reads from a file:
up to the first empty line or the end; `cur` is the line being read. -/
def read_lines_go : List Char → Str → List Str
  | [], cur => if cur.isEmpty then [] else [cur]
  | c :: cs, cur =>
    if c = '\n' then (if cur.isEmpty then [] else cur :: read_lines_go cs [])
    else read_lines_go cs (cur ++ [c])

/-- The lines `load` reads from one file. -/
def read_lines (text : Str) : List Str := read_lines_go text []

/-- The body of the users loop of `load` for one line. -/
def load_user_line (users : List (Str × User)) (line : Str) : List (Str × User) :=
  let ru := IStream.getStr { buf := line, fail := false }
  let rp := ru.2.getStr
  if rp.2.fail then users else map_assign users ru.1 { pass := rp.1, logged := false }

/-- The body of the groups loop of `load` for one line. -/
def load_group_line (groups : List (Str × (Str × List Str))) (line : Str) :
    List (Str × (Str × List Str)) :=
  let rg := IStream.getStr { buf := line, fail := false }
  let ro := rg.2.getStr
  if ro.2.fail then groups
  else map_assign groups rg.1 (ro.1, ro.2.tokens.foldl (fun acc m => set_insert m acc) [])

/-- The body of the requests loop of `load` for one line. -/
def load_request_line (requests : List (Str × List Str)) (line : Str) :
    List (Str × List Str) :=
  let rg := IStream.getStr { buf := line, fail := false }
  if rg.2.fail then requests else map_assign requests rg.1 rg.2.tokens

/-- One pass of the body of the piece-hash loop of `load` from position `pos`: skip
the characters that are not hex digits, then take 40 characters if that many are left
(otherwise nothing changes but `pos`). -/
def hash_scan_step (token : List Char) (st : Nat × List Str) : Nat × List Str :=
  let pos := st.1 + ((token.drop st.1).takeWhile (fun c => !isxdigit c)).length
  if pos + 40 ≤ token.length then (pos + 40, st.2 ++ [(token.drop pos).take 40])
  else (pos, st.2)

/-- The loop `while(pos < token.size() && (int)file.piece_sha.size() < np)` of `load`,
run for at most `fuel` passes: `none` when it is still running after them. -/
def hash_scan (token : List Char) (np : Int) : Nat → Nat × List Str → Option (List Str)
  | 0, _ => none
  | fuel + 1, st =>
    if st.1 < token.length ∧ (st.2.length : Int) < np then
      hash_scan token np fuel (hash_scan_step token st)
    else some st.2

/-- The body of the files loop of `load` for one line; `stoi` can throw, and the
piece-hash loop is given `fuel` passes (`none`: still running). -/
def load_file_line (files : List (Str × File)) (line : Str) (fuel : Nat) :
    Except Exn (Option (List (Str × File))) :=
  let r1 := IStream.getStr { buf := line, fail := false }
  let r2 := r1.2.getStr
  let r3 := r2.2.getU64
  let r4 := r3.2.getStr
  let r5 := r4.2.getStr
  let r6 := r5.2.getStr
  let r7 := r6.2.getStr
  if r7.2.fail then .ok (some files)
  else
    match stoi r4.1 with
    | .error e => .error e
    | .ok np =>
      match hash_scan r7.1 np fuel (0, []) with
      | none => .ok none
      | some piece_sha =>
        let file : File :=
          { group := r1.1, filename := r2.1, owner := r6.1, sha := r5.1, size := r3.1,
            piece_sha := piece_sha,
            peers := r7.2.tokens.foldl (fun acc t => set_insert t acc) [] }
        .ok (some (map_assign files (r1.1 ++ ' ' :: r2.1) file))

/-- The files loop of `load` over the lines read. -/
def load_file_lines (fuel : Nat) :
    List Str → List (Str × File) → Except Exn (Option (List (Str × File)))
  | [], files => .ok (some files)
  | line :: lines, files =>
    match load_file_line files line fuel with
    | .error e => .error e
    | .ok none => .ok none
    | .ok (some files1) => load_file_lines fuel lines files1

/-- The function `load` run on the registry `s0` with the files of `snap`: the registry
afterwards, `none` when a piece-hash loop is still running after `fuel` passes, or the
exception `stoi` throws. -/
def load (s0 : Registry) (snap : Snapshot) (fuel : Nat) : Except Exn (Option Registry) :=
  let users := (read_lines snap.users_txt).foldl load_user_line s0.users
  let groups := (read_lines snap.groups_txt).foldl load_group_line s0.groups
  let requests := (read_lines snap.requests_txt).foldl load_request_line s0.requests
  match load_file_lines fuel (read_lines snap.files_txt) s0.files with
  | .error e => .error e
  | .ok none => .ok none
  | .ok (some files) =>
    .ok (some { users := users, groups := groups, requests := requests, files := files })

/-! ## Predicates used by the statements -/

/-- The verbs `handle_sync` recognises. -/
def sync_verbs : List Str :=
  ["REGISTER".toList, "CREATE_GROUP".toList, "JOIN_GROUP".toList, "ACCEPT_REQUEST".toList,
   "LEAVE_GROUP".toList, "STOP_SHARE".toList, "ADD_PEER".toList, "UPLOAD_META".toList]

/-- The alternatives of one returning call of `handle_sync`, each with the verb that
selects it. -/
def synced (s : Registry) (sync_data : Str) (s1 : Registry) : Prop :=
  let r0 := IStream.getStr { buf := sync_data, fail := false }
  s1 = s ∨
  (r0.1 = "REGISTER".toList ∧ s1 = sync_register s r0.2) ∨
  (r0.1 = "CREATE_GROUP".toList ∧ s1 = sync_create_group s r0.2) ∨
  (r0.1 = "JOIN_GROUP".toList ∧ s1 = sync_join_group s r0.2) ∨
  (r0.1 = "ACCEPT_REQUEST".toList ∧ s1 = sync_accept_request s r0.2) ∨
  (r0.1 = "LEAVE_GROUP".toList ∧ s1 = sync_leave_group s r0.2) ∨
  (r0.1 = "STOP_SHARE".toList ∧ s1 = sync_stop_share s r0.2) ∨
  (r0.1 = "ADD_PEER".toList ∧ s1 = sync_add_peer s r0.2) ∨
  (r0.1 = "UPLOAD_META".toList ∧ sync_upload_meta s r0.2 = .ok s1) ∨
  (r0.1 ∉ sync_verbs ∧ sync_upload_meta s { buf := sync_data, fail := false } = .ok s1)

/-- The invariant of the groups table: every owner is a member of its group. -/
def group_inv (s : Registry) : Prop := ∀ p ∈ s.groups, p.2.1 ∈ p.2.2

/-- The number of pieces of a file of `size` bytes: `size / PIECE_SZ` rounded up. -/
def piece_count (size : Nat) : Nat := (size + PIECE_SZ - 1) / PIECE_SZ

/-- The streams from which `handle_command` reads an upload record for the command
`parts`: the rest of a client UPLOAD_META, the rest of a SYNC UPLOAD_META payload, or the
whole SYNC payload when its verb is none of `sync_verbs`. -/
def upload_site (parts : List Str) (iss : IStream) : Prop :=
  ((parts.headD []).take 11 = "UPLOAD_META".toList ∧
      iss = { buf := (join_sp parts).drop 12, fail := false }) ∨
  (parts.headD [] = "SYNC".toList ∧
      (IStream.getStr { buf := join_sp parts.tail, fail := false }).1 = "UPLOAD_META".toList ∧
      iss = (IStream.getStr { buf := join_sp parts.tail, fail := false }).2) ∨
  (parts.headD [] = "SYNC".toList ∧
      (IStream.getStr { buf := join_sp parts.tail, fail := false }).1 ∉ sync_verbs ∧
      iss = { buf := join_sp parts.tail, fail := false })

/-- A command whose upload record, if it carries one, declares as its piece count
`nPieces` the number `ceil(size / PIECE_SZ)` for the size it declares. -/
def well_declared (parts : List Str) : Prop :=
  ∀ iss, upload_site parts iss →
    stoi (extract_upload iss).1.np_str = .ok (piece_count (extract_upload iss).1.size : Int)

/-- Where a record of the files table after a command comes from: it was there before,
or it is a record that was there with another non-empty peer set, or it is the record of
an upload that the command carried and that was accepted. -/
def file_origin (s : Registry) (parts : List Str) (p : Str × File) : Prop :=
  p ∈ s.files ∨
  (∃ f peers, (p.1, f) ∈ s.files ∧ peers ≠ [] ∧ p.2 = { f with peers := peers }) ∨
  (∃ iss np, upload_site parts iss ∧ stoi (extract_upload iss).1.np_str = .ok np ∧
    ((hash_loop np (extract_upload iss).2.tokens []).length : Int) = np ∧
    p.2 = upload_file_record (extract_upload iss).1
            (hash_loop np (extract_upload iss).2.tokens []))

/-- The bytes of a file from offset `a` up to, not including, offset `b`. -/
def byte_range (content : List Char) (a b : Nat) : List Char :=
  (content.drop a).take (b - a)

/-- A token as `split_ws` delivers them: not empty and without whitespace. -/
def is_token (t : Str) : Prop := t ≠ [] ∧ ∀ c ∈ t, isspace c = false

/-- No group has the empty string among its members (member names are tokens). -/
def no_empty_member (s : Registry) : Prop := ∀ p ∈ s.groups, ([] : Str) ∉ p.2.2

/-! ## Example registries and commands -/

/-- The registry after `CREATE_GROUP a g` on the empty registry. -/
def ex_group : Registry :=
  { users := [], groups := [("g".toList, ("a".toList, ["a".toList]))], requests := [],
    files := [] }

/-- A 40-character piece hash used in the examples. -/
def ex_hash : Str := "0123456789abcdef0123456789abcdef01234567".toList

/-- The command `UPLOAD_META g f 10 1 x p a <hash>`: one piece for 10 bytes. -/
def ex_upload_cmd : List Str :=
  ["UPLOAD_META".toList, "g".toList, "f".toList, "10".toList, "1".toList, "x".toList,
   "p".toList, "a".toList, ex_hash]

/-- The record the command `ex_upload_cmd` stores. -/
def ex_file : File :=
  { group := "g".toList, filename := "f".toList, owner := "a".toList, sha := "x".toList,
    size := 10, piece_sha := [ex_hash], peers := ["p".toList] }

/-- The registry `ex_group` after `ex_upload_cmd`. -/
def ex_shared : Registry := { ex_group with files := [("g f".toList, ex_file)] }

/-- The command `UPLOAD_META g f 10 0 x p a`: it declares no piece for 10 bytes. -/
def ex_bad_upload_cmd : List Str :=
  ["UPLOAD_META".toList, "g".toList, "f".toList, "10".toList, "0".toList, "x".toList,
   "p".toList, "a".toList]

/-- The record the command `ex_bad_upload_cmd` stores. -/
def ex_bad_file : File :=
  { group := "g".toList, filename := "f".toList, owner := "a".toList, sha := "x".toList,
    size := 10, piece_sha := [], peers := ["p".toList] }

/-- The registry `ex_group` after `ex_bad_upload_cmd`. -/
def ex_bad_shared : Registry := { ex_group with files := [("g f".toList, ex_bad_file)] }

/-- The record `UPLOAD_META g f 0 0 x p a` stores: an empty file with no piece and the
one peer `p`. -/
def ex_empty_file : File :=
  { group := "g".toList, filename := "f".toList, owner := "a".toList, sha := "x".toList,
    size := 0, piece_sha := [], peers := ["p".toList] }

/-- The registry `ex_group` with the record `ex_empty_file`. -/
def ex_empty_shared : Registry := { ex_group with files := [("g f".toList, ex_empty_file)] }

/-- The registry `load` builds from the snapshot of `ex_empty_shared`. -/
def ex_empty_loaded : Registry :=
  { ex_group with files := [("g f".toList, { ex_empty_file with peers := [] })] }

/-- A network in which every peer answers every request with OK and the three bytes
`abc`. -/
def ex_net : Net := fun _ _ _ => some (send_msg "OK".toList ++ u32_be 3 ++ "abc".toList)

/-- The status record of a one-piece job that acquired its piece. -/
def ex_job_done : DownloadStatus :=
  { group := "g".toList, filename := "f".toList, dest := "out".toList, npieces := 1,
    have_ := [1], remaining := 0, completed := true, running := false }

/-- A file of `2^50` zero bytes: `2^31` pieces. -/
def ex_huge : List Char := List.replicate 1125899906842624 (Char.ofNat 0)

/-- The registry after `REGISTER a p` on the empty registry. -/
def ex_user : Registry :=
  { users := [("a".toList, { pass := "p".toList, logged := false })], groups := [],
    requests := [], files := [] }

/-- The registry `ex_user` with the password of `a` overwritten by `q`. -/
def ex_user_overwritten : Registry :=
  { users := [("a".toList, { pass := "q".toList, logged := false })], groups := [],
    requests := [], files := [] }

/-! ## SHA-1 as FIPS 180-4 defines it: the reference the code is compared with -/

/-- The bits of a byte, most significant first. -/
def fips_byte_bits (b : Nat) : List Bool :=
  (List.range 8).map (fun i => b.testBit (7 - i))

/-- The message of a byte string as a bit string. -/
def fips_message_bits (data : List Nat) : List Bool :=
  (data.map fips_byte_bits).flatten

/-- The number a bit string denotes, most significant bit first. -/
def fips_bits_value (bits : List Bool) : Nat :=
  bits.foldl (fun acc b => 2 * acc + (if b then 1 else 0)) 0

/-- Section 5.1.1: the number `k` of zero bits of the padding of a message of `l` bits,
the smallest `k` with `l + 1 + k = 448 (mod 512)`. -/
def fips_pad_zeros (l : Nat) : Nat := (959 - l % 512) % 512

/-- Section 5.1.1: the padded message: the bit 1, `k` zero bits, and the length `l` as a
64-bit block. -/
def fips_pad (m : List Bool) : List Bool :=
  m ++ [true] ++ List.replicate (fips_pad_zeros m.length) false ++
    (List.range 64).map (fun i => m.length.testBit (63 - i))

/-- Section 5.2.1: the 32-bit word number `j` of the padded message. -/
def fips_word (bits : List Bool) (j : Nat) : Nat :=
  fips_bits_value ((bits.drop (32 * j)).take 32)

/-- Section 5.2.1: the sixteen words of the 512-bit block number `i`. -/
def fips_block (bits : List Bool) (i : Nat) : List Nat :=
  (List.range 16).map (fun j => fips_word bits (16 * i + j))

/-- Section 3.2: the rotation `ROTL^n(x) = (x << n) or (x >> 32 - n)` of a 32-bit word. -/
def fips_ROTL (n x : Nat) : Nat := (x * 2 ^ n % 4294967296) ||| (x / 2 ^ (32 - n))

/-- The bitwise complement of a 32-bit word. -/
def fips_not (x : Nat) : Nat := 4294967295 - x

/-- Section 4.1.1: the function `Ch`. -/
def fips_Ch (x y z : Nat) : Nat := (x &&& y) ^^^ (fips_not x &&& z)

/-- Section 4.1.1: the function `Parity`. -/
def fips_Parity (x y z : Nat) : Nat := x ^^^ y ^^^ z

/-- Section 4.1.1: the function `Maj`. -/
def fips_Maj (x y z : Nat) : Nat := (x &&& y) ^^^ (x &&& z) ^^^ (y &&& z)

/-- Section 4.1.1: the function `f_t`. -/
def fips_f (t x y z : Nat) : Nat :=
  if t ≤ 19 then fips_Ch x y z
  else if t ≤ 39 then fips_Parity x y z
  else if t ≤ 59 then fips_Maj x y z
  else fips_Parity x y z

/-- Section 4.2.1: the constant `K_t`. -/
def fips_K (t : Nat) : Nat :=
  if t ≤ 19 then 0x5a827999
  else if t ≤ 39 then 0x6ed9eba1
  else if t ≤ 59 then 0x8f1bbcdc
  else 0xca62c1d6

/-- Section 6.1.2, step 1: the words `W_0 .. W_(t-1)` of the message schedule of the
block `M`. -/
def fips_schedule (M : List Nat) : Nat → List Nat
  | 0 => []
  | t + 1 =>
    let W := fips_schedule M t
    W ++ [if t ≤ 15 then M.getD t 0
          else fips_ROTL 1 (W.getD (t - 3) 0 ^^^ W.getD (t - 8) 0 ^^^ W.getD (t - 14) 0 ^^^
                  W.getD (t - 16) 0)]

/-- Section 6.1.2, step 3: one pass `t` over the working variables. -/
def fips_step (W : List Nat) (v : Sha1State) (t : Nat) : Sha1State :=
  let T := (fips_ROTL 5 v.a + fips_f t v.b v.c v.d + v.e + fips_K t + W.getD t 0) % 4294967296
  { e := v.d, d := v.c, c := fips_ROTL 30 v.b, b := v.a, a := T }

/-- Section 6.1.2: the hash value after the block `M`, from the hash value `H` before it. -/
def fips_compress (H : Sha1State) (M : List Nat) : Sha1State :=
  let W := fips_schedule M 80
  let v := (List.range 80).foldl (fips_step W) H
  { a := (v.a + H.a) % 4294967296, b := (v.b + H.b) % 4294967296,
    c := (v.c + H.c) % 4294967296, d := (v.d + H.d) % 4294967296,
    e := (v.e + H.e) % 4294967296 }

/-- Section 5.3.1: the initial hash value. -/
def fips_H0 : Sha1State :=
  { a := 0x67452301, b := 0xefcdab89, c := 0x98badcfe, d := 0x10325476, e := 0xc3d2e1f0 }

/-- The SHA-1 digest of a byte string as FIPS 180-4 defines it: pad, parse into blocks,
compress block after block, and write the five words of the last hash value as 20
bytes. -/
def fips_sha1 (data : List Nat) : List Nat :=
  let bits := fips_pad (fips_message_bits data)
  let H := (List.range (bits.length / 512)).foldl
    (fun H i => fips_compress H (fips_block bits i)) fips_H0
  [H.a, H.b, H.c, H.d, H.e].flatMap
    (fun w => [w / 16777216 % 256, w / 65536 % 256, w / 256 % 256, w % 256])

/-- The lowercase hexadecimal digit of a value below 16. -/
def fips_hex_char (d : Nat) : Char :=
  if d < 10 then Char.ofNat (48 + d) else Char.ofNat (87 + d)

/-- A byte string in lowercase hexadecimal, two digits a byte. -/
def fips_hex (bytes : List Nat) : Str :=
  bytes.flatMap (fun b => [fips_hex_char (b / 16), fips_hex_char (b % 16)])

/-- The five working variables are 32-bit words. -/
def words_ok (st : Sha1State) : Prop :=
  st.a < 4294967296 ∧ st.b < 4294967296 ∧ st.c < 4294967296 ∧ st.d < 4294967296 ∧
    st.e < 4294967296

/-- The bytes of a C++ string: the value of each `char` as an `uint8_t`. -/
def bytes_of (s : Str) : List Nat := s.map (fun c => c.toNat % 256)

/-! ## Definitions for the statements on groups and uploads -/

/-- The elements of a `std::set<string>` in iteration order: strictly increasing in the
order of `str_lt`. -/
def strictly_sorted (l : List Str) : Prop := l.Pairwise (fun a b => str_lt a b = true)

/-- The file `f1` of group `grp`, owned by `O`. -/
def ex_f1 : File :=
  { group := "grp".toList, filename := "f1".toList, owner := "O".toList, sha := "x".toList,
    size := 0, piece_sha := [], peers := ["p".toList] }

/-- The file `f2` of group `grp`, owned by `M`. -/
def ex_f2 : File :=
  { group := "grp".toList, filename := "f2".toList, owner := "M".toList, sha := "y".toList,
    size := 0, piece_sha := [], peers := ["q".toList] }

/-- The group `grp` with owner `O` and member `M`, with the files `f1` and `f2`. -/
def ex_team : Registry :=
  { users := [], groups := [("grp".toList, ("O".toList, ["M".toList, "O".toList]))],
    requests := [], files := [("grp f1".toList, ex_f1), ("grp f2".toList, ex_f2)] }

/-- The registry `ex_team` after `LEAVE_GROUP O grp`: `M` owns the group, `f2` is left. -/
def ex_team_left : Registry :=
  { users := [], groups := [("grp".toList, ("M".toList, ["M".toList]))],
    requests := [], files := [("grp f2".toList, ex_f2)] }

/-- The piece hashes the tracker keeps from the tokens `hs` that follow the user of an
upload record declaring `n` pieces: the first `n` tokens of 40 characters. -/
def kept_hashes (n : Nat) (hs : List Str) : List Str :=
  (hs.filter (fun h => decide (h.length = 40))).take n

/-- The tokens of the command `UPLOAD_META g name size n sha peer user h1 .. hk` with the
size and the piece count written in decimal. -/
def upload_cmd (g name : Str) (size n : Nat) (sha peer user : Str) (hs : List Str) : List Str :=
  "UPLOAD_META".toList :: g :: name :: to_string size :: to_string n :: sha :: peer :: user :: hs

/-- The characters that follow the last fixed field of a record: nothing, or a space and
the remaining tokens joined by spaces. -/
def tail_tokens (hs : List Str) : List Char :=
  match hs with
  | [] => []
  | h :: rest => ' ' :: join_sp (h :: rest)

/-- The group `g` owned by `a` with the second member `b`. -/
def ex_pair : Registry :=
  { users := [], groups := [("g".toList, ("a".toList, ["a".toList, "b".toList]))],
    requests := [], files := [] }

/-- The record of file `f` of group `g` as `b` uploads it from peer `q`. -/
def ex_file_b : File :=
  { group := "g".toList, filename := "f".toList, owner := "b".toList, sha := "x".toList,
    size := 10, piece_sha := [ex_hash], peers := ["q".toList] }

/-- Whether a string is a token can be decided. -/
instance instDecidableIsToken (t : Str) : Decidable (is_token t) := by
  unfold is_token
  infer_instance

/-! ## The client: manifest parsing and the round trip to the trackers (`client.cpp`) -/

/-- The extraction `iss >> n` of an `int` (`num_get` in the C locale, base 10): skip
whitespace, an optional sign, the longest run of digits; no digit or a value outside the
range of `int` sets the fail bit.  On a stream that has failed already the variable keeps
its value `old`. -/
def IStream.getInt (s : IStream) (old : Int) : Int × IStream :=
  if s.fail then (old, s)
  else
    let t := s.buf.dropWhile isspace
    let neg : Bool := t.head? = some (Char.ofNat 45)
    let body := if t.head? = some (Char.ofNat 45) ∨ t.head? = some (Char.ofNat 43) then t.tail else t
    let ds := body.takeWhile isdigit
    let rest := body.dropWhile isdigit
    if ds.isEmpty then (0, { buf := rest, fail := true })
    else
      let v : Int := if neg then -(digits_value ds : Int) else (digits_value ds : Int)
      if v < -2147483648 then (-2147483648, { buf := rest, fail := true })
      else if 2147483647 < v then (2147483647, { buf := rest, fail := true })
      else (v, { buf := rest, fail := false })

/-- The call `getline(iss, str)`: the line read, without its newline, and the stream; it
fails on a failed stream and when no character is left. -/
def IStream.getline (s : IStream) : Str × IStream :=
  if s.fail then ([], s)
  else
    match s.buf with
    | [] => ([], { buf := [], fail := true })
    | c :: cs =>
      ((c :: cs).takeWhile (fun x => x ≠ '\n'),
       { buf := ((c :: cs).dropWhile (fun x => x ≠ '\n')).drop 1, fail := false })

/-- The passes of the loop `while(pos < line.length())` of `parse_hashes`; `rest` is the
line from `pos` on.  Every pass that does not leave the loop moves `pos` forward, so
`line.length() + 1` passes always suffice (the first argument bounds them). -/
def parse_hashes_go : Nat → List Char → List Str → List Str
  | 0, _, hashes => hashes
  | fuel + 1, rest, hashes =>
    if rest.isEmpty then hashes
    else
      let r := rest.dropWhile (fun c => !isxdigit c)
      if 40 ≤ r.length then
        let candidate := r.take 40
        if candidate.all isxdigit then
          let r2 := r.drop 40
          parse_hashes_go fuel (if r2.head? = some ',' then r2.tail else r2)
            (hashes ++ [candidate])
        else parse_hashes_go fuel (r.drop 1) hashes
      else hashes

/-- The function `parse_hashes` of `client.cpp`. -/
def parse_hashes (line : Str) : List Str :=
  parse_hashes_go (line.length + 1) line []

/-- The loop `while(getline(iss, pline) && pline != "PEERS");`: the stream after it.  Every
pass consumes a character or ends the loop; the first argument bounds the passes. -/
def skip_to_peers : Nat → IStream → IStream
  | 0, s => s
  | fuel + 1, s =>
    let r := s.getline
    if r.2.fail then r.2
    else if r.1 = "PEERS".toList then r.2
    else skip_to_peers fuel r.2

/-- The loop `while(getline(iss, pline) && !pline.empty()) peers.push_back(pline);`; the
first argument bounds the passes. -/
def read_peers : Nat → IStream → List Str → List Str
  | 0, _, peers => peers
  | fuel + 1, s, peers =>
    let r := s.getline
    if r.2.fail then peers
    else if r.1.isEmpty then peers
    else read_peers fuel r.2 (peers ++ [r.1])

/-- What the download_file branch of `main` reads from a GET_FILE_PEERS reply. -/
structure Manifest where
  fsz : Nat
  np : Int
  file_sha : Str
  hashes : List Str
  peers : List Str
deriving DecidableEq, Repr

/-- The manifest parsing of the download_file branch of `main` on the reply `rep`: `none`
when the branch gives up (an ERR reply, a hash count that differs from `np`, no peer).
`np0` is the value the uninitialised `np` holds when the stream fails before it is read. -/
def parse_manifest (np0 : Int) (rep : Str) : Option Manifest :=
  if rep.take 3 = "ERR".toList then none
  else
    let r1 := IStream.getU64 { buf := rep, fail := false }
    let r2 := r1.2.getInt np0
    let r3 := r2.2.getline
    let r4 := r3.2.getline
    let r5 := r4.2.getline
    let hashes := parse_hashes r5.1
    if to_int32 hashes.length ≠ r2.1 then none
    else
      let s6 := skip_to_peers (rep.length + 1) r5.2
      let peers := read_peers (rep.length + 1) s6 []
      if peers.isEmpty then none
      else some { fsz := r1.1, np := r2.1, file_sha := r4.1, hashes := hashes, peers := peers }

/-- A lowercase hexadecimal digit. -/
def is_lower_hex (c : Char) : Prop := c ∈ "0123456789abcdef".toList

/-- The reply format of GET_FILE_PEERS for a file record. -/
def manifest_text (f : File) : Str :=
  to_string f.size ++ " ".toList ++ to_string f.piece_sha.length ++ "\n".toList ++ f.sha ++
    "\n".toList ++ join_comma f.piece_sha ++ "\nPEERS\n".toList ++ lines_of f.peers

/-- A piece hash as the parser of the client accepts it: 40 hexadecimal digits. -/
def is_hash (h : Str) : Prop := h.length = 40 ∧ ∀ c ∈ h, isxdigit c = true

/-- The function `send_to_endpoint` of `client.cpp`: the reply when it returns true, `none`
when it returns false, or the exception `stoi` throws on the port.  `link` is what the
connection gives once the address is parsed: the reply received, or `none` when `connect`,
`send_msg` or `recv_msg` fails.  The call `socket()` is taken to give a descriptor (when
it does not, the function returns false before it parses the port). -/
def send_to_endpoint (link : Option Str) (addr : Str) : Except Exn (Option Str) :=
  if ¬ (':' ∈ addr) then .ok none
  else
    match stoi ((addr.dropWhile (fun c => c ≠ ':')).drop 1) with
    | .error e => .error e
    | .ok _ => .ok link

/-- The loop `for(auto& t : trackers)` of `tracker_roundtrip` from list position `i` on, with
the current tracker `connected`: the reply, if any, and `connected_tracker` afterwards.  The
network gives `net t msg (i + 1)` to the attempt on the tracker at position `i`. -/
def try_trackers (net : Net) (connected msg : Str) :
    List Str → Nat → Except Exn (Option Str × Str)
  | [], _ => .ok (none, connected)
  | t :: ts, i =>
    if t ≠ connected then
      match send_to_endpoint (net t msg (i + 1)) t with
      | .error e => .error e
      | .ok (some reply) => .ok (some reply, t)
      | .ok none => try_trackers net connected msg ts (i + 1)
    else try_trackers net connected msg ts (i + 1)

/-- The function `tracker_roundtrip`: the reply when it returns true (`none` when it returns
false) and the value of `connected_tracker` afterwards, or the exception of `stoi`.  The
network gives `net connected msg 0` to the attempt on the current tracker. -/
def tracker_roundtrip (net : Net) (trackers : List Str) (connected msg : Str) :
    Except Exn (Option Str × Str) :=
  match send_to_endpoint (net connected msg 0) connected with
  | .error e => .error e
  | .ok (some reply) => .ok (some reply, connected)
  | .ok none => try_trackers net connected msg trackers 0

/-- An endpoint address on which `send_to_endpoint` does not throw: without a colon, or
with a decimal port after the first colon. -/
def port_ok (addr : Str) : Bool :=
  if ¬ (':' ∈ addr) then true
  else
    match stoi ((addr.dropWhile (fun c => c ≠ ':')).drop 1) with
    | .error _ => false
    | .ok _ => true

/-- Whether the endpoint `addr` responds to `msg` at attempt `k` of a roundtrip, and with
what: its address has a colon and the connection delivers a reply. -/
def responds (net : Net) (msg addr : Str) (k : Nat) : Option Str :=
  if ':' ∈ addr then net addr msg k else none

/-- A network in which only the tracker at `127.0.0.1:5001` answers, with `OK`. -/
def ex_tracker_net : Net := fun addr _ _ =>
  if addr = "127.0.0.1:5001".toList then some "OK".toList else none

/-! ## Invariants of the files table and the content of a registry -/

/-- The invariant of the files table under client commands: the owner of every file
record is a member of the group of the record. -/
def owner_inv (s : Registry) : Prop :=
  ∀ p ∈ s.files, is_member s p.2.owner p.2.group = true

/-- The content of the registry is the same in `s1` as in `s`: the same users, groups and
file records, and for every group the same list of pending join requests. -/
def same_content (s s1 : Registry) : Prop :=
  s1.users = s.users ∧ s1.groups = s.groups ∧ s1.files = s.files ∧
    ∀ g, requests_at s1 g = requests_at s g

/-! ## Invariants of the representation: sorted member sets, well-formed records -/

/-- Every member set of the registry is in the iteration order of a `std::set<string>`. -/
def sets_sorted (s : Registry) : Prop := ∀ p ∈ s.groups, strictly_sorted p.2.2

/-- A file record as the tracker builds them: the size is a `uint64_t`, the number of
piece hashes an `int`, the file hash has no newline, and every peer is a non-empty string
without a newline. -/
def record_ok (f : File) : Prop :=
  f.size < 18446744073709551616 ∧ f.piece_sha.length < 2147483648 ∧
    (∀ c ∈ f.sha, c ≠ '\n') ∧ ∀ p ∈ f.peers, p ≠ [] ∧ ∀ c ∈ p, c ≠ '\n'

/-- Every record of the files table is as the tracker builds them. -/
def files_ok (s : Registry) : Prop := ∀ p ∈ s.files, record_ok p.2

/-- A command as `serve_client` passes it to `handle_command`: the tokens `split_ws` cut
from a message. -/
def token_command (parts : List Str) : Prop := ∀ t ∈ parts, is_token t

/-- The two invariants kept by every command given as tokens: no group has the empty
string as a member, and every file record is as the tracker builds them. -/
def reg_ok (s : Registry) : Prop := no_empty_member s ∧ files_ok s

/-! ## The peer: choosing the port of the piece server (`client.cpp`) -/

/-- What `start_peer_server` leaves behind: the global `peer_port`, the port handed to
the listener thread (`none` when no `bind` succeeded), and the value of the loop
variable `tries` when the loop was left. -/
structure PeerServer where
  peer_port : Nat
  listener : Option Nat
  tries : Nat
deriving DecidableEq, Repr

/-- The loop `for(int tries = 0; tries < 40; tries++, port++)` of `start_peer_server`
with `left = 40 - tries` passes to go.  `socket_ok tries` tells whether `socket()` gave
a descriptor in that pass (`continue` otherwise), `bind_ok tries port` whether `bind`
returned 0; after the loop `peer_port = port`. -/
def bind_loop (socket_ok : Nat → Bool) (bind_ok : Nat → Nat → Bool) :
    Nat → Nat → Nat → PeerServer
  | 0, tries, port => PeerServer.mk port none tries
  | left + 1, tries, port =>
    if !socket_ok tries then bind_loop socket_ok bind_ok left (tries + 1) (port + 1)
    else if bind_ok tries port then PeerServer.mk port (some port) tries
    else bind_loop socket_ok bind_ok left (tries + 1) (port + 1)

/-- The function `start_peer_server`; `rand` is the value `rand()` returns. -/
def start_peer_server (rand : Nat) (socket_ok : Nat → Bool) (bind_ok : Nat → Nat → Bool) :
    PeerServer :=
  bind_loop socket_ok bind_ok 40 0 (20000 + rand % 15000)

/-! ## Example registries for replication after a lost message and for reloading -/

/-- The registry of a tracker that missed `CREATE_GROUP a g` and then received
`SYNC JOIN_GROUP u g`: a pending request for a group it does not have. -/
def ex_orphan_request : Registry :=
  Registry.mk [] [] [("g".toList, ["u".toList])] []

/-- The registry `ex_orphan_request` after `handle_sync` on `ACCEPT_REQUEST g u`: the
entry `groups[g]` made by `operator[]` has the empty string as its owner. -/
def ex_ownerless : Registry :=
  Registry.mk [] [("g".toList, ([], ["u".toList]))] [("g".toList, [])] []

/-- A 40-character piece hash token whose first character is not a hex digit. -/
def ex_stuck_hash : Str := "zaaaaaaaaaaaaaaaaaaaaaaaaaaaaaaaaaaaaaaa".toList

/-- The command `UPLOAD_META g f 10 1 x p a <ex_stuck_hash>`. -/
def ex_stuck_upload_cmd : List Str :=
  ["UPLOAD_META".toList, "g".toList, "f".toList, "10".toList, "1".toList, "x".toList,
   "p".toList, "a".toList, ex_stuck_hash]

/-- The record the command `ex_stuck_upload_cmd` stores. -/
def ex_stuck_file : File :=
  File.mk "g".toList "f".toList "a".toList "x".toList 10 [ex_stuck_hash] ["p".toList]

/-- The registry `ex_group` after `ex_stuck_upload_cmd`. -/
def ex_stuck_shared : Registry := { ex_group with files := [("g f".toList, ex_stuck_file)] }

/-- The line `save` writes for `ex_stuck_file`. -/
def ex_stuck_line : Str := "g f 10 1 x a zaaaaaaaaaaaaaaaaaaaaaaaaaaaaaaaaaaaaaaa p".toList

/-- The registry `ex_ownerless` after `LEAVE_GROUP u g`: the group `g` is still there,
with the empty string as owner and without a member. -/
def ex_memberless : Registry :=
  Registry.mk [] [("g".toList, ([], []))] [("g".toList, [])] []

/-! ## Lemmas on the containers and the dispatch -/

theorem mem_map_assign {V : Type} {m : List (Str × V)} {k : Str} {v : V} {p : Str × V}
    (h : p ∈ map_assign m k v) : p = (k, v) ∨ p ∈ m := by
  induction m with
  | nil => simp [map_assign] at h; exact Or.inl h
  | cons a rest ih =>
    obtain ⟨k1, w⟩ := a
    simp only [map_assign] at h
    split_ifs at h with hk
    · rcases List.mem_cons.mp h with h1 | h1
      · left; rw [h1, hk]
      · right; exact List.mem_cons_of_mem _ h1
    · rcases List.mem_cons.mp h with h1 | h1
      · right; rw [h1]; exact List.mem_cons_self _ _
      · rcases ih h1 with h2 | h2
        · exact Or.inl h2
        · right; exact List.mem_cons_of_mem _ h2

theorem mem_map_erase {V : Type} {m : List (Str × V)} {k : Str} {p : Str × V}
    (h : p ∈ map_erase m k) : p ∈ m := List.mem_of_mem_filter h

theorem map_find_mem {V : Type} {m : List (Str × V)} {k : Str} {v : V}
    (h : map_find m k = some v) : (k, v) ∈ m := by
  induction m with
  | nil => simp [map_find] at h
  | cons a rest ih =>
    obtain ⟨k1, w⟩ := a
    simp only [map_find] at h
    split_ifs at h with hk
    · simp only [Option.some.injEq] at h
      rw [← hk, ← h]; exact List.mem_cons_self _ _
    · exact List.mem_cons_of_mem _ (ih h)

theorem mem_set_insert {x y : Str} {s : List Str} : y ∈ set_insert x s ↔ y = x ∨ y ∈ s := by
  induction s with
  | nil => simp [set_insert]
  | cons a rest ih =>
    simp only [set_insert]
    split_ifs with h1 h2
    · subst h1; simp
    · simp
    · simp only [List.mem_cons, ih]; tauto

theorem mem_set_erase {x y : Str} {s : List Str} : y ∈ set_erase x s ↔ y ∈ s ∧ y ≠ x := by
  simp [set_erase]

theorem headD_mem {l : List Str} (h : l.isEmpty = false) : l.headD [] ∈ l := by
  cases l with
  | nil => simp at h
  | cons a rest => simp


theorem forall_map_assign {V : Type} {P : Str × V → Prop} {m : List (Str × V)} {k : Str} {v : V}
    (hm : ∀ p ∈ m, P p) (hv : P (k, v)) : ∀ p ∈ map_assign m k v, P p := by
  intro p hp
  rcases mem_map_assign hp with h | h
  · rw [h]; exact hv
  · exact hm p h

theorem forall_map_erase {V : Type} {P : Str × V → Prop} {m : List (Str × V)} {k : Str}
    (hm : ∀ p ∈ m, P p) : ∀ p ∈ map_erase m k, P p :=
  fun p hp => hm p (mem_map_erase hp)

theorem handle_command_dispatched {s : Registry} {parts : List Str} {h : Handled}
    (hh : handle_command s parts = .ok h) : dispatched s parts h := by
  unfold handle_command at hh
  unfold dispatched
  intro cmd p1 p2 p3
  by_cases c0 : parts = []
  · rw [if_pos c0] at hh; cases hh
  rw [if_neg c0] at hh
  by_cases c1 : parts.headD [] = "REGISTER".toList ∧ parts.length = 3
  · rw [if_pos c1] at hh; injection hh with hh; exact Or.inl (⟨c1.1, c1.2, hh.symm⟩)
  rw [if_neg c1] at hh
  by_cases c2 : parts.headD [] = "LOGIN".toList ∧ parts.length = 3
  · rw [if_pos c2] at hh; injection hh with hh; exact Or.inr (Or.inl (⟨c2.1, c2.2, hh.symm⟩))
  rw [if_neg c2] at hh
  by_cases c3 : parts.headD [] = "CREATE_GROUP".toList ∧ parts.length = 3
  · rw [if_pos c3] at hh; injection hh with hh; exact Or.inr (Or.inr (Or.inl (⟨c3.1, c3.2, hh.symm⟩)))
  rw [if_neg c3] at hh
  by_cases c4 : parts.headD [] = "JOIN_GROUP".toList ∧ parts.length = 3
  · rw [if_pos c4] at hh; injection hh with hh; exact Or.inr (Or.inr (Or.inr (Or.inl (⟨c4.1, c4.2, hh.symm⟩))))
  rw [if_neg c4] at hh
  by_cases c5 : parts.headD [] = "LIST_GROUPS".toList
  · rw [if_pos c5] at hh; injection hh with hh; exact Or.inr (Or.inr (Or.inr (Or.inr (Or.inl (⟨c5, hh.symm⟩)))))
  rw [if_neg c5] at hh
  by_cases c6 : parts.headD [] = "LIST_REQUESTS".toList ∧ parts.length = 3
  · rw [if_pos c6] at hh; injection hh with hh; exact Or.inr (Or.inr (Or.inr (Or.inr (Or.inr (Or.inl (⟨c6.1, c6.2, hh.symm⟩))))))
  rw [if_neg c6] at hh
  by_cases c7 : parts.headD [] = "ACCEPT_REQUEST".toList ∧ parts.length = 4
  · rw [if_pos c7] at hh; injection hh with hh; exact Or.inr (Or.inr (Or.inr (Or.inr (Or.inr (Or.inr (Or.inl (⟨c7.1, c7.2, hh.symm⟩)))))))
  rw [if_neg c7] at hh
  by_cases c8 : parts.headD [] = "LEAVE_GROUP".toList ∧ parts.length = 3
  · rw [if_pos c8] at hh; injection hh with hh; exact Or.inr (Or.inr (Or.inr (Or.inr (Or.inr (Or.inr (Or.inr (Or.inl (⟨c8.1, c8.2, hh.symm⟩))))))))
  rw [if_neg c8] at hh
  by_cases c9 : parts.headD [] = "LIST_FILES".toList ∧ parts.length = 3
  · rw [if_pos c9] at hh; injection hh with hh; exact Or.inr (Or.inr (Or.inr (Or.inr (Or.inr (Or.inr (Or.inr (Or.inr (Or.inl (⟨c9.1, c9.2, hh.symm⟩)))))))))
  rw [if_neg c9] at hh
  by_cases c10 : parts.headD [] = "GET_FILE_PEERS".toList ∧ parts.length = 4
  · rw [if_pos c10] at hh; injection hh with hh; exact Or.inr (Or.inr (Or.inr (Or.inr (Or.inr (Or.inr (Or.inr (Or.inr (Or.inr (Or.inl (⟨c10.1, c10.2, hh.symm⟩))))))))))
  rw [if_neg c10] at hh
  by_cases c11 : parts.headD [] = "STOP_SHARE".toList ∧ parts.length = 4
  · rw [if_pos c11] at hh; injection hh with hh; exact Or.inr (Or.inr (Or.inr (Or.inr (Or.inr (Or.inr (Or.inr (Or.inr (Or.inr (Or.inr (Or.inl (⟨c11.1, c11.2, hh.symm⟩)))))))))))
  rw [if_neg c11] at hh
  by_cases c12 : parts.headD [] = "ADD_PEER".toList ∧ parts.length = 4
  · rw [if_pos c12] at hh; injection hh with hh; exact Or.inr (Or.inr (Or.inr (Or.inr (Or.inr (Or.inr (Or.inr (Or.inr (Or.inr (Or.inr (Or.inr (Or.inl (⟨c12.1, c12.2, hh.symm⟩))))))))))))
  rw [if_neg c12] at hh
  by_cases c13 : (parts.headD []).take 11 = "UPLOAD_META".toList
  · rw [if_pos c13] at hh; exact Or.inr (Or.inr (Or.inr (Or.inr (Or.inr (Or.inr (Or.inr (Or.inr (Or.inr (Or.inr (Or.inr (Or.inr (Or.inl (⟨c13, hh⟩)))))))))))))
  rw [if_neg c13] at hh
  by_cases c14 : parts.headD [] = "SYNC".toList ∧ 2 ≤ parts.length
  · rw [if_pos c14] at hh; exact Or.inr (Or.inr (Or.inr (Or.inr (Or.inr (Or.inr (Or.inr (Or.inr (Or.inr (Or.inr (Or.inr (Or.inr (Or.inr (Or.inl (⟨c14.1, hh⟩))))))))))))))
  rw [if_neg c14] at hh
  injection hh with hh; exact Or.inr (Or.inr (Or.inr (Or.inr (Or.inr (Or.inr (Or.inr (Or.inr (Or.inr (Or.inr (Or.inr (Or.inr (Or.inr (Or.inr (hh.symm))))))))))))))

theorem is_owner_find {s : Registry} {u g : Str} (h : is_owner s u g = true) :
    ∃ gi, map_find s.groups g = some gi ∧ gi.1 = u := by
  unfold is_owner at h
  split at h
  · cases h
  · next gi hg => exact ⟨gi, hg, of_decide_eq_true h⟩

theorem is_member_find {s : Registry} {u g : Str} (h : is_member s u g = true) :
    ∃ gi, map_find s.groups g = some gi ∧ u ∈ gi.2 := by
  unfold is_member at h
  split at h
  · cases h
  · next gi hg => exact ⟨gi, hg, of_decide_eq_true h⟩

theorem groups_at_of_find {s : Registry} {g : Str} {gi : Str × List Str}
    (h : map_find s.groups g = some gi) : groups_at s g = gi := by
  simp [groups_at, h]

theorem group_inv_leave {s : Registry} (hinv : group_inv s) {g u : Str} {gi : Str × List Str}
    (hg : map_find s.groups g = some gi) :
    group_inv
      (if gi.1 = u then
        if (set_erase u gi.2).isEmpty then
          { s with groups := map_erase s.groups g, requests := map_erase s.requests g,
                   files := erase_owned_files s.files u g }
        else
          { s with groups := map_assign s.groups g ((set_erase u gi.2).headD [], set_erase u gi.2),
                   files := erase_owned_files s.files u g }
      else
        { s with groups := map_assign s.groups g (gi.1, set_erase u gi.2),
                 files := erase_owned_files s.files u g }) := by
  split_ifs with h1 h2
  · exact forall_map_erase hinv
  · exact forall_map_assign hinv (headD_mem (by simpa using h2))
  · refine forall_map_assign hinv ?_
    exact mem_set_erase.mpr ⟨hinv _ (map_find_mem hg), h1⟩

theorem cmd_accept_request_group_inv {s : Registry} (hinv : group_inv s) (p1 p2 p3 : Str) :
    group_inv (cmd_accept_request s p1 p2 p3).state := by
  unfold cmd_accept_request
  dsimp only
  split_ifs with h1 h2
  · exact hinv
  · obtain ⟨gi, hg, -⟩ := is_owner_find (by simpa using h1)
    rw [groups_at_of_find hg]
    refine forall_map_assign hinv ?_
    exact mem_set_insert.mpr (Or.inr (hinv _ (map_find_mem hg)))
  · exact hinv

theorem cmd_leave_group_group_inv {s : Registry} (hinv : group_inv s) (p1 p2 : Str) :
    group_inv (cmd_leave_group s p1 p2).state := by
  unfold cmd_leave_group
  dsimp only
  split_ifs with h1 h2 h3
  · exact hinv
  · exact forall_map_erase hinv
  · exact forall_map_assign hinv (headD_mem (by simpa using h3))
  · obtain ⟨gi, hg, -⟩ := is_member_find (by simpa using h1)
    rw [groups_at_of_find hg] at h2 ⊢
    refine forall_map_assign hinv ?_
    exact mem_set_erase.mpr ⟨hinv _ (map_find_mem hg), h2⟩

theorem cmd_create_group_group_inv {s : Registry} (hinv : group_inv s) (p1 p2 : Str) :
    group_inv (cmd_create_group s p1 p2).state := by
  unfold cmd_create_group
  split_ifs with h1
  · exact hinv
  · exact forall_map_assign hinv (mem_set_insert.mpr (Or.inl rfl))

/-- What a returning UPLOAD_META branch did. -/
theorem cmd_upload_meta_ok {s : Registry} {full : Str} {h : Handled}
    (hh : cmd_upload_meta s full = .ok h) :
    12 ≤ full.length ∧
    ∃ np : Int, stoi (extract_upload { buf := full.drop 12, fail := false }).1.np_str = .ok np ∧
      ((is_member s (extract_upload { buf := full.drop 12, fail := false }).1.user
            (extract_upload { buf := full.drop 12, fail := false }).1.group = false ∧
          h = { state := s, reply := "ERR not_member".toList, bcast := none }) ∨
       (is_member s (extract_upload { buf := full.drop 12, fail := false }).1.user
            (extract_upload { buf := full.drop 12, fail := false }).1.group = true ∧
          ((hash_loop np (extract_upload { buf := full.drop 12, fail := false }).2.tokens []).length
              : Int) ≠ np ∧
          h = { state := s, reply := "ERR piece_count_mismatch".toList, bcast := none }) ∨
       (is_member s (extract_upload { buf := full.drop 12, fail := false }).1.user
            (extract_upload { buf := full.drop 12, fail := false }).1.group = true ∧
          ((hash_loop np (extract_upload { buf := full.drop 12, fail := false }).2.tokens []).length
              : Int) = np ∧
          h = { state := store_upload s (extract_upload { buf := full.drop 12, fail := false }).1
                    (hash_loop np (extract_upload { buf := full.drop 12, fail := false }).2.tokens []),
                reply := "OK".toList,
                bcast := some ("UPLOAD_META ".toList ++ full.drop 12) })) := by
  unfold cmd_upload_meta at hh
  by_cases h0 : full.length < 12
  · rw [if_pos h0] at hh; cases hh
  rw [if_neg h0] at hh
  refine ⟨by omega, ?_⟩
  dsimp only at hh
  cases hst : stoi (extract_upload { buf := full.drop 12, fail := false }).1.np_str with
  | error e => rw [hst] at hh; cases hh
  | ok np =>
    rw [hst] at hh
    dsimp only at hh
    refine ⟨np, rfl, ?_⟩
    cases hm : is_member s (extract_upload { buf := full.drop 12, fail := false }).1.user
            (extract_upload { buf := full.drop 12, fail := false }).1.group with
    | false =>
      rw [hm] at hh
      simp only [Bool.not_false, if_true] at hh
      injection hh with hh
      exact Or.inl ⟨rfl, hh.symm⟩
    | true =>
      rw [hm] at hh
      simp only [Bool.not_true, Bool.false_eq_true, if_false] at hh
      by_cases hl : ((hash_loop np
          (extract_upload { buf := full.drop 12, fail := false }).2.tokens []).length : Int) = np
      · rw [if_neg (not_not.mpr hl)] at hh
        injection hh with hh
        exact Or.inr (Or.inr ⟨rfl, hl, hh.symm⟩)
      · rw [if_pos hl] at hh
        injection hh with hh
        exact Or.inr (Or.inl ⟨rfl, hl, hh.symm⟩)

theorem cmd_upload_meta_groups {s : Registry} {full : Str} {h : Handled}
    (hh : cmd_upload_meta s full = .ok h) : h.state.groups = s.groups := by
  obtain ⟨-, np, -, h1 | h1 | h1⟩ := cmd_upload_meta_ok hh
  · rw [h1.2]
  · rw [h1.2.2]
  · rw [h1.2.2]; rfl

theorem handle_command_group_inv {s : Registry} {parts : List Str} {h : Handled}
    (hinv : group_inv s) (hc : client_command parts)
    (hh : handle_command s parts = .ok h) : group_inv h.state := by
  have hd := handle_command_dispatched hh
  unfold dispatched at hd
  rcases hd with ⟨-, -, e⟩ | ⟨-, -, e⟩ | ⟨-, -, e⟩ | ⟨-, -, e⟩ | ⟨-, e⟩ | ⟨-, -, e⟩ | ⟨-, -, e⟩ |
    ⟨-, -, e⟩ | ⟨-, -, e⟩ | ⟨-, -, e⟩ | ⟨-, -, e⟩ | ⟨-, -, e⟩ | e | e | e
  · subst e; unfold cmd_register; split_ifs <;> exact hinv
  · subst e; unfold cmd_login; split <;> [skip; split_ifs] <;> exact hinv
  · subst e; exact cmd_create_group_group_inv hinv _ _
  · subst e; unfold cmd_join_group; dsimp only; split_ifs <;> exact hinv
  · subst e; exact hinv
  · subst e; unfold cmd_list_requests; dsimp only; split_ifs <;> exact hinv
  · subst e; exact cmd_accept_request_group_inv hinv _ _ _
  · subst e; exact cmd_leave_group_group_inv hinv _ _
  · subst e; unfold cmd_list_files; split_ifs <;> exact hinv
  · subst e; unfold cmd_get_file_peers; split_ifs <;> [exact hinv; (split <;> [skip; (dsimp only; split_ifs)] <;> exact hinv)]
  · subst e; unfold cmd_stop_share; dsimp only; split <;> [skip; split_ifs] <;> exact hinv
  · subst e; unfold cmd_add_peer; dsimp only; split <;> exact hinv
  · unfold group_inv; rw [cmd_upload_meta_groups e.2]; exact hinv
  · exact absurd e.1 hc
  · subst e; exact hinv


theorem handle_sync_synced {s : Registry} {sync_data : Str} {s1 : Registry}
    (hh : handle_sync s sync_data = .ok s1) : synced s sync_data s1 := by
  unfold handle_sync at hh
  unfold synced
  intro r0
  by_cases c0 : (IStream.getStr { buf := sync_data, fail := false }).2.fail = true
  · rw [if_pos c0] at hh; injection hh with hh; exact Or.inl hh.symm
  rw [if_neg c0] at hh
  by_cases c1 : (IStream.getStr { buf := sync_data, fail := false }).1 = "REGISTER".toList
  · rw [if_pos c1] at hh; injection hh with hh; exact Or.inr (Or.inl (⟨c1, hh.symm⟩))
  rw [if_neg c1] at hh
  by_cases c2 : (IStream.getStr { buf := sync_data, fail := false }).1 = "CREATE_GROUP".toList
  · rw [if_pos c2] at hh; injection hh with hh; exact Or.inr (Or.inr (Or.inl (⟨c2, hh.symm⟩)))
  rw [if_neg c2] at hh
  by_cases c3 : (IStream.getStr { buf := sync_data, fail := false }).1 = "JOIN_GROUP".toList
  · rw [if_pos c3] at hh; injection hh with hh; exact Or.inr (Or.inr (Or.inr (Or.inl (⟨c3, hh.symm⟩))))
  rw [if_neg c3] at hh
  by_cases c4 : (IStream.getStr { buf := sync_data, fail := false }).1 = "ACCEPT_REQUEST".toList
  · rw [if_pos c4] at hh; injection hh with hh; exact Or.inr (Or.inr (Or.inr (Or.inr (Or.inl (⟨c4, hh.symm⟩)))))
  rw [if_neg c4] at hh
  by_cases c5 : (IStream.getStr { buf := sync_data, fail := false }).1 = "LEAVE_GROUP".toList
  · rw [if_pos c5] at hh; injection hh with hh; exact Or.inr (Or.inr (Or.inr (Or.inr (Or.inr (Or.inl (⟨c5, hh.symm⟩))))))
  rw [if_neg c5] at hh
  by_cases c6 : (IStream.getStr { buf := sync_data, fail := false }).1 = "STOP_SHARE".toList
  · rw [if_pos c6] at hh; injection hh with hh; exact Or.inr (Or.inr (Or.inr (Or.inr (Or.inr (Or.inr (Or.inl (⟨c6, hh.symm⟩)))))))
  rw [if_neg c6] at hh
  by_cases c7 : (IStream.getStr { buf := sync_data, fail := false }).1 = "ADD_PEER".toList
  · rw [if_pos c7] at hh; injection hh with hh; exact Or.inr (Or.inr (Or.inr (Or.inr (Or.inr (Or.inr (Or.inr (Or.inl (⟨c7, hh.symm⟩))))))))
  rw [if_neg c7] at hh
  by_cases c8 : (IStream.getStr { buf := sync_data, fail := false }).1 = "UPLOAD_META".toList
  · rw [if_pos c8] at hh; exact Or.inr (Or.inr (Or.inr (Or.inr (Or.inr (Or.inr (Or.inr (Or.inr (Or.inl (⟨c8, hh⟩)))))))))
  rw [if_neg c8] at hh
  refine Or.inr (Or.inr (Or.inr (Or.inr (Or.inr (Or.inr (Or.inr (Or.inr (Or.inr (⟨?_, hh⟩)))))))))
  simp only [sync_verbs, List.mem_cons, List.mem_singleton, List.not_mem_nil, or_false, not_or]
  exact ⟨c1, c2, c3, c4, c5, c6, c7, c8⟩

/-- What a returning upload branch of `handle_sync` did. -/
theorem sync_upload_meta_ok {s : Registry} {iss : IStream} {s1 : Registry}
    (hh : sync_upload_meta s iss = .ok s1) :
    s1 = s ∨
    ((extract_upload iss).2.fail = false ∧
      ∃ np : Int, stoi (extract_upload iss).1.np_str = .ok np ∧
        ((hash_loop np (extract_upload iss).2.tokens []).length : Int) = np ∧
        s1 = store_upload s (extract_upload iss).1
               (hash_loop np (extract_upload iss).2.tokens [])) := by
  unfold sync_upload_meta at hh
  dsimp only at hh
  by_cases h0 : (extract_upload iss).2.fail = true
  · rw [if_pos h0] at hh; injection hh with hh; exact Or.inl hh.symm
  rw [if_neg h0] at hh
  cases hst : stoi (extract_upload iss).1.np_str with
  | error e => rw [hst] at hh; cases hh
  | ok np =>
    rw [hst] at hh
    dsimp only at hh
    by_cases hl : ((hash_loop np (extract_upload iss).2.tokens []).length : Int) = np
    · rw [if_pos hl] at hh
      injection hh with hh
      exact Or.inr ⟨by simpa using h0, np, rfl, hl, hh.symm⟩
    · rw [if_neg hl] at hh
      injection hh with hh
      exact Or.inl hh.symm

theorem mem_erase_owned_files {files : List (Str × File)} {u g : Str} {p : Str × File}
    (h : p ∈ erase_owned_files files u g) : p ∈ files := List.mem_of_mem_filter h

theorem set_insert_ne_nil (x : Str) (l : List Str) : set_insert x l ≠ [] := by
  cases l with
  | nil => simp [set_insert]
  | cons a rest =>
    simp only [set_insert]
    split_ifs <;> simp

theorem file_origin_of_mem {s : Registry} {parts : List Str} {p : Str × File}
    (h : p ∈ s.files) : file_origin s parts p := Or.inl h

theorem file_origin_assign_peers {s : Registry} {parts : List Str} {key : Str} {f : File}
    {peers : List Str} (hf : map_find s.files key = some f) (hne : peers ≠ [])
    {p : Str × File} (hp : p ∈ map_assign s.files key { f with peers := peers }) :
    file_origin s parts p := by
  rcases mem_map_assign hp with h | h
  · right; left
    refine ⟨f, peers, ?_, hne, ?_⟩
    · rw [h]; exact map_find_mem hf
    · rw [h]
  · exact Or.inl h

theorem file_origin_store {s : Registry} {parts : List Str} {iss : IStream} {np : Int}
    (hsite : upload_site parts iss)
    (hst : stoi (extract_upload iss).1.np_str = .ok np)
    (hl : ((hash_loop np (extract_upload iss).2.tokens []).length : Int) = np)
    {p : Str × File}
    (hp : p ∈ (store_upload s (extract_upload iss).1
                (hash_loop np (extract_upload iss).2.tokens [])).files) :
    file_origin s parts p := by
  unfold store_upload at hp
  rcases mem_map_assign hp with h | h
  · right; right
    exact ⟨iss, np, hsite, hst, hl, by rw [h]⟩
  · exact Or.inl h

theorem cmd_stop_share_files {s : Registry} {parts : List Str} (p1 p2 p3 : Str)
    {p : Str × File} (hp : p ∈ (cmd_stop_share s p1 p2 p3).state.files) :
    file_origin s parts p := by
  unfold cmd_stop_share at hp
  dsimp only at hp
  cases hf : map_find s.files (p1 ++ ' ' :: p2) with
  | none => rw [hf] at hp; exact Or.inl hp
  | some f =>
    rw [hf] at hp
    dsimp only at hp
    by_cases he : (set_erase p3 f.peers).isEmpty = true
    · rw [if_pos he] at hp; exact Or.inl (mem_map_erase hp)
    · rw [if_neg he] at hp
      exact file_origin_assign_peers hf (by simpa using he) hp

theorem cmd_add_peer_files {s : Registry} {parts : List Str} (p1 p2 p3 : Str)
    {p : Str × File} (hp : p ∈ (cmd_add_peer s p1 p2 p3).state.files) :
    file_origin s parts p := by
  unfold cmd_add_peer at hp
  dsimp only at hp
  cases hf : map_find s.files (p1 ++ ' ' :: p2) with
  | none => rw [hf] at hp; exact Or.inl hp
  | some f =>
    rw [hf] at hp
    exact file_origin_assign_peers hf (set_insert_ne_nil _ _) hp

theorem cmd_leave_group_files {s : Registry} (p1 p2 : Str)
    {p : Str × File} (hp : p ∈ (cmd_leave_group s p1 p2).state.files) : p ∈ s.files := by
  unfold cmd_leave_group at hp
  dsimp only at hp
  split_ifs at hp
  · exact hp
  all_goals exact mem_erase_owned_files hp

theorem sync_stop_share_files {s : Registry} {parts : List Str} (iss : IStream)
    {p : Str × File} (hp : p ∈ (sync_stop_share s iss).files) :
    file_origin s parts p := by
  unfold sync_stop_share at hp
  dsimp only at hp
  by_cases h0 : (iss.getStr.2.getStr.2.getStr).2.fail = true
  · rw [if_pos h0] at hp; exact Or.inl hp
  rw [if_neg h0] at hp
  cases hf : map_find s.files (iss.getStr.1 ++ ' ' :: iss.getStr.2.getStr.1) with
  | none => rw [hf] at hp; exact Or.inl hp
  | some f =>
    rw [hf] at hp
    dsimp only at hp
    by_cases he : (set_erase (iss.getStr.2.getStr.2.getStr).1 f.peers).isEmpty = true
    · rw [if_pos he] at hp; exact Or.inl (mem_map_erase hp)
    · rw [if_neg he] at hp
      exact file_origin_assign_peers hf (by simpa using he) hp

theorem sync_add_peer_files {s : Registry} {parts : List Str} (iss : IStream)
    {p : Str × File} (hp : p ∈ (sync_add_peer s iss).files) :
    file_origin s parts p := by
  unfold sync_add_peer at hp
  dsimp only at hp
  by_cases h0 : (iss.getStr.2.getStr.2.getStr).2.fail = true
  · rw [if_pos h0] at hp; exact Or.inl hp
  rw [if_neg h0] at hp
  cases hf : map_find s.files (iss.getStr.1 ++ ' ' :: iss.getStr.2.getStr.1) with
  | none => rw [hf] at hp; exact Or.inl hp
  | some f =>
    rw [hf] at hp
    exact file_origin_assign_peers hf (set_insert_ne_nil _ _) hp

theorem sync_leave_group_files {s : Registry} (iss : IStream)
    {p : Str × File} (hp : p ∈ (sync_leave_group s iss).files) : p ∈ s.files := by
  unfold sync_leave_group at hp
  dsimp only at hp
  by_cases h0 : (iss.getStr.2.getStr).2.fail = true
  · rw [if_pos h0] at hp; exact hp
  rw [if_neg h0] at hp
  cases hg : map_find s.groups (iss.getStr.2.getStr).1 with
  | none => rw [hg] at hp; exact hp
  | some gi =>
    rw [hg] at hp
    dsimp only at hp
    split_ifs at hp
    all_goals first | exact hp | exact mem_erase_owned_files hp

theorem cmd_sync_ok {s : Registry} {rest : List Str} {h : Handled}
    (hh : cmd_sync s rest = .ok h) :
    h.reply = "OK".toList ∧ h.bcast = none ∧
      (h.state = s ∨ handle_sync s (join_sp rest) = .ok h.state) := by
  unfold cmd_sync at hh
  dsimp only at hh
  by_cases h0 : (join_sp rest).isEmpty = true
  · rw [if_pos h0] at hh; injection hh with hh; subst hh; exact ⟨rfl, rfl, Or.inl rfl⟩
  rw [if_neg h0] at hh
  cases hs : handle_sync s (join_sp rest) with
  | error e => rw [hs] at hh; cases hh
  | ok s1 =>
    rw [hs] at hh
    injection hh with hh
    subst hh
    exact ⟨rfl, rfl, Or.inr rfl⟩

/-- Every record of the files table after a returning command has one of the three
origins of `file_origin`. -/
theorem handle_command_file_origin {s : Registry} {parts : List Str} {h : Handled}
    (hh : handle_command s parts = .ok h) {p : Str × File} (hp : p ∈ h.state.files) :
    file_origin s parts p := by
  have hd := handle_command_dispatched hh
  unfold dispatched at hd
  rcases hd with ⟨-, -, e⟩ | ⟨-, -, e⟩ | ⟨-, -, e⟩ | ⟨-, -, e⟩ | ⟨-, e⟩ | ⟨-, -, e⟩ | ⟨-, -, e⟩ |
    ⟨-, -, e⟩ | ⟨-, -, e⟩ | ⟨-, -, e⟩ | ⟨-, -, e⟩ | ⟨-, -, e⟩ | e | e | e
  · subst e; unfold cmd_register at hp; split_ifs at hp <;> exact Or.inl hp
  · subst e; unfold cmd_login at hp; split at hp <;> [skip; split_ifs at hp] <;> exact Or.inl hp
  · subst e; unfold cmd_create_group at hp; split_ifs at hp <;> exact Or.inl hp
  · subst e; unfold cmd_join_group at hp; dsimp only at hp; split_ifs at hp <;> exact Or.inl hp
  · subst e; exact Or.inl hp
  · subst e; unfold cmd_list_requests at hp; dsimp only at hp; split_ifs at hp <;> exact Or.inl hp
  · subst e; unfold cmd_accept_request at hp; dsimp only at hp
    split_ifs at hp <;> exact Or.inl hp
  · subst e; exact Or.inl (cmd_leave_group_files _ _ hp)
  · subst e; unfold cmd_list_files at hp; split_ifs at hp <;> exact Or.inl hp
  · subst e; unfold cmd_get_file_peers at hp
    split_ifs at hp <;> [exact Or.inl hp; (split at hp <;> [skip; (dsimp only at hp; split_ifs at hp)] <;> exact Or.inl hp)]
  · subst e; exact cmd_stop_share_files _ _ _ hp
  · subst e; exact cmd_add_peer_files _ _ _ hp
  · obtain ⟨-, np, hst, h1 | h1 | h1⟩ := cmd_upload_meta_ok e.2
    · rw [h1.2] at hp; exact Or.inl hp
    · rw [h1.2.2] at hp; exact Or.inl hp
    · rw [h1.2.2] at hp
      exact file_origin_store (Or.inl ⟨e.1, rfl⟩) hst h1.2.1 hp
  · obtain ⟨-, -, h1 | h1⟩ := cmd_sync_ok e.2
    · rw [h1] at hp; exact Or.inl hp
    · have hs := handle_sync_synced h1
      unfold synced at hs
      rcases hs with q | q | q | q | q | q | q | q | q | q
      · rw [q] at hp; exact Or.inl hp
      · rw [q.2] at hp; unfold sync_register at hp; dsimp only at hp
        split_ifs at hp <;> exact Or.inl hp
      · rw [q.2] at hp; unfold sync_create_group at hp; dsimp only at hp
        split_ifs at hp <;> exact Or.inl hp
      · rw [q.2] at hp; unfold sync_join_group at hp; dsimp only at hp
        split_ifs at hp <;> exact Or.inl hp
      · rw [q.2] at hp; unfold sync_accept_request at hp; dsimp only at hp
        split_ifs at hp <;> exact Or.inl hp
      · rw [q.2] at hp; exact Or.inl (sync_leave_group_files _ hp)
      · rw [q.2] at hp; exact sync_stop_share_files _ hp
      · rw [q.2] at hp; exact sync_add_peer_files _ hp
      · rcases sync_upload_meta_ok q.2 with r | ⟨-, np, hst, hl, r⟩
        · rw [r] at hp; exact Or.inl hp
        · rw [r] at hp
          exact file_origin_store (Or.inr (Or.inl ⟨e.1, q.1, rfl⟩)) hst hl hp
      · rcases sync_upload_meta_ok q.2 with r | ⟨-, np, hst, hl, r⟩
        · rw [r] at hp; exact Or.inl hp
        · rw [r] at hp
          exact file_origin_store (Or.inr (Or.inr ⟨e.1, q.1, rfl⟩)) hst hl hp
  · subst e; exact Or.inl hp

theorem reachable_group_inv {s : Registry} (hr : Reachable client_command s) :
    group_inv s := by
  induction hr with
  | init => intro p hp; cases hp
  | step _ _ hc hh ih => exact handle_command_group_inv ih hc hh

/-- C1: in every registry reachable from the empty one by client (non-SYNC) commands
handled by `handle_command`, the owner of every group is in the member set of that group,
and no group has an empty member set. -/
theorem reachable_group_owner_is_member (s : Registry) (hr : Reachable client_command s)
    (g owner : Str) (members : List Str) (hg : (g, (owner, members)) ∈ s.groups) :
    owner ∈ members ∧ members ≠ [] := by
  have h := reachable_group_inv hr _ hg
  exact ⟨h, List.ne_nil_of_mem h⟩

theorem ex_group_step :
    handle_command Registry.empty ["CREATE_GROUP".toList, "a".toList, "g".toList] =
      .ok { state := ex_group, reply := "OK".toList,
            bcast := some "CREATE_GROUP a g".toList } := by
  rfl

theorem ex_group_reachable (allow : List Str → Prop)
    (ha : allow ["CREATE_GROUP".toList, "a".toList, "g".toList]) :
    Reachable allow ex_group :=
  Reachable.step Reachable.init (by simp) ha ex_group_step

/-- C1 at the registry after `CREATE_GROUP a g`. -/
theorem reachable_group_owner_is_member_witness :
    Reachable client_command ex_group ∧
      ("g".toList, ("a".toList, ["a".toList])) ∈ ex_group.groups ∧
      ("a".toList ∈ ["a".toList] ∧ ["a".toList] ≠ []) :=
  ⟨ex_group_reachable _ (by unfold client_command; decide),
   by unfold ex_group; simp,
   reachable_group_owner_is_member ex_group
     (ex_group_reachable _ (by unfold client_command; decide))
     "g".toList "a".toList ["a".toList] (by unfold ex_group; simp)⟩

/-- C2: in every registry reachable from the empty one by commands handled by
`handle_command`, client commands and SYNC messages alike, every file record has a
non-empty peer set. -/
theorem reachable_file_has_peer (s : Registry) (hr : Reachable any_command s)
    (key : Str) (f : File) (hf : (key, f) ∈ s.files) : f.peers ≠ [] := by
  induction hr generalizing key f with
  | init => cases hf
  | step _ _ _ hh ih =>
    rcases handle_command_file_origin hh hf with h | ⟨f0, peers, -, hne, h⟩ | ⟨iss, np, -, -, -, h⟩
    · exact ih key f h
    · simp only at h; rw [h]; exact hne
    · simp only at h; rw [h]; exact set_insert_ne_nil _ _

theorem ex_shared_step :
    handle_command ex_group ex_upload_cmd =
      .ok { state := ex_shared, reply := "OK".toList,
            bcast := some ("UPLOAD_META g f 10 1 x p a ".toList ++ ex_hash) } := by
  rfl

/-- C2 at the registry after `CREATE_GROUP a g` and an accepted UPLOAD_META. -/
theorem reachable_file_has_peer_witness :
    Reachable any_command ex_shared ∧ ("g f".toList, ex_file) ∈ ex_shared.files ∧
      ex_file.peers ≠ [] :=
  ⟨Reachable.step (ex_group_reachable _ trivial) (by simp [ex_upload_cmd]) trivial
     ex_shared_step,
   by unfold ex_shared; simp,
   reachable_file_has_peer ex_shared
     (Reachable.step (ex_group_reachable _ trivial) (by simp [ex_upload_cmd]) trivial
       ex_shared_step)
     "g f".toList ex_file (by unfold ex_shared; simp)⟩

theorem ex_bad_shared_step :
    handle_command ex_group ex_bad_upload_cmd =
      .ok { state := ex_bad_shared, reply := "OK".toList,
            bcast := some "UPLOAD_META g f 10 0 x p a".toList } := by
  rfl

/-- C3 as stated fails: after `CREATE_GROUP a g` and `UPLOAD_META g f 10 0 x p a` (both
accepted) the registry holds a record of 10 bytes with no piece hash, while
`ceil(10 / 524288) = 1`. -/
theorem piece_count_invariant_fails :
    ¬ (∀ s : Registry, Reachable any_command s → ∀ key f, (key, f) ∈ s.files →
        f.piece_sha.length = piece_count f.size) := by
  intro h
  have hr : Reachable any_command ex_bad_shared :=
    Reachable.step (ex_group_reachable _ trivial) (by simp [ex_bad_upload_cmd]) trivial
      ex_bad_shared_step
  have h1 := h ex_bad_shared hr "g f".toList ex_bad_file (by unfold ex_bad_shared; simp)
  revert h1
  decide

/-- C3, amended: in every registry reachable from the empty one by commands whose upload
records declare `nPieces = ceil(size / 524288)` (client UPLOAD_META, SYNC UPLOAD_META and
SYNC payloads read as upload records), every file record has exactly
`ceil(size / 524288)` piece hashes. -/
theorem reachable_piece_count (s : Registry) (hr : Reachable well_declared s)
    (key : Str) (f : File) (hf : (key, f) ∈ s.files) :
    f.piece_sha.length = piece_count f.size := by
  induction hr generalizing key f with
  | init => cases hf
  | step _ _ hw hh ih =>
    rcases handle_command_file_origin hh hf with h | ⟨f0, peers, hm, -, h⟩ | ⟨iss, np, hs, hst, hl, h⟩
    · exact ih key f h
    · simp only at h hm; rw [h]; exact ih key f0 hm
    · simp only at h
      have hd := hw iss hs
      rw [hst] at hd
      injection hd with hd
      subst hd
      rw [h]
      unfold upload_file_record
      exact_mod_cast hl

theorem ex_group_cmd_well_declared :
    well_declared ["CREATE_GROUP".toList, "a".toList, "g".toList] := by
  intro iss h
  rcases h with ⟨h, -⟩ | ⟨h, -⟩ | ⟨h, -⟩ <;> exact absurd h (by decide)

theorem ex_upload_cmd_well_declared : well_declared ex_upload_cmd := by
  intro iss h
  rcases h with ⟨-, h⟩ | ⟨h, -⟩ | ⟨h, -⟩
  · rw [h]; rfl
  · exact absurd h (by decide)
  · exact absurd h (by decide)

/-- C3, amended, at the registry after `CREATE_GROUP a g` and an UPLOAD_META that
declares one piece for 10 bytes. -/
theorem reachable_piece_count_witness :
    Reachable well_declared ex_shared ∧ ("g f".toList, ex_file) ∈ ex_shared.files ∧
      ex_file.piece_sha.length = piece_count ex_file.size :=
  ⟨Reachable.step (ex_group_reachable _ ex_group_cmd_well_declared)
     (by simp [ex_upload_cmd]) ex_upload_cmd_well_declared ex_shared_step,
   by unfold ex_shared; simp,
   reachable_piece_count ex_shared
     (Reachable.step (ex_group_reachable _ ex_group_cmd_well_declared)
       (by simp [ex_upload_cmd]) ex_upload_cmd_well_declared ex_shared_step)
     "g f".toList ex_file (by unfold ex_shared; simp)⟩


/-! ## Framing -/

theorem char_toNat_ofNat {k : Nat} (h : k < 256) : (Char.ofNat k).toNat = k := by
  have hv : k.isValidChar := Or.inl (by omega)
  unfold Char.ofNat
  rw [dif_pos hv]
  simp [Char.ofNatAux, Char.toNat, UInt32.toNat]

theorem u32_of_be_u32_be {n : Nat} (h : n < 4294967296) :
    u32_of_be (Char.ofNat (n / 16777216 % 256)) (Char.ofNat (n / 65536 % 256))
      (Char.ofNat (n / 256 % 256)) (Char.ofNat (n % 256)) = n := by
  unfold u32_of_be
  rw [char_toNat_ofNat (Nat.mod_lt _ (by norm_num)), char_toNat_ofNat (Nat.mod_lt _ (by norm_num)),
    char_toNat_ofNat (Nat.mod_lt _ (by norm_num)), char_toNat_ofNat (Nat.mod_lt _ (by norm_num))]
  omega

theorem send_msg_eq (s : Str) : send_msg s = u32_be (s.length % 4294967296) ++ s := by
  unfold send_msg
  cases s with
  | nil => simp
  | cons c cs => simp

theorem recv_msg_send_msg (s rest : Str) (hs : s.length ≤ 2097152) :
    recv_msg (send_msg s ++ rest) = some (s, rest) := by
  rw [send_msg_eq]
  have hlt : s.length < 4294967296 := by omega
  rw [Nat.mod_eq_of_lt hlt]
  unfold u32_be
  simp only [List.cons_append, List.nil_append, recv_msg]
  rw [u32_of_be_u32_be hlt]
  by_cases h0 : s.length = 0
  · rw [if_pos h0]
    have : s = [] := List.length_eq_zero.mp h0
    subst this
    simp
  · rw [if_neg h0, if_neg (by omega), if_neg (by simp)]
    simp

/-- C10: `send_msg(s)` writes the four-byte big-endian length of `s` (for a length that
fits 32 bits) followed by exactly the bytes of `s`; `recv_msg` on these bytes, whatever
follows them, returns `s` when `s` has at most 2097152 bytes; the empty payload is four
zero bytes and decodes to the empty message; and `recv_msg` fails for every declared
length above 2097152. -/
theorem send_msg_recv_msg_roundtrip :
    (∀ s : Str, s.length < 4294967296 →
      send_msg s = u32_be s.length ++ s ∧
      ∀ b0 b1 b2 b3 : Char, u32_be s.length = [b0, b1, b2, b3] →
        u32_of_be b0 b1 b2 b3 = s.length) ∧
    (∀ s rest : Str, s.length ≤ 2097152 → recv_msg (send_msg s ++ rest) = some (s, rest)) ∧
    send_msg [] = [Char.ofNat 0, Char.ofNat 0, Char.ofNat 0, Char.ofNat 0] ∧
    (∀ rest : Str, recv_msg (send_msg [] ++ rest) = some ([], rest)) ∧
    (∀ (b0 b1 b2 b3 : Char) (rest : List Char), 2097152 < u32_of_be b0 b1 b2 b3 →
      recv_msg (b0 :: b1 :: b2 :: b3 :: rest) = none) := by
  refine ⟨?_, recv_msg_send_msg, ?_, ?_, ?_⟩
  · intro s hs
    refine ⟨?_, ?_⟩
    · rw [send_msg_eq, Nat.mod_eq_of_lt hs]
    · intro b0 b1 b2 b3 hb
      unfold u32_be at hb
      injection hb with h0 hb
      injection hb with h1 hb
      injection hb with h2 hb
      injection hb with h3 hb
      rw [← h0, ← h1, ← h2, ← h3]
      exact u32_of_be_u32_be hs
  · rfl
  · intro rest
    exact recv_msg_send_msg [] rest (by simp)
  · intro b0 b1 b2 b3 rest hbig
    simp only [recv_msg]
    rw [if_neg (by omega), if_pos (by omega)]

/-- C10 at the payload `OK` followed by one more byte on the stream, and at the header
`00 20 00 01` that declares 2097153 bytes. -/
theorem send_msg_recv_msg_roundtrip_witness :
    (send_msg "OK".toList = u32_be 2 ++ "OK".toList ∧
      u32_of_be (Char.ofNat 0) (Char.ofNat 0) (Char.ofNat 0) (Char.ofNat 2) = 2) ∧
    recv_msg (send_msg "OK".toList ++ ['x']) = some ("OK".toList, ['x']) ∧
    recv_msg [Char.ofNat 0, Char.ofNat 32, Char.ofNat 0, Char.ofNat 1, 'x'] = none :=
  ⟨⟨(send_msg_recv_msg_roundtrip.1 "OK".toList (by decide)).1,
    (send_msg_recv_msg_roundtrip.1 "OK".toList (by decide)).2 _ _ _ _ rfl⟩,
   send_msg_recv_msg_roundtrip.2.1 "OK".toList ['x'] (by decide),
   send_msg_recv_msg_roundtrip.2.2.2.2 _ _ _ _ ['x'] (by decide)⟩


/-! ## Exceptions, snapshots and the download job at concrete inputs -/

/-- The part of C9 that holds: a command whose verb neither starts with UPLOAD_META nor
is SYNC makes `handle_command` return with one reply. -/
theorem handle_command_returns {s : Registry} {parts : List Str} (hne : parts ≠ [])
    (hup : (parts.headD []).take 11 ≠ "UPLOAD_META".toList)
    (hsync : parts.headD [] ≠ "SYNC".toList) :
    ∃ h, handle_command s parts = .ok h := by
  unfold handle_command
  dsimp only
  rw [if_neg hne]
  by_cases c1 : parts.headD [] = "REGISTER".toList ∧ parts.length = 3
  · rw [if_pos c1]; exact ⟨_, rfl⟩
  rw [if_neg c1]
  by_cases c2 : parts.headD [] = "LOGIN".toList ∧ parts.length = 3
  · rw [if_pos c2]; exact ⟨_, rfl⟩
  rw [if_neg c2]
  by_cases c3 : parts.headD [] = "CREATE_GROUP".toList ∧ parts.length = 3
  · rw [if_pos c3]; exact ⟨_, rfl⟩
  rw [if_neg c3]
  by_cases c4 : parts.headD [] = "JOIN_GROUP".toList ∧ parts.length = 3
  · rw [if_pos c4]; exact ⟨_, rfl⟩
  rw [if_neg c4]
  by_cases c5 : parts.headD [] = "LIST_GROUPS".toList
  · rw [if_pos c5]; exact ⟨_, rfl⟩
  rw [if_neg c5]
  by_cases c6 : parts.headD [] = "LIST_REQUESTS".toList ∧ parts.length = 3
  · rw [if_pos c6]; exact ⟨_, rfl⟩
  rw [if_neg c6]
  by_cases c7 : parts.headD [] = "ACCEPT_REQUEST".toList ∧ parts.length = 4
  · rw [if_pos c7]; exact ⟨_, rfl⟩
  rw [if_neg c7]
  by_cases c8 : parts.headD [] = "LEAVE_GROUP".toList ∧ parts.length = 3
  · rw [if_pos c8]; exact ⟨_, rfl⟩
  rw [if_neg c8]
  by_cases c9 : parts.headD [] = "LIST_FILES".toList ∧ parts.length = 3
  · rw [if_pos c9]; exact ⟨_, rfl⟩
  rw [if_neg c9]
  by_cases c10 : parts.headD [] = "GET_FILE_PEERS".toList ∧ parts.length = 4
  · rw [if_pos c10]; exact ⟨_, rfl⟩
  rw [if_neg c10]
  by_cases c11 : parts.headD [] = "STOP_SHARE".toList ∧ parts.length = 4
  · rw [if_pos c11]; exact ⟨_, rfl⟩
  rw [if_neg c11]
  by_cases c12 : parts.headD [] = "ADD_PEER".toList ∧ parts.length = 4
  · rw [if_pos c12]; exact ⟨_, rfl⟩
  rw [if_neg c12]
  rw [if_neg hup, if_neg (fun c => hsync c.1)]
  exact ⟨_, rfl⟩

/-- C9 fails on the code: `handle_command` ends with an uncaught exception on the
commands `UPLOAD_META` (`substr(12)` on 11 characters), `UPLOAD_META g` (`stoi` of an
empty string) and `UPLOAD_META g f 10 99999999999` (`stoi` out of range), in every
registry; no reply is sent. -/
theorem handle_command_upload_meta_throws (s : Registry) :
    handle_command s ["UPLOAD_META".toList] = .error .out_of_range ∧
    handle_command s ["UPLOAD_META".toList, "g".toList] = .error .invalid_argument ∧
    handle_command s ["UPLOAD_META".toList, "g".toList, "f".toList, "10".toList,
      "99999999999".toList] = .error .out_of_range :=
  ⟨rfl, rfl, rfl⟩

/-- C7 fails on the code: for the requests `GETPIECE f x` and `GETPIECE f 99999999999`
the worker of the piece server ends with the uncaught exception of `stoi` instead of
replying ERR, whatever the shared-file table and the files are. -/
theorem serve_request_bad_index_throws (uploaded_files : List (Str × Str))
    (fs : Str → Option (List Char)) :
    serve_request uploaded_files fs "GETPIECE f x".toList = .error .invalid_argument ∧
    serve_request uploaded_files fs "GETPIECE f 99999999999".toList = .error .out_of_range :=
  ⟨rfl, rfl⟩

theorem ex_empty_shared_step :
    handle_command ex_group (split_ws "UPLOAD_META g f 0 0 x p a".toList) =
      .ok { state := ex_empty_shared, reply := "OK".toList,
            bcast := some "UPLOAD_META g f 0 0 x p a".toList } := by
  rfl

/-- C4 fails on the code: the registry after `CREATE_GROUP a g` and
`UPLOAD_META g f 0 0 x p a` holds a record without pieces and with the peer `p`; `save`
writes the line `g f 0 0 x a p`, and `load` takes `p` for the piece-hash token, so the
loaded record has no peer. -/
theorem load_save_drops_peer :
    Reachable client_command ex_empty_shared ∧
    (save ex_empty_shared).files_txt = "g f 0 0 x a p\n".toList ∧
    load Registry.empty (save ex_empty_shared) 1 = .ok (some ex_empty_loaded) ∧
    map_find ex_empty_shared.files "g f".toList = some ex_empty_file ∧
    map_find ex_empty_loaded.files "g f".toList = some { ex_empty_file with peers := [] } ∧
    ex_empty_loaded ≠ ex_empty_shared := by
  refine ⟨?_, by rfl, by rfl, by rfl, by rfl, by decide⟩
  exact Reachable.step (ex_group_reachable _ (by unfold client_command; decide))
    (by decide) (by unfold client_command; decide) ex_empty_shared_step

set_option maxRecDepth 1000000

/-- C6 fails on the code: a one-piece job whose piece verifies against its piece hash is
marked completed although the expected file hash `00` differs from the aggregate hash of
the destination file. -/
theorem run_download_job_completed_mismatch :
    run_download_job ex_net 20000 0 "g".toList "f".toList "out".toList
        [sha1_hex "abc".toList] ["127.0.0.1:20001".toList] 3 "00".toList
        (some [Char.ofNat 0, Char.ofNat 0, Char.ofNat 0]) =
      .ok { ds := ex_job_done, disk := some "abc".toList, add_peer := none, shared := false } ∧
    (compute_piece_and_file_sha1 "abc".toList).file_hex ≠ "00".toList := by
  decide

set_option maxRecDepth 512


/-! ## The piece server -/

theorem to_int32_of_lt {n : Nat} (h : n < 2147483648) : to_int32 n = (n : Int) := by
  unfold to_int32
  have h1 : n % 4294967296 = n := Nat.mod_eq_of_lt (by omega)
  rw [h1, if_pos h]

/-- The answer of the piece server to a well-formed request for an existing file, in
terms of the file size. -/
theorem serve_request_eq {uploaded_files : List (Str × Str)} {fs : Str → Option (List Char)}
    {rq fname tok filepath : Str} {content : List Char} {idx : Int}
    (hparts : split_ws rq = ["GETPIECE".toList, fname, tok])
    (htok : stoi tok = .ok idx)
    (hup : map_find uploaded_files fname = some filepath)
    (hfs : fs filepath = some content) :
    serve_request uploaded_files fs rq =
      if idx < 0 ∨ idx ≥ to_int32 ((content.length + PIECE_SZ - 1) / PIECE_SZ) then
        .ok (send_msg "ERR".toList)
      else if ((content.drop (idx.toNat * PIECE_SZ)).take
            (if idx = to_int32 ((content.length + PIECE_SZ - 1) / PIECE_SZ) - 1 then
              (content.length + 18446744073709551616 - idx.toNat * PIECE_SZ)
                % 18446744073709551616
             else PIECE_SZ)).length ≠
          (if idx = to_int32 ((content.length + PIECE_SZ - 1) / PIECE_SZ) - 1 then
              (content.length + 18446744073709551616 - idx.toNat * PIECE_SZ)
                % 18446744073709551616
             else PIECE_SZ) then
        .ok (send_msg "ERR".toList)
      else
        .ok (send_msg "OK".toList ++
          u32_be ((if idx = to_int32 ((content.length + PIECE_SZ - 1) / PIECE_SZ) - 1 then
              (content.length + 18446744073709551616 - idx.toNat * PIECE_SZ)
                % 18446744073709551616
             else PIECE_SZ) % 4294967296) ++
          (content.drop (idx.toNat * PIECE_SZ)).take
            (if idx = to_int32 ((content.length + PIECE_SZ - 1) / PIECE_SZ) - 1 then
              (content.length + 18446744073709551616 - idx.toNat * PIECE_SZ)
                % 18446744073709551616
             else PIECE_SZ)) := by
  unfold serve_request
  simp only [hparts]
  rw [if_neg (by simp)]
  simp only [List.getD_cons_succ, List.getD_cons_zero, htok, hup, hfs]

/-- The part of C7 that holds: a request that is not three tokens starting with GETPIECE
is answered with ERR; and when the index token is a number, an unknown file, a file that
cannot be opened, a negative index and (for fewer than `2^31` pieces) an index from the
piece count on are answered with ERR. -/
theorem serve_request_rejects (uploaded_files : List (Str × Str))
    (fs : Str → Option (List Char)) (rq : Str) :
    ((split_ws rq).length ≠ 3 ∨ (split_ws rq).headD [] ≠ "GETPIECE".toList →
      serve_request uploaded_files fs rq = .ok (send_msg "ERR".toList)) ∧
    (∀ fname tok idx, split_ws rq = ["GETPIECE".toList, fname, tok] → stoi tok = .ok idx →
      (map_find uploaded_files fname = none →
        serve_request uploaded_files fs rq = .ok (send_msg "ERR".toList)) ∧
      (∀ filepath, map_find uploaded_files fname = some filepath → fs filepath = none →
        serve_request uploaded_files fs rq = .ok (send_msg "ERR".toList)) ∧
      (∀ filepath content, map_find uploaded_files fname = some filepath →
        fs filepath = some content → piece_count content.length < 2147483648 →
        (idx < 0 ∨ (piece_count content.length : Int) ≤ idx) →
        serve_request uploaded_files fs rq = .ok (send_msg "ERR".toList))) := by
  refine ⟨?_, ?_⟩
  · intro h
    unfold serve_request
    dsimp only
    rw [if_pos h]
  · intro fname tok idx hparts htok
    refine ⟨?_, ?_, ?_⟩
    · intro hnone
      unfold serve_request
      simp only [hparts]
      rw [if_neg (by simp)]
      simp only [List.getD_cons_succ, List.getD_cons_zero, htok, hnone]
    · intro filepath hup hfs
      unfold serve_request
      simp only [hparts]
      rw [if_neg (by simp)]
      simp only [List.getD_cons_succ, List.getD_cons_zero, htok, hup, hfs]
    · intro filepath content hup hfs hn hidx
      rw [serve_request_eq hparts htok hup hfs]
      unfold piece_count at hn hidx
      rw [to_int32_of_lt hn, if_pos (by omega)]

/-- C8 as stated fails for a shared file of `2^50` bytes: it has `2^31` pieces, the
cast `(int)np` gives `-2^31`, and the request for piece 0 is answered with ERR. -/
theorem serve_request_huge_file_err :
    0 < ex_huge.length ∧ (0 : Nat) < piece_count ex_huge.length ∧
    serve_request [("f".toList, "/f".toList)] (fun _ => some ex_huge) "GETPIECE f 0".toList =
      .ok (send_msg "ERR".toList) := by
  have hlen : ex_huge.length = 1125899906842624 := by
    unfold ex_huge; exact List.length_replicate _ _
  refine ⟨by rw [hlen]; norm_num, by rw [hlen]; decide, ?_⟩
  rw [@serve_request_eq [("f".toList, "/f".toList)] (fun _ => some ex_huge)
    "GETPIECE f 0".toList "f".toList "0".toList "/f".toList ex_huge 0
    (by rfl) (by rfl) (by rfl) rfl]
  rw [hlen]
  rw [if_pos (by right; decide)]

/-- C8, amended: for a shared file of `S > 0` bytes with `n = ceil(S / 524288)` pieces,
`n < 2^31`, and every index `i < n`, the piece server answers the request
`GETPIECE <file> <i>` with the framed text OK, the four-byte big-endian length `L` and
exactly the `L` bytes of the file from offset `i * 524288` on, where `L = 524288` for
`i < n - 1` and `L = S - (n - 1) * 524288` for `i = n - 1`; so the lengths add up to `S`. -/
theorem serve_request_piece (uploaded_files : List (Str × Str))
    (fs : Str → Option (List Char)) (rq fname tok filepath : Str) (content : List Char)
    (i : Nat)
    (hparts : split_ws rq = ["GETPIECE".toList, fname, tok])
    (htok : stoi tok = .ok (i : Int))
    (hup : map_find uploaded_files fname = some filepath)
    (hfs : fs filepath = some content)
    (hpos : 0 < content.length)
    (hn : piece_count content.length < 2147483648)
    (hi : i < piece_count content.length) :
    serve_request uploaded_files fs rq =
      .ok (send_msg "OK".toList ++
        u32_be (if i < piece_count content.length - 1 then PIECE_SZ
                else content.length - (piece_count content.length - 1) * PIECE_SZ) ++
        (content.drop (i * PIECE_SZ)).take
          (if i < piece_count content.length - 1 then PIECE_SZ
           else content.length - (piece_count content.length - 1) * PIECE_SZ)) ∧
    ((content.drop (i * PIECE_SZ)).take
          (if i < piece_count content.length - 1 then PIECE_SZ
           else content.length - (piece_count content.length - 1) * PIECE_SZ)).length =
      (if i < piece_count content.length - 1 then PIECE_SZ
       else content.length - (piece_count content.length - 1) * PIECE_SZ) ∧
    (piece_count content.length - 1) * PIECE_SZ +
      (content.length - (piece_count content.length - 1) * PIECE_SZ) = content.length := by
  rw [serve_request_eq hparts htok hup hfs]
  unfold piece_count PIECE_SZ at *
  generalize hS : content.length = S at *
  rw [to_int32_of_lt hn]
  have hnS : (S + 524288 - 1) / 524288 * 524288 < S + 524288 := by omega
  have hSn : S ≤ (S + 524288 - 1) / 524288 * 524288 := by omega
  rw [if_neg (by omega)]
  simp only [Int.toNat_ofNat]
  by_cases hlast : i < (S + 524288 - 1) / 524288 - 1
  · have hc : ¬ ((i : Int) = ((((S + 524288 - 1) / 524288 : Nat)) : Int) - 1) := by omega
    simp only [if_neg hc, if_pos hlast]
    have hlen : ((content.drop (i * 524288)).take 524288).length = 524288 := by
      rw [List.length_take, List.length_drop, hS]; omega
    rw [if_neg (by rw [hlen]; simp)]
    refine ⟨?_, hlen, by omega⟩
    norm_num
  · have hieq : i = (S + 524288 - 1) / 524288 - 1 := by omega
    have hc : (i : Int) = ((((S + 524288 - 1) / 524288 : Nat)) : Int) - 1 := by omega
    have hmod : (S + 18446744073709551616 - i * 524288) % 18446744073709551616
        = S - ((S + 524288 - 1) / 524288 - 1) * 524288 := by
      rw [← hieq]; omega
    simp only [if_pos hc, if_neg hlast, hmod]
    have hlen : ((content.drop (i * 524288)).take
        (S - ((S + 524288 - 1) / 524288 - 1) * 524288)).length
        = S - ((S + 524288 - 1) / 524288 - 1) * 524288 := by
      rw [List.length_take, List.length_drop, hS]; omega
    rw [if_neg (by rw [hlen]; simp)]
    refine ⟨?_, hlen, by omega⟩
    rw [Nat.mod_eq_of_lt (by omega)]

/-- C8, amended, at a five-byte file and its only piece. -/
theorem serve_request_piece_witness :
    serve_request [("f".toList, "/f".toList)] (fun _ => some "hello".toList)
        "GETPIECE f 0".toList =
      .ok (send_msg "OK".toList ++ u32_be 5 ++ "hello".toList) :=
  (serve_request_piece [("f".toList, "/f".toList)] (fun _ => some "hello".toList)
    "GETPIECE f 0".toList "f".toList "0".toList "/f".toList "hello".toList 0
    (by rfl) (by rfl) (by rfl) rfl (by decide) (by decide) (by decide)).1


/-! ## Replication -/

theorem getStr_skip_space (x : List Char) :
    IStream.getStr { buf := ' ' :: x, fail := false } =
      IStream.getStr { buf := x, fail := false } := by
  have hd : (' ' :: x).dropWhile isspace = x.dropWhile isspace := by
    rw [List.dropWhile_cons, if_pos (by decide)]
  unfold IStream.getStr
  dsimp only
  rw [hd, if_neg (by decide), if_neg (by decide)]

theorem takeWhile_token {t r : List Char} (ht : ∀ c ∈ t, isspace c = false)
    (hr : r = [] ∨ ∃ r1, r = ' ' :: r1) :
    (t ++ r).takeWhile (fun x => !isspace x) = t ∧
      (t ++ r).dropWhile (fun x => !isspace x) = r := by
  induction t with
  | nil =>
    rcases hr with h | ⟨r1, h⟩
    · subst h; simp
    · subst h
      have h : isspace ' ' = true := by decide
      simp [List.takeWhile_cons, List.dropWhile_cons, h]
  | cons c cs ih =>
    have hc : isspace c = false := ht c (List.mem_cons_self _ _)
    have ih1 := ih (fun x hx => ht x (List.mem_cons_of_mem _ hx))
    simp only [List.cons_append, List.takeWhile_cons, List.dropWhile_cons, hc, Bool.not_false,
      if_true]
    exact ⟨by rw [ih1.1], ih1.2⟩

theorem getStr_token {t r : List Char} (ht : is_token t) (hr : r = [] ∨ ∃ r1, r = ' ' :: r1) :
    IStream.getStr { buf := t ++ r, fail := false } = (t, { buf := r, fail := false }) := by
  obtain ⟨hne, hsp⟩ := ht
  cases t with
  | nil => exact absurd rfl hne
  | cons c cs =>
    have hc : isspace c = false := hsp c (List.mem_cons_self _ _)
    have htw := takeWhile_token hsp hr
    have hd : (c :: cs ++ r).dropWhile isspace = c :: (cs ++ r) := by
      rw [List.cons_append, List.dropWhile_cons, if_neg (by simp [hc])]
    unfold IStream.getStr
    dsimp only
    rw [hd, if_neg (by decide)]
    dsimp only
    rw [← List.cons_append, htw.1, htw.2]

theorem getStr_space_token {t r : List Char} (ht : is_token t)
    (hr : r = [] ∨ ∃ r1, r = ' ' :: r1) :
    IStream.getStr { buf := ' ' :: (t ++ r), fail := false } =
      (t, { buf := r, fail := false }) := by
  rw [getStr_skip_space, getStr_token ht hr]

theorem sync_stream3 {v a b : Str} (hv : is_token v) (ha : is_token a) (hb : is_token b) :
    IStream.getStr { buf := join_sp [v, a, b], fail := false } =
        (v, { buf := ' ' :: (a ++ ' ' :: b), fail := false }) ∧
    IStream.getStr { buf := ' ' :: (a ++ ' ' :: b), fail := false } =
        (a, { buf := ' ' :: b, fail := false }) ∧
    IStream.getStr { buf := ' ' :: b, fail := false } = (b, { buf := [], fail := false }) := by
  refine ⟨getStr_token hv (Or.inr ⟨_, rfl⟩), getStr_space_token ha (Or.inr ⟨_, rfl⟩), ?_⟩
  have h := getStr_space_token (r := []) hb (Or.inl rfl)
  rwa [List.append_nil] at h

theorem sync_stream4 {v a b c : Str} (hv : is_token v) (ha : is_token a) (hb : is_token b)
    (hc : is_token c) :
    IStream.getStr { buf := join_sp [v, a, b, c], fail := false } =
        (v, { buf := ' ' :: (a ++ ' ' :: (b ++ ' ' :: c)), fail := false }) ∧
    IStream.getStr { buf := ' ' :: (a ++ ' ' :: (b ++ ' ' :: c)), fail := false } =
        (a, { buf := ' ' :: (b ++ ' ' :: c), fail := false }) ∧
    IStream.getStr { buf := ' ' :: (b ++ ' ' :: c), fail := false } =
        (b, { buf := ' ' :: c, fail := false }) ∧
    IStream.getStr { buf := ' ' :: c, fail := false } = (c, { buf := [], fail := false }) := by
  refine ⟨getStr_token hv (Or.inr ⟨_, rfl⟩), getStr_space_token ha (Or.inr ⟨_, rfl⟩),
    getStr_space_token hb (Or.inr ⟨_, rfl⟩), ?_⟩
  have h := getStr_space_token (r := []) hc (Or.inl rfl)
  rwa [List.append_nil] at h

/-- The dispatch of `handle_sync` once the verb has been read. -/
theorem handle_sync_head {s : Registry} {d v : Str} {iss : IStream}
    (hget : IStream.getStr { buf := d, fail := false } = (v, iss)) (hf : iss.fail = false) :
    handle_sync s d =
      if v = "REGISTER".toList then .ok (sync_register s iss)
      else if v = "CREATE_GROUP".toList then .ok (sync_create_group s iss)
      else if v = "JOIN_GROUP".toList then .ok (sync_join_group s iss)
      else if v = "ACCEPT_REQUEST".toList then .ok (sync_accept_request s iss)
      else if v = "LEAVE_GROUP".toList then .ok (sync_leave_group s iss)
      else if v = "STOP_SHARE".toList then .ok (sync_stop_share s iss)
      else if v = "ADD_PEER".toList then .ok (sync_add_peer s iss)
      else if v = "UPLOAD_META".toList then sync_upload_meta s iss
      else sync_upload_meta s { buf := d, fail := false } := by
  unfold handle_sync
  rw [hget]
  dsimp only
  rw [if_neg (by simp [hf])]

theorem list_length_three {parts : List Str} (h : parts.length = 3) :
    ∃ v a b, parts = [v, a, b] := by
  match parts, h with
  | [v, a, b], _ => exact ⟨v, a, b, rfl⟩

theorem list_length_four {parts : List Str} (h : parts.length = 4) :
    ∃ v a b c, parts = [v, a, b, c] := by
  match parts, h with
  | [v, a, b, c], _ => exact ⟨v, a, b, c, rfl⟩

theorem sync_register_eq {s : Registry} {a b : Str} (ha : is_token a) (hb : is_token b)
    (hok : (cmd_register s a b).reply = "OK".toList) :
    handle_sync s (join_sp ["REGISTER".toList, a, b]) = .ok (cmd_register s a b).state := by
  obtain ⟨h1, h2, h3⟩ := sync_stream3 (v := "REGISTER".toList) (by unfold is_token; decide) ha hb
  rw [handle_sync_head h1 rfl, if_pos rfl]
  unfold sync_register cmd_register at *
  dsimp only
  rw [h2]
  dsimp only
  rw [h3]
  dsimp only
  rw [if_neg (by decide)]
  split_ifs at hok ⊢ with hc
  · dsimp only at hok; exact absurd hok (by decide)
  · rfl

theorem sync_create_group_eq {s : Registry} {a b : Str} (ha : is_token a) (hb : is_token b)
    (hok : (cmd_create_group s a b).reply = "OK".toList) :
    handle_sync s (join_sp ["CREATE_GROUP".toList, a, b]) =
      .ok (cmd_create_group s a b).state := by
  obtain ⟨h1, h2, h3⟩ := sync_stream3 (v := "CREATE_GROUP".toList) (by unfold is_token; decide) ha hb
  rw [handle_sync_head h1 rfl, if_neg (by decide), if_pos rfl]
  unfold sync_create_group cmd_create_group at *
  dsimp only
  rw [h2]
  dsimp only
  rw [h3]
  dsimp only
  rw [if_neg (by decide)]
  split_ifs at hok ⊢ with hc
  · dsimp only at hok; exact absurd hok (by decide)
  · rfl

theorem sync_join_group_eq {s : Registry} {a b : Str} (ha : is_token a) (hb : is_token b)
    (hok : (cmd_join_group s a b).reply = "OK".toList) :
    handle_sync s (join_sp ["JOIN_GROUP".toList, a, b]) =
      .ok (cmd_join_group s a b).state := by
  obtain ⟨h1, h2, h3⟩ := sync_stream3 (v := "JOIN_GROUP".toList) (by unfold is_token; decide) ha hb
  rw [handle_sync_head h1 rfl, if_neg (by decide), if_neg (by decide), if_pos rfl]
  unfold sync_join_group cmd_join_group at *
  dsimp only at hok ⊢
  rw [h2]
  dsimp only
  rw [h3]
  dsimp only
  rw [if_neg (by decide)]
  by_cases c1 : (!map_count s.groups b) = true
  · rw [if_pos c1] at hok; dsimp only at hok; exact absurd hok (by decide)
  rw [if_neg c1] at hok ⊢
  by_cases c2 : is_member s a b = true
  · rw [if_pos c2] at hok; dsimp only at hok; exact absurd hok (by decide)
  simp only [if_neg c2]

theorem sync_accept_request_eq {s : Registry} {g u o : Str} (hg : is_token g)
    (hu : is_token u) (ho : is_token o)
    (hok : (cmd_accept_request s g u o).reply = "OK".toList) :
    handle_sync s (join_sp ["ACCEPT_REQUEST".toList, g, u, o]) =
      .ok (cmd_accept_request s g u o).state := by
  obtain ⟨h1, h2, h3, -⟩ :=
    sync_stream4 (v := "ACCEPT_REQUEST".toList) (by unfold is_token; decide) hg hu ho
  rw [handle_sync_head h1 rfl, if_neg (by decide), if_neg (by decide), if_neg (by decide),
    if_pos rfl]
  unfold sync_accept_request cmd_accept_request at *
  dsimp only at hok ⊢
  rw [h2]
  dsimp only
  rw [h3]
  dsimp only
  rw [if_neg (by decide)]
  by_cases c1 : (!is_owner s o g) = true
  · rw [if_pos c1] at hok; dsimp only at hok; exact absurd hok (by decide)
  rw [if_neg c1] at hok ⊢
  by_cases c2 : u ∈ requests_at s g
  · simp only [if_pos c2]
  · rw [if_neg c2] at hok; dsimp only at hok; exact absurd hok (by decide)

theorem sync_leave_group_eq {s : Registry} {u g : Str} (hu : is_token u) (hg : is_token g)
    (hok : (cmd_leave_group s u g).reply = "OK".toList) :
    handle_sync s (join_sp ["LEAVE_GROUP".toList, u, g]) =
      .ok (cmd_leave_group s u g).state := by
  obtain ⟨h1, h2, h3⟩ := sync_stream3 (v := "LEAVE_GROUP".toList) (by unfold is_token; decide) hu hg
  rw [handle_sync_head h1 rfl, if_neg (by decide), if_neg (by decide), if_neg (by decide),
    if_neg (by decide), if_pos rfl]
  unfold sync_leave_group cmd_leave_group at *
  dsimp only at hok ⊢
  rw [h2]
  dsimp only
  rw [h3]
  dsimp only
  rw [if_neg (by decide)]
  by_cases c1 : (!is_member s u g) = true
  · rw [if_pos c1] at hok; dsimp only at hok; exact absurd hok (by decide)
  rw [if_neg c1]
  have hm : is_member s u g = true := by simpa using c1
  obtain ⟨gi, hfind, hin⟩ := is_member_find hm
  rw [hfind, groups_at_of_find hfind]
  dsimp only
  rw [if_pos (by unfold set_count; simpa using hin)]
  split_ifs <;> rfl

theorem sync_stop_share_eq {s : Registry} {g f p : Str} (hg : is_token g)
    (hf : is_token f) (hp : is_token p) :
    handle_sync s (join_sp ["STOP_SHARE".toList, g, f, p]) =
      .ok (cmd_stop_share s g f p).state := by
  obtain ⟨h1, h2, h3, h4⟩ :=
    sync_stream4 (v := "STOP_SHARE".toList) (by unfold is_token; decide) hg hf hp
  rw [handle_sync_head h1 rfl, if_neg (by decide), if_neg (by decide), if_neg (by decide),
    if_neg (by decide), if_neg (by decide), if_pos rfl]
  unfold sync_stop_share cmd_stop_share
  dsimp only
  rw [h2]
  dsimp only
  rw [h3]
  dsimp only
  rw [h4]
  dsimp only
  rw [if_neg (by decide)]
  cases hfind : map_find s.files (g ++ ' ' :: f) with
  | none => rfl
  | some file =>
    dsimp only
    split_ifs <;> rfl

theorem sync_add_peer_eq {s : Registry} {g f p : Str} (hg : is_token g)
    (hf : is_token f) (hp : is_token p) :
    handle_sync s (join_sp ["ADD_PEER".toList, g, f, p]) =
      .ok (cmd_add_peer s g f p).state := by
  obtain ⟨h1, h2, h3, h4⟩ :=
    sync_stream4 (v := "ADD_PEER".toList) (by unfold is_token; decide) hg hf hp
  rw [handle_sync_head h1 rfl, if_neg (by decide), if_neg (by decide), if_neg (by decide),
    if_neg (by decide), if_neg (by decide), if_neg (by decide), if_pos rfl]
  unfold sync_add_peer cmd_add_peer
  dsimp only
  rw [h2]
  dsimp only
  rw [h3]
  dsimp only
  rw [h4]
  dsimp only
  rw [if_neg (by decide)]
  cases hfind : map_find s.files (g ++ ' ' :: f) with
  | none => rfl
  | some file => rfl

theorem getStr_fail_empty (x : IStream) (h : x.getStr.2.fail = true) : x.getStr.1 = [] := by
  unfold IStream.getStr at h ⊢
  by_cases hx : x.fail = true
  · rw [if_pos hx]
  · rw [if_neg hx] at h ⊢
    cases hd : x.buf.dropWhile isspace with
    | nil => rfl
    | cons c cs => rw [hd] at h; cases h

theorem extract_upload_fail_user (iss : IStream) (h : (extract_upload iss).2.fail = true) :
    (extract_upload iss).1.user = [] :=
  getStr_fail_empty _ h

theorem extract_upload_skip_space (x : List Char) :
    extract_upload { buf := ' ' :: x, fail := false } =
      extract_upload { buf := x, fail := false } := by
  unfold extract_upload
  rw [getStr_skip_space]

theorem join_sp_cons_cons (v a : Str) (rest : List Str) :
    join_sp (v :: a :: rest) = v ++ ' ' :: join_sp (a :: rest) := rfl

theorem sync_upload_meta_eq {s : Registry} {rest : List Str} {h : Handled}
    (hmem : no_empty_member s)
    (hh : cmd_upload_meta s (join_sp ("UPLOAD_META".toList :: rest)) = .ok h)
    (hok : h.reply = "OK".toList) :
    handle_sync s (join_sp ("UPLOAD_META".toList :: rest)) = .ok h.state := by
  obtain ⟨hlen, np, hst, h1 | h1 | h1⟩ := cmd_upload_meta_ok hh
  · rw [h1.2] at hok; dsimp only at hok; exact absurd hok (by decide)
  · rw [h1.2.2] at hok; dsimp only at hok; exact absurd hok (by decide)
  obtain ⟨hm, hl, hst1⟩ := h1
  cases rest with
  | nil => exact absurd hlen (by decide)
  | cons a rest1 =>
    rw [join_sp_cons_cons] at hst hm hl hst1 ⊢
    have hdrop : List.drop 12 ("UPLOAD_META".toList ++ ' ' :: join_sp (a :: rest1))
        = join_sp (a :: rest1) := rfl
    rw [hdrop] at hst hm hl hst1
    have h1 : IStream.getStr
        { buf := "UPLOAD_META".toList ++ ' ' :: join_sp (a :: rest1), fail := false } =
        ("UPLOAD_META".toList, { buf := ' ' :: join_sp (a :: rest1), fail := false }) :=
      getStr_token (by unfold is_token; decide) (Or.inr ⟨_, rfl⟩)
    rw [handle_sync_head h1 rfl, if_neg (by decide), if_neg (by decide), if_neg (by decide),
      if_neg (by decide), if_neg (by decide), if_neg (by decide), if_neg (by decide), if_pos rfl]
    unfold sync_upload_meta
    rw [extract_upload_skip_space]
    dsimp only
    have hfail : (extract_upload { buf := join_sp (a :: rest1), fail := false }).2.fail
        = false := by
      by_contra hf
      have hu := extract_upload_fail_user _ (by simpa using hf)
      rw [hu] at hm
      obtain ⟨gi, hfind, hin⟩ := is_member_find hm
      exact hmem _ (map_find_mem hfind) hin
    rw [if_neg (by simp [hfail]), hst]
    dsimp only
    rw [if_pos hl, hst1]

/-- C5, amended: when `handle_command` accepts (reply OK) a replicated command given as
tokens, on a registry where no group has the empty string as a member, `handle_sync` on
the same command text leaves the registry in exactly the state the local handling leaves. -/
theorem handle_sync_matches_accepted_command (s : Registry) (parts : List Str) (h : Handled)
    (htok : ∀ t ∈ parts, is_token t) (hverb : parts.headD [] ∈ sync_verbs)
    (hmem : no_empty_member s) (hh : handle_command s parts = .ok h)
    (hok : h.reply = "OK".toList) :
    handle_sync s (join_sp parts) = .ok h.state := by
  have hd := handle_command_dispatched hh
  unfold dispatched at hd
  rcases hd with ⟨hv, hl, e⟩ | ⟨hv, -, -⟩ | ⟨hv, hl, e⟩ | ⟨hv, hl, e⟩ | ⟨hv, -⟩ | ⟨hv, -, -⟩ |
    ⟨hv, hl, e⟩ | ⟨hv, hl, e⟩ | ⟨hv, -, -⟩ | ⟨hv, -, -⟩ | ⟨hv, hl, e⟩ | ⟨hv, hl, e⟩ |
    ⟨hv, e⟩ | ⟨hv, -⟩ | e
  · obtain ⟨v, a, b, rfl⟩ := list_length_three hl
    simp only [List.headD_cons] at hv
    subst hv; subst e
    exact sync_register_eq (htok a (by simp)) (htok b (by simp)) hok
  · rw [hv] at hverb; exact absurd hverb (by decide)
  · obtain ⟨v, a, b, rfl⟩ := list_length_three hl
    simp only [List.headD_cons] at hv
    subst hv; subst e
    exact sync_create_group_eq (htok a (by simp)) (htok b (by simp)) hok
  · obtain ⟨v, a, b, rfl⟩ := list_length_three hl
    simp only [List.headD_cons] at hv
    subst hv; subst e
    exact sync_join_group_eq (htok a (by simp)) (htok b (by simp)) hok
  · rw [hv] at hverb; exact absurd hverb (by decide)
  · rw [hv] at hverb; exact absurd hverb (by decide)
  · obtain ⟨v, a, b, c, rfl⟩ := list_length_four hl
    simp only [List.headD_cons] at hv
    subst hv; subst e
    exact sync_accept_request_eq (htok a (by simp)) (htok b (by simp)) (htok c (by simp)) hok
  · obtain ⟨v, a, b, rfl⟩ := list_length_three hl
    simp only [List.headD_cons] at hv
    subst hv; subst e
    exact sync_leave_group_eq (htok a (by simp)) (htok b (by simp)) hok
  · rw [hv] at hverb; exact absurd hverb (by decide)
  · rw [hv] at hverb; exact absurd hverb (by decide)
  · obtain ⟨v, a, b, c, rfl⟩ := list_length_four hl
    simp only [List.headD_cons] at hv
    subst hv; subst e
    exact sync_stop_share_eq (htok a (by simp)) (htok b (by simp)) (htok c (by simp))
  · obtain ⟨v, a, b, c, rfl⟩ := list_length_four hl
    simp only [List.headD_cons] at hv
    subst hv; subst e
    exact sync_add_peer_eq (htok a (by simp)) (htok b (by simp)) (htok c (by simp))
  · cases parts with
    | nil => exact absurd hv (by decide)
    | cons v rest =>
      simp only [List.headD_cons] at hv hverb
      have hveq : v = "UPLOAD_META".toList := by
        simp only [sync_verbs, List.mem_cons, List.mem_singleton, List.not_mem_nil,
          or_false] at hverb
        rcases hverb with q | q | q | q | q | q | q | q
        all_goals first | exact q | (rw [q] at hv; exact absurd hv (by decide))
      subst hveq
      exact sync_upload_meta_eq hmem e hok
  · rw [hv] at hverb; exact absurd hverb (by decide)
  · rw [e] at hok; dsimp only at hok; exact absurd hok (by decide)


theorem ex_user_step :
    handle_command Registry.empty ["REGISTER".toList, "a".toList, "p".toList] =
      .ok { state := ex_user, reply := "OK".toList, bcast := some "REGISTER a p".toList } := by
  rfl

/-- C5 as stated fails: on the registry where `a` is registered with password `p`, the
local command `REGISTER a q` is rejected and leaves the registry unchanged, while
`handle_sync` on `REGISTER a q` overwrites the password. -/
theorem handle_sync_differs_on_rejected_register :
    handle_command ex_user ["REGISTER".toList, "a".toList, "q".toList] =
      .ok { state := ex_user, reply := "ERR user_exists".toList, bcast := none } ∧
    handle_sync ex_user "REGISTER a q".toList = .ok ex_user_overwritten ∧
    ex_user_overwritten ≠ ex_user :=
  ⟨rfl, rfl, by decide⟩

/-- C5, amended, at `REGISTER a p` on the empty registry. -/
theorem handle_sync_matches_accepted_command_witness :
    handle_sync Registry.empty
        (join_sp ["REGISTER".toList, "a".toList, "p".toList]) = .ok ex_user :=
  handle_sync_matches_accepted_command Registry.empty
    ["REGISTER".toList, "a".toList, "p".toList]
    { state := ex_user, reply := "OK".toList, bcast := some "REGISTER a p".toList }
    (by unfold is_token; decide) (by decide) (fun p hp => by cases hp) ex_user_step rfl

/-! ## SHA-1: the code computes the digest of FIPS 180-4 -/

theorem fips_pad_zeros_least (l : Nat) :
    (l + 1 + fips_pad_zeros l) % 512 = 448 ∧
    ∀ j, j < fips_pad_zeros l → (l + 1 + j) % 512 ≠ 448 := by
  unfold fips_pad_zeros
  constructor
  · omega
  · intro j hj; omega

theorem fips_ROTL_eq (n x : Nat) : fips_ROTL n x = rotl x n := by
  unfold fips_ROTL rotl
  rw [Nat.shiftLeft_eq, Nat.shiftRight_eq_div_pow]

theorem fips_not_eq {x : Nat} (hx : x < 4294967296) : fips_not x = x ^^^ 4294967295 := by
  unfold fips_not
  apply Nat.eq_of_testBit_eq
  intro i
  have h1 : 4294967295 - x = 2 ^ 32 - (x + 1) := by omega
  have h2 : (4294967295 : Nat) = 2 ^ 32 - 1 := by norm_num
  rw [h1, Nat.testBit_two_pow_sub_succ (by simpa using hx), Nat.testBit_xor, h2,
    Nat.testBit_two_pow_sub_one]
  by_cases hi : i < 32
  · simp [hi]
  · have : x.testBit i = false := by
      apply Nat.testBit_lt_two_pow
      calc x < 2 ^ 32 := by simpa using hx
        _ ≤ 2 ^ i := Nat.pow_le_pow_right (by norm_num) (by omega)
    simp [hi, this]

theorem testBit_of_lt_word {x i : Nat} (hx : x < 4294967296) (hi : ¬ i < 32) :
    x.testBit i = false := by
  apply Nat.testBit_lt_two_pow
  calc x < 2 ^ 32 := by simpa using hx
    _ ≤ 2 ^ i := Nat.pow_le_pow_right (by norm_num) (by omega)

theorem ch_eq {b : Nat} (c d : Nat) (hb : b < 4294967296) :
    (b &&& c) ||| ((b ^^^ 4294967295) &&& d) = fips_Ch b c d := by
  unfold fips_Ch
  rw [fips_not_eq hb]
  apply Nat.eq_of_testBit_eq
  intro i
  have h2 : (4294967295 : Nat) = 2 ^ 32 - 1 := by norm_num
  simp only [Nat.testBit_and, Nat.testBit_xor, Nat.testBit_or, h2, Nat.testBit_two_pow_sub_one]
  by_cases hi : i < 32
  · simp only [hi, decide_True]
    cases b.testBit i <;> cases c.testBit i <;> cases d.testBit i <;> rfl
  · rw [testBit_of_lt_word hb hi]
    simp

theorem maj_eq (b c d : Nat) :
    (b &&& c) ||| (b &&& d) ||| (c &&& d) = (b &&& c) ^^^ (b &&& d) ^^^ (c &&& d) := by
  apply Nat.eq_of_testBit_eq
  intro i
  simp only [Nat.testBit_and, Nat.testBit_xor, Nat.testBit_or]
  cases b.testBit i <;> cases c.testBit i <;> cases d.testBit i <;> rfl

theorem rotl_lt {x : Nat} (n : Nat) (hx : x < 4294967296) : rotl x n < 4294967296 := by
  unfold rotl
  have h1 : (x <<< n) % 4294967296 < 2 ^ 32 := Nat.mod_lt _ (by norm_num)
  have h2 : x >>> (32 - n) < 2 ^ 32 := by
    rw [Nat.shiftRight_eq_div_pow]
    exact lt_of_le_of_lt (Nat.div_le_self _ _) (by simpa using hx)
  exact Nat.or_lt_two_pow h1 h2

theorem sha1_round_eq (W : List Nat) (st : Sha1State) (t : Nat) (hb : st.b < 4294967296) :
    sha1_round st t (W.getD t 0) = fips_step W st t := by
  unfold sha1_round fips_step fips_f fips_K fips_Parity
  simp only [fips_ROTL_eq]
  by_cases h1 : t < 20
  · have h1' : t ≤ 19 := by omega
    simp only [if_pos h1, if_pos h1', ch_eq st.c st.d hb]
  · have h1' : ¬ t ≤ 19 := by omega
    by_cases h2 : t < 40
    · have h2' : t ≤ 39 := by omega
      simp only [if_neg h1, if_neg h1', if_pos h2, if_pos h2']
    · have h2' : ¬ t ≤ 39 := by omega
      by_cases h3 : t < 60
      · have h3' : t ≤ 59 := by omega
        simp only [if_neg h1, if_neg h1', if_neg h2, if_neg h2', if_pos h3, if_pos h3', maj_eq,
          fips_Maj]
      · have h3' : ¬ t ≤ 59 := by omega
        simp only [if_neg h1, if_neg h1', if_neg h2, if_neg h2', if_neg h3, if_neg h3']

theorem sha1_round_ok {st : Sha1State} (t wi : Nat) (h : words_ok st) :
    words_ok (sha1_round st t wi) := by
  obtain ⟨ha, hb, hc, hd, he⟩ := h
  unfold sha1_round words_ok
  dsimp only
  exact ⟨Nat.mod_lt _ (by norm_num), ha, rotl_lt 30 hb, hc, hd⟩

theorem sha1_rounds_eq (W : List Nat) :
    ∀ (ws : List Nat) (st : Sha1State) (i : Nat), W.drop i = ws → words_ok st →
      sha1_rounds st i ws = (List.range' i ws.length).foldl (fips_step W) st ∧
      words_ok (sha1_rounds st i ws) := by
  intro ws
  induction ws with
  | nil => intro st i _ hok; exact ⟨rfl, hok⟩
  | cons wi ws ih =>
    intro st i hd hok
    have hlt : i < W.length := by
      by_contra hge
      rw [List.drop_eq_nil_of_le (by omega)] at hd
      exact absurd hd (by simp)
    have hwi : W.getD i 0 = wi := by
      rw [List.getD_eq_getElem _ _ hlt]
      have := List.drop_eq_getElem_cons hlt
      rw [this] at hd
      injection hd
    have hrest : W.drop (i + 1) = ws := by
      have := List.drop_eq_getElem_cons hlt
      rw [this] at hd
      injection hd
    have hstep := ih (sha1_round st i wi) (i + 1) hrest (sha1_round_ok i wi hok)
    unfold sha1_rounds
    refine ⟨?_, hstep.2⟩
    rw [hstep.1, List.length_cons, List.range'_succ, List.foldl_cons, ← hwi,
      sha1_round_eq W st i hok.2.1]

theorem fips_schedule_length (M : List Nat) (t : Nat) : (fips_schedule M t).length = t := by
  induction t with
  | zero => rfl
  | succ t ih => simp [fips_schedule, ih]

theorem fips_schedule_take (M : List Nat) (hM : M.length = 16) :
    ∀ t, t ≤ 16 → fips_schedule M t = M.take t := by
  intro t
  induction t with
  | zero => intro _; simp [fips_schedule]
  | succ t ih =>
    intro ht
    have ht' : t ≤ 15 := by omega
    have hlt : t < M.length := by omega
    simp only [fips_schedule, if_pos ht', ih (by omega)]
    rw [List.getD_eq_getElem _ _ hlt, List.take_succ, List.getElem?_eq_getElem hlt]
    rfl

theorem sha1_extend_schedule (M : List Nat) :
    ∀ n t, 16 ≤ t → sha1_extend n (fips_schedule M t) = fips_schedule M (t + n) := by
  intro n
  induction n with
  | zero => intro t _; rfl
  | succ n ih =>
    intro t ht
    have ht' : ¬ t ≤ 15 := by omega
    have hstep : fips_schedule M (t + 1) =
        fips_schedule M t ++ [rotl ((fips_schedule M t).getD (t - 3) 0 ^^^
          (fips_schedule M t).getD (t - 8) 0 ^^^ (fips_schedule M t).getD (t - 14) 0 ^^^
          (fips_schedule M t).getD (t - 16) 0) 1] := by
      simp only [fips_schedule, if_neg ht', fips_ROTL_eq]
    unfold sha1_extend
    simp only [fips_schedule_length]
    rw [← hstep, ih (t + 1) (by omega)]
    congr 1
    omega

theorem sha1_extend_eq (M : List Nat) (hM : M.length = 16) :
    sha1_extend 64 M = fips_schedule M 80 := by
  have h16 : fips_schedule M 16 = M := by
    rw [fips_schedule_take M hM 16 (le_refl _), ← hM, List.take_length]
  have := sha1_extend_schedule M 64 16 (le_refl _)
  rw [h16] at this
  exact this

theorem sha1_chunk_eq (h : Sha1State) (chunk : List Nat) (hok : words_ok h)
    (hlen : (sha1_words chunk).length = 16) :
    sha1_chunk h chunk = fips_compress h (sha1_words chunk) ∧
      words_ok (sha1_chunk h chunk) := by
  unfold sha1_chunk fips_compress
  dsimp only
  rw [sha1_extend_eq _ hlen]
  have hr := sha1_rounds_eq (fips_schedule (sha1_words chunk) 80)
    (fips_schedule (sha1_words chunk) 80) h 0 (by simp) hok
  rw [fips_schedule_length, ← List.range_eq_range'] at hr
  rw [hr.1]
  refine ⟨?_, ?_⟩
  · simp only [Nat.add_comm]
  · unfold words_ok
    dsimp only
    exact ⟨Nat.mod_lt _ (by norm_num), Nat.mod_lt _ (by norm_num), Nat.mod_lt _ (by norm_num),
      Nat.mod_lt _ (by norm_num), Nat.mod_lt _ (by norm_num)⟩

theorem fips_byte_bits_length (b : Nat) : (fips_byte_bits b).length = 8 := by
  simp [fips_byte_bits]

theorem fips_message_bits_cons (b : Nat) (l : List Nat) :
    fips_message_bits (b :: l) = fips_byte_bits b ++ fips_message_bits l := by
  simp [fips_message_bits]

theorem fips_message_bits_append (x y : List Nat) :
    fips_message_bits (x ++ y) = fips_message_bits x ++ fips_message_bits y := by
  simp [fips_message_bits]

theorem fips_message_bits_length (l : List Nat) : (fips_message_bits l).length = 8 * l.length := by
  induction l with
  | nil => rfl
  | cons b l ih =>
    rw [fips_message_bits_cons, List.length_append, fips_byte_bits_length, ih, List.length_cons]
    omega

theorem fips_message_bits_drop (l : List Nat) :
    ∀ n, (fips_message_bits l).drop (8 * n) = fips_message_bits (l.drop n) := by
  induction l with
  | nil => intro n; simp [fips_message_bits]
  | cons b l ih =>
    intro n
    cases n with
    | zero => rfl
    | succ n =>
      have h8 : 8 * (n + 1) = (fips_byte_bits b).length + 8 * n := by
        rw [fips_byte_bits_length]; omega
      rw [fips_message_bits_cons, h8, List.drop_append, List.drop_succ_cons, ih]

theorem fips_message_bits_take (l : List Nat) :
    ∀ n, (fips_message_bits l).take (8 * n) = fips_message_bits (l.take n) := by
  induction l with
  | nil => intro n; simp [fips_message_bits]
  | cons b l ih =>
    intro n
    cases n with
    | zero => rfl
    | succ n =>
      have h8 : 8 * (n + 1) = (fips_byte_bits b).length + 8 * n := by
        rw [fips_byte_bits_length]; omega
      rw [fips_message_bits_cons, h8, List.take_append, List.take_succ_cons,
        fips_message_bits_cons, ih]

theorem fips_bits_value_foldl (bits : List Bool) (a : Nat) :
    bits.foldl (fun acc b => 2 * acc + (if b then 1 else 0)) a =
      a * 2 ^ bits.length + fips_bits_value bits := by
  induction bits generalizing a with
  | nil => simp [fips_bits_value]
  | cons b bits ih =>
    unfold fips_bits_value
    rw [List.foldl_cons, List.foldl_cons, ih, ih (2 * 0 + _), List.length_cons, pow_succ]
    ring

theorem fips_bits_value_append (x y : List Bool) :
    fips_bits_value (x ++ y) = fips_bits_value x * 2 ^ y.length + fips_bits_value y := by
  unfold fips_bits_value
  rw [List.foldl_append, fips_bits_value_foldl]
  rfl

theorem fips_byte_bits_mod (b : Nat) : fips_byte_bits b = fips_byte_bits (b % 256) := by
  have h : (256 : Nat) = 2 ^ 8 := by norm_num
  unfold fips_byte_bits
  apply List.map_congr_left
  intro i hi
  rw [List.mem_range] at hi
  rw [h, Nat.testBit_mod_two_pow]
  have : 7 - i < 8 := by omega
  simp [this]

set_option maxRecDepth 100000

theorem fips_bits_value_byte_lt : ∀ r, r < 256 → fips_bits_value (fips_byte_bits r) = r := by
  decide

set_option maxRecDepth 512

theorem fips_bits_value_byte (b : Nat) : fips_bits_value (fips_byte_bits b) = b % 256 := by
  rw [fips_byte_bits_mod, fips_bits_value_byte_lt _ (Nat.mod_lt _ (by norm_num))]

theorem or_shift {a b i : Nat} (hb : b < 2 ^ i) : (a <<< i) ||| b = a * 2 ^ i + b := by
  rw [Nat.shiftLeft_eq, Nat.mul_comm a, Nat.mul_add_lt_is_or hb]

theorem word_of_bytes {b0 b1 b2 b3 : Nat} (h0 : b0 < 256) (h1 : b1 < 256) (h2 : b2 < 256)
    (h3 : b3 < 256) :
    (b0 <<< 24) ||| (b1 <<< 16) ||| (b2 <<< 8) ||| b3 =
      fips_bits_value (fips_message_bits [b0, b1, b2, b3]) := by
  have e1 : (b0 <<< 24) ||| (b1 <<< 16) = (b0 * 256 + b1) <<< 16 := by
    rw [or_shift (by rw [Nat.shiftLeft_eq]; omega), Nat.shiftLeft_eq, Nat.shiftLeft_eq]
    omega
  have e2 : ((b0 * 256 + b1) <<< 16) ||| (b2 <<< 8) = ((b0 * 256 + b1) * 256 + b2) <<< 8 := by
    rw [or_shift (by rw [Nat.shiftLeft_eq]; omega), Nat.shiftLeft_eq, Nat.shiftLeft_eq]
    omega
  rw [e1, e2, or_shift (by omega)]
  simp only [fips_message_bits, List.map, List.flatten, List.append_nil]
  rw [fips_bits_value_append, fips_bits_value_append, fips_bits_value_append]
  simp only [List.length_append, fips_byte_bits_length, fips_bits_value_byte,
    Nat.mod_eq_of_lt h0, Nat.mod_eq_of_lt h1, Nat.mod_eq_of_lt h2, Nat.mod_eq_of_lt h3]
  norm_num
  ring

theorem fips_word_zero {b0 b1 b2 b3 : Nat} (rest : List Nat) (h0 : b0 < 256) (h1 : b1 < 256)
    (h2 : b2 < 256) (h3 : b3 < 256) :
    fips_word (fips_message_bits (b0 :: b1 :: b2 :: b3 :: rest)) 0 =
      (b0 <<< 24) ||| (b1 <<< 16) ||| (b2 <<< 8) ||| b3 := by
  rw [word_of_bytes h0 h1 h2 h3]
  unfold fips_word
  have h := fips_message_bits_take (b0 :: b1 :: b2 :: b3 :: rest) 4
  simp only [List.take_succ_cons, List.take_zero] at h
  rw [Nat.mul_zero, List.drop_zero, ← h]

theorem fips_word_succ {b0 b1 b2 b3 : Nat} (rest : List Nat) (j : Nat) :
    fips_word (fips_message_bits (b0 :: b1 :: b2 :: b3 :: rest)) (j + 1) =
      fips_word (fips_message_bits rest) j := by
  unfold fips_word
  have h := fips_message_bits_drop (b0 :: b1 :: b2 :: b3 :: rest) 4
  simp only [List.drop_succ_cons, List.drop_zero] at h
  have e : 32 * (j + 1) = 8 * 4 + 32 * j := by omega
  rw [e, ← List.drop_drop, h]

theorem sha1_words_eq : ∀ (l : List Nat), (∀ b ∈ l, b < 256) →
    sha1_words l = (List.range (l.length / 4)).map (fun j => fips_word (fips_message_bits l) j)
  | [], _ => by simp [sha1_words]
  | [_], _ => by simp [sha1_words]
  | [_, _], _ => by simp [sha1_words]
  | [_, _, _], _ => by simp [sha1_words]
  | b0 :: b1 :: b2 :: b3 :: rest, hb => by
    have h0 : b0 < 256 := hb b0 (by simp)
    have h1 : b1 < 256 := hb b1 (by simp)
    have h2 : b2 < 256 := hb b2 (by simp)
    have h3 : b3 < 256 := hb b3 (by simp)
    have hrest : ∀ b ∈ rest, b < 256 := fun b hm => hb b (by simp [hm])
    have hl : (b0 :: b1 :: b2 :: b3 :: rest).length / 4 = rest.length / 4 + 1 := by
      simp only [List.length_cons]; omega
    rw [hl, List.range_succ_eq_map, List.map_cons, List.map_map, fips_word_zero rest h0 h1 h2 h3]
    unfold sha1_words
    rw [sha1_words_eq rest hrest]
    congr 1

theorem fips_word_take (X : List Nat) (j : Nat) (hj : j < 16) :
    fips_word (fips_message_bits (X.take 64)) j = fips_word (fips_message_bits X) j := by
  unfold fips_word
  have e : 32 ⊓ (8 * 64 - 32 * j) = 32 := by omega
  rw [← fips_message_bits_take, List.drop_take, List.take_take, e]

theorem fips_word_drop (X : List Nat) (i j : Nat) :
    fips_word (fips_message_bits (X.drop (64 * i))) j =
      fips_word (fips_message_bits X) (16 * i + j) := by
  unfold fips_word
  have e : 8 * (64 * i) = 512 * i := by omega
  have e2 : 512 * i + 32 * j = 32 * (16 * i + j) := by omega
  rw [← fips_message_bits_drop, List.drop_drop, e, e2]

theorem sha1_words_chunk (X : List Nat) (i : Nat) (hb : ∀ b ∈ X, b < 256)
    (hlen : 64 * (i + 1) ≤ X.length) :
    sha1_words ((X.drop (64 * i)).take 64) = fips_block (fips_message_bits X) i := by
  have hmem : ∀ b ∈ (X.drop (64 * i)).take 64, b < 256 :=
    fun b hm => hb b (List.mem_of_mem_drop (List.mem_of_mem_take hm))
  have hl : ((X.drop (64 * i)).take 64).length = 64 := by
    rw [List.length_take, List.length_drop]; omega
  rw [sha1_words_eq _ hmem, hl]
  unfold fips_block
  apply List.map_congr_left
  intro j hj
  rw [List.mem_range] at hj
  rw [fips_word_take _ j (by omega), fips_word_drop]

theorem sha1_chunks_eq (X : List Nat) (hb : ∀ b ∈ X, b < 256) :
    ∀ (n i : Nat) (h : Sha1State), 64 * (i + n) ≤ X.length → words_ok h →
      sha1_chunks n h (X.drop (64 * i)) =
        (List.range' i n).foldl (fun H k => fips_compress H (fips_block (fips_message_bits X) k)) h := by
  intro n
  induction n with
  | zero => intro i h _ _; simp [sha1_chunks]
  | succ n ih =>
    intro i h hlen hok
    have hw := sha1_words_chunk X i hb (by omega)
    have hc := sha1_chunk_eq h ((X.drop (64 * i)).take 64) hok (by rw [hw]; simp [fips_block])
    have e : 64 * i + 64 = 64 * (i + 1) := by omega
    have hrec := ih (i + 1) (sha1_chunk h ((X.drop (64 * i)).take 64)) (by omega) hc.2
    rw [sha1_chunks, List.drop_drop, List.range'_succ, List.foldl_cons, ← hw, ← hc.1, e]
    exact hrec

theorem sha1_pad_length (data : List Nat) :
    (sha1_pad data).length = ((data.length + 9 + 63) / 64) * 64 := by
  unfold sha1_pad
  simp only [List.length_append, List.length_replicate, List.length_map, List.length_range,
    List.length_cons, List.length_nil]
  omega

theorem sha1_pad_bytes (data : List Nat) (hb : ∀ b ∈ data, b < 256) :
    ∀ b ∈ sha1_pad data, b < 256 := by
  intro b hm
  unfold sha1_pad at hm
  simp only [List.mem_append, List.mem_replicate, List.mem_map, List.mem_range,
    List.mem_singleton] at hm
  rcases hm with ((h | h) | h) | h
  · exact hb b h
  · omega
  · omega
  · obtain ⟨i, _, rfl⟩ := h
    exact Nat.mod_lt _ (by norm_num)

theorem fips_message_bits_zeros (n : Nat) :
    fips_message_bits (List.replicate n 0) = List.replicate (8 * n) false := by
  induction n with
  | zero => rfl
  | succ n ih =>
    rw [List.replicate_succ, fips_message_bits_cons, ih]
    have : fips_byte_bits 0 = List.replicate 8 false := by decide
    rw [this, ← List.replicate_add]
    congr 1
    omega

theorem length_byte_bit (L k i : Nat) (hi : i < 8) (hk : k < 8) :
    (((L % 18446744073709551616) >>> (8 * k)) % 256).testBit i = L.testBit (8 * k + i) := by
  have h256 : (256 : Nat) = 2 ^ 8 := by norm_num
  have h64 : (18446744073709551616 : Nat) = 2 ^ 64 := by norm_num
  rw [h256, h64, Nat.testBit_mod_two_pow, Nat.testBit_shiftRight, Nat.testBit_mod_two_pow]
  have : 8 * k + i < 64 := by omega
  simp [hi, this]

theorem length_byte_bits (L k : Nat) (hk : k < 8) :
    fips_byte_bits (((L % 18446744073709551616) >>> (8 * k)) % 256) =
      (List.range 8).map (fun i => L.testBit (8 * k + (7 - i))) := by
  unfold fips_byte_bits
  apply List.map_congr_left
  intro i hi
  rw [List.mem_range] at hi
  exact length_byte_bit L k (7 - i) (by omega) hk

theorem fips_message_bits_length_block (L : Nat) :
    fips_message_bits
        ((List.range 8).map (fun i => ((L % 18446744073709551616) >>> (8 * (7 - i))) % 256)) =
      (List.range 64).map (fun i => L.testBit (63 - i)) := by
  have e : (List.range 8).map (fun i => ((L % 18446744073709551616) >>> (8 * (7 - i))) % 256) =
      [((L % 18446744073709551616) >>> (8 * 7)) % 256,
       ((L % 18446744073709551616) >>> (8 * 6)) % 256,
       ((L % 18446744073709551616) >>> (8 * 5)) % 256,
       ((L % 18446744073709551616) >>> (8 * 4)) % 256,
       ((L % 18446744073709551616) >>> (8 * 3)) % 256,
       ((L % 18446744073709551616) >>> (8 * 2)) % 256,
       ((L % 18446744073709551616) >>> (8 * 1)) % 256,
       ((L % 18446744073709551616) >>> (8 * 0)) % 256] := rfl
  rw [e]
  simp only [fips_message_bits_cons]
  rw [length_byte_bits L 7 (by norm_num), length_byte_bits L 6 (by norm_num),
    length_byte_bits L 5 (by norm_num), length_byte_bits L 4 (by norm_num),
    length_byte_bits L 3 (by norm_num), length_byte_bits L 2 (by norm_num),
    length_byte_bits L 1 (by norm_num), length_byte_bits L 0 (by norm_num)]
  rfl

theorem fips_pad_eq (data : List Nat) :
    fips_message_bits (sha1_pad data) = fips_pad (fips_message_bits data) := by
  unfold sha1_pad fips_pad
  dsimp only
  have hz : fips_pad_zeros (8 * data.length) =
      7 + 8 * ((data.length + 9 + 63) / 64 * 64 - data.length - 9) := by
    unfold fips_pad_zeros; omega
  have h128 : fips_message_bits [128] = [true] ++ List.replicate 7 false := by decide
  rw [fips_message_bits_append, fips_message_bits_append, fips_message_bits_append,
    fips_message_bits_zeros, fips_message_bits_length, h128, hz, List.replicate_add,
    Nat.mul_comm data.length 8, fips_message_bits_length_block]
  simp only [List.append_assoc]

theorem word_bytes_eq (x : Nat) :
    word_bytes x = [x / 16777216 % 256, x / 65536 % 256, x / 256 % 256, x % 256] := by
  unfold word_bytes
  simp only [Nat.shiftRight_eq_div_pow]

theorem sha1_eq_fips_sha1 (data : List Nat) (hb : ∀ b ∈ data, b < 256) :
    sha1 data = fips_sha1 data := by
  have hlen := sha1_pad_length data
  have hdiv : (sha1_pad data).length / 64 = (data.length + 9 + 63) / 64 := by
    rw [hlen]; omega
  have hbits : (fips_pad (fips_message_bits data)).length / 512 = (data.length + 9 + 63) / 64 := by
    rw [← fips_pad_eq, fips_message_bits_length, hlen]; omega
  have hH : words_ok fips_H0 := by unfold words_ok fips_H0; norm_num
  have hc := sha1_chunks_eq (sha1_pad data) (sha1_pad_bytes data hb)
    ((data.length + 9 + 63) / 64) 0 fips_H0 (by rw [hlen]; omega) hH
  rw [Nat.mul_zero, List.drop_zero, fips_pad_eq, ← List.range_eq_range'] at hc
  unfold sha1 fips_sha1
  dsimp only
  rw [hdiv, hbits]
  have h0 : Sha1State.mk 1732584193 4023233417 2562383102 271733878 3285377520 = fips_H0 :=
    rfl
  rw [h0, hc]
  simp only [word_bytes_eq, List.flatMap_cons, List.flatMap_nil, List.append_nil,
    List.cons_append, List.nil_append]

theorem hex_digit_eq : ∀ n, n < 16 → hex_digit n = fips_hex_char n := by decide

theorem hex_of_bytes_eq (bs : List Nat) (hb : ∀ b ∈ bs, b < 256) :
    hex_of_bytes bs = fips_hex bs := by
  induction bs with
  | nil => rfl
  | cons b bs ih =>
    have hlt : b < 256 := hb b (by simp)
    have h1 : (b >>> 4) % 16 = b / 16 := by
      rw [Nat.shiftRight_eq_div_pow]; omega
    unfold hex_of_bytes fips_hex
    rw [List.flatMap_cons, h1, hex_digit_eq _ (by omega), hex_digit_eq _ (Nat.mod_lt _ (by norm_num)),
      ih (fun x hx => hb x (by simp [hx]))]
    rfl

theorem fips_sha1_bytes (data : List Nat) : ∀ b ∈ fips_sha1 data, b < 256 := by
  intro b hm
  unfold fips_sha1 at hm
  simp only [List.mem_flatMap, List.mem_cons, List.mem_singleton, List.not_mem_nil, or_false] at hm
  obtain ⟨w, _, hw⟩ := hm
  rcases hw with h | h | h | h <;> rw [h] <;> exact Nat.mod_lt _ (by norm_num)

theorem fips_sha1_length (data : List Nat) : (fips_sha1 data).length = 20 := by
  unfold fips_sha1
  simp

theorem fips_hex_length (bs : List Nat) : (fips_hex bs).length = 2 * bs.length := by
  induction bs with
  | nil => rfl
  | cons b bs ih =>
    unfold fips_hex at ih ⊢
    rw [List.flatMap_cons, List.length_append, ih]
    simp only [List.length_cons, List.length_nil]
    omega

theorem mem_hex_of_bytes (bs : List Nat) : ∀ c ∈ hex_of_bytes bs, c ∈ "0123456789abcdef".toList := by
  have hd : ∀ n, hex_digit n ∈ "0123456789abcdef".toList := by
    intro n
    by_cases h : n < 16
    · revert n; decide
    · unfold hex_digit
      rw [List.getD_eq_default _ _ (by simpa using h)]
      decide
  induction bs with
  | nil => intro c hc; simp [hex_of_bytes] at hc
  | cons b bs ih =>
    intro c hc
    unfold hex_of_bytes at hc
    rcases List.mem_cons.mp hc with h | h
    · rw [h]; exact hd _
    · rcases List.mem_cons.mp h with h | h
      · rw [h]; exact hd _
      · exact ih c h

set_option maxRecDepth 1000000

/-- C11: for every byte string the function `sha1` returns the SHA-1 digest that FIPS 180-4
defines for it (`fips_sha1`: padding on the bit string, parsing into blocks, message
schedule, 80 passes a block), and `sha1_hex` is that digest in lowercase hexadecimal:
exactly 40 characters, each from `0123456789abcdef`; the empty string and `abc` have the
digests of the standard's examples.  (The length field of the padding holds the low 64
bits of the bit length, which is the bit length of any string a 64-bit machine holds.) -/
theorem sha1_is_fips_sha1 (data : Str) :
    sha1 (bytes_of data) = fips_sha1 (bytes_of data) ∧
    sha1_hex data = fips_hex (fips_sha1 (bytes_of data)) ∧
    (sha1_hex data).length = 40 ∧
    (∀ c ∈ sha1_hex data, c ∈ "0123456789abcdef".toList) ∧
    sha1_hex [] = "da39a3ee5e6b4b0d3255bfef95601890afd80709".toList ∧
    sha1_hex "abc".toList = "a9993e364706816aba3e25717850c26c9cd0d89d".toList := by
  have hb : ∀ b ∈ bytes_of data, b < 256 := by
    intro b hm
    unfold bytes_of at hm
    obtain ⟨c, _, rfl⟩ := List.mem_map.mp hm
    exact Nat.mod_lt _ (by norm_num)
  have h1 := sha1_eq_fips_sha1 (bytes_of data) hb
  have h2 : sha1_hex data = fips_hex (fips_sha1 (bytes_of data)) := by
    unfold sha1_hex
    show hex_of_bytes (sha1 (bytes_of data)) = _
    rw [h1, hex_of_bytes_eq _ (fips_sha1_bytes _)]
  refine ⟨h1, h2, ?_, ?_, by decide, by decide⟩
  · rw [h2, fips_hex_length, fips_sha1_length]
  · unfold sha1_hex
    exact mem_hex_of_bytes _

theorem sha1_is_fips_sha1_witness :
    'a' ∈ sha1_hex "abc".toList ∧ 'a' ∈ "0123456789abcdef".toList :=
  ⟨by decide, (sha1_is_fips_sha1 "abc".toList).2.2.2.1 'a' (by decide)⟩

set_option maxRecDepth 512

/-! ## Hashing a file piece by piece -/

theorem piece_loop_eq (content : List Char) :
    ∀ (left i pos : Nat) (acc : List Str), i + left = piece_count content.length →
      (left ≠ 0 → pos = i * PIECE_SZ) →
      piece_loop content content.length (piece_count content.length) left i pos acc =
        acc ++ (List.range' i left).map (fun j => sha1_hex
          (byte_range content (j * PIECE_SZ) (min ((j + 1) * PIECE_SZ) content.length))) := by
  intro left
  induction left with
  | zero => intro i pos acc _ _; simp [piece_loop]
  | succ left ih =>
    intro i pos acc hnp hpos
    rw [hpos (by omega)]
    have hi : i < piece_count content.length := by omega
    unfold piece_count PIECE_SZ at hi hnp
    have hread : (if i = piece_count content.length - 1 then
          (content.length + 18446744073709551616 - i * PIECE_SZ) % 18446744073709551616
        else PIECE_SZ) = min ((i + 1) * PIECE_SZ) content.length - i * PIECE_SZ := by
      simp only [piece_count, PIECE_SZ]
      split_ifs with h <;> omega
    have hlen : (fread content (i * PIECE_SZ)
        (min ((i + 1) * PIECE_SZ) content.length - i * PIECE_SZ)).length =
        min ((i + 1) * PIECE_SZ) content.length - i * PIECE_SZ := by
      unfold fread
      rw [List.length_take, List.length_drop]
      simp only [PIECE_SZ]
      omega
    rw [piece_loop]
    simp only [hread, hlen, ne_eq, not_true_eq_false, if_false]
    rw [ih (i + 1) _ _ (by simp only [piece_count, PIECE_SZ]; omega)
      (by intro hl; simp only [PIECE_SZ]; omega), List.range'_succ, List.map_cons,
      List.append_assoc]
    rfl

/-- C12: for a readable file of `N` bytes, `compute_piece_and_file_sha1` returns the size
`N`, a piece-hash list of length `ceil(N / 524288)` whose entry `i` is `sha1_hex` of the
bytes `[i * 524288, min((i + 1) * 524288, N))` of the file, and as the file hash `sha1_hex`
of the concatenation of those hex strings. -/
theorem compute_piece_and_file_sha1_spec (content : List Char) :
    (compute_piece_and_file_sha1 content).size = content.length ∧
    (compute_piece_and_file_sha1 content).piece_hex.length = piece_count content.length ∧
    (∀ i, i < piece_count content.length →
      (compute_piece_and_file_sha1 content).piece_hex.getD i [] =
        sha1_hex (byte_range content (i * 524288) (min ((i + 1) * 524288) content.length))) ∧
    (compute_piece_and_file_sha1 content).file_hex =
      sha1_hex (compute_piece_and_file_sha1 content).piece_hex.flatten := by
  have h := piece_loop_eq content (piece_count content.length) 0 0 [] (by omega) (by intro _; omega)
  rw [List.nil_append, ← List.range_eq_range'] at h
  have hp : (compute_piece_and_file_sha1 content).piece_hex =
      (List.range (piece_count content.length)).map (fun j => sha1_hex
        (byte_range content (j * PIECE_SZ) (min ((j + 1) * PIECE_SZ) content.length))) := h
  refine ⟨rfl, ?_, ?_, rfl⟩
  · rw [hp, List.length_map, List.length_range]
  · intro i hi
    rw [hp, List.getD_eq_getElem _ _ (by simpa using hi), List.getElem_map, List.getElem_range]
    rfl

set_option maxRecDepth 1000000

theorem compute_piece_and_file_sha1_spec_witness :
    0 < piece_count "abc".toList.length ∧
      (compute_piece_and_file_sha1 "abc".toList).piece_hex.getD 0 [] =
        sha1_hex (byte_range "abc".toList (0 * 524288)
          (min ((0 + 1) * 524288) "abc".toList.length)) :=
  ⟨by decide, (compute_piece_and_file_sha1_spec "abc".toList).2.2.1 0 (by decide)⟩

set_option maxRecDepth 512

/-! ## Leaving a group -/

theorem handle_command_leave_group (s : Registry) (u g : Str) :
    handle_command s ["LEAVE_GROUP".toList, u, g] = .ok (cmd_leave_group s u g) := rfl

theorem map_find_cons {V : Type} (k1 : Str) (w : V) (rest : List (Str × V)) (key : Str) :
    map_find ((k1, w) :: rest) key = if k1 = key then some w else map_find rest key := rfl

theorem map_assign_cons {V : Type} (k1 : Str) (w : V) (rest : List (Str × V)) (key : Str)
    (v : V) :
    map_assign ((k1, w) :: rest) key v =
      if k1 = key then (k1, v) :: rest else (k1, w) :: map_assign rest key v := rfl

theorem map_erase_cons {V : Type} (k1 : Str) (w : V) (rest : List (Str × V)) (key : Str) :
    map_erase ((k1, w) :: rest) key =
      if k1 = key then map_erase rest key else (k1, w) :: map_erase rest key := by
  unfold map_erase
  rw [List.filter_cons]
  by_cases h : k1 = key
  · rw [if_pos h, if_neg (by simp [h])]
  · rw [if_neg h, if_pos (by simp [h])]

theorem map_find_assign_same {V : Type} (m : List (Str × V)) (k : Str) (v : V) :
    map_find (map_assign m k v) k = some v := by
  induction m with
  | nil => show (if k = k then some v else none) = some v; rw [if_pos rfl]
  | cons a rest ih =>
    obtain ⟨k1, w⟩ := a
    rw [map_assign_cons]
    by_cases h : k1 = k
    · rw [if_pos h, map_find_cons, if_pos h]
    · rw [if_neg h, map_find_cons, if_neg h, ih]

theorem map_find_assign_other {V : Type} (m : List (Str × V)) {k k2 : Str} (v : V) (h : k2 ≠ k) :
    map_find (map_assign m k v) k2 = map_find m k2 := by
  induction m with
  | nil =>
    show (if k = k2 then some v else none) = none
    rw [if_neg (fun e => h e.symm)]
  | cons a rest ih =>
    obtain ⟨k1, w⟩ := a
    rw [map_assign_cons]
    by_cases h1 : k1 = k
    · have h2 : ¬ k1 = k2 := fun e => h (e.symm.trans h1)
      rw [if_pos h1, map_find_cons, if_neg h2, map_find_cons, if_neg h2]
    · rw [if_neg h1, map_find_cons, map_find_cons, ih]

theorem map_find_erase_same {V : Type} (m : List (Str × V)) (k : Str) :
    map_find (map_erase m k) k = none := by
  induction m with
  | nil => rfl
  | cons a rest ih =>
    obtain ⟨k1, w⟩ := a
    rw [map_erase_cons]
    by_cases h : k1 = k
    · rw [if_pos h, ih]
    · rw [if_neg h, map_find_cons, if_neg h, ih]

theorem map_find_erase_other {V : Type} (m : List (Str × V)) {k k2 : Str} (h : k2 ≠ k) :
    map_find (map_erase m k) k2 = map_find m k2 := by
  induction m with
  | nil => rfl
  | cons a rest ih =>
    obtain ⟨k1, w⟩ := a
    rw [map_erase_cons]
    by_cases h1 : k1 = k
    · have h2 : ¬ k1 = k2 := fun e => h (e.symm.trans h1)
      rw [if_pos h1, map_find_cons, if_neg h2, ih]
    · rw [if_neg h1, map_find_cons, map_find_cons, ih]

theorem is_member_eq {s : Registry} {g : Str} {gi : Str × List Str}
    (hg : map_find s.groups g = some gi) (m : Str) : is_member s m g = decide (m ∈ gi.2) := by
  simp [is_member, hg, set_count]

theorem strictly_sorted_erase {l : List Str} (u : Str) (h : strictly_sorted l) :
    strictly_sorted (set_erase u l) := List.Pairwise.filter _ h

theorem strictly_sorted_head {l : List Str} (h : strictly_sorted l) :
    ∀ m ∈ l, m = l.headD [] ∨ str_lt (l.headD []) m = true := by
  cases l with
  | nil => intro m hm; simp at hm
  | cons a rest =>
    intro m hm
    rcases List.mem_cons.mp hm with e | e
    · exact Or.inl e
    · exact Or.inr ((List.pairwise_cons.mp h).1 m e)

/-- C13, amended: when a member `u` of group `g` issues `LEAVE_GROUP u g`, the command
replies OK; the members of `g` afterwards are the former members other than `u`; the file
records of group `g` owned by `u` are removed and all others kept unchanged; if other
members remain the group keeps its owner, or, when `u` was the owner, gets as owner a
remaining member, the smallest in the order of the set (`members` is the set, listed in
that order); if no member remains and the owner of `g` was one of its members, the group
and its request list are gone. -/
theorem leave_group_spec (s : Registry) (u g owner : Str) (members : List Str)
    (hg : map_find s.groups g = some (owner, members)) (hu : u ∈ members) :
    ∃ h, handle_command s ["LEAVE_GROUP".toList, u, g] = .ok h ∧
      h.reply = "OK".toList ∧
      h.state.files =
        s.files.filter (fun p => !(decide (p.2.group = g) && decide (p.2.owner = u))) ∧
      (∀ m, is_member h.state m g = true ↔ m ∈ members ∧ m ≠ u) ∧
      ((∃ m ∈ members, m ≠ u) →
        ∃ o, map_find h.state.groups g = some (o, set_erase u members) ∧
          (owner ≠ u → o = owner) ∧
          (owner = u → o ∈ members ∧ o ≠ u ∧
            (strictly_sorted members → ∀ m ∈ members, m ≠ u → m = o ∨ str_lt o m = true))) ∧
      ((∀ m ∈ members, m = u) → owner ∈ members →
        map_find h.state.groups g = none ∧ map_find h.state.requests g = none) := by
  refine ⟨cmd_leave_group s u g, handle_command_leave_group s u g, ?_⟩
  have hmem : is_member s u g = true := by
    rw [is_member_eq hg]; exact decide_eq_true hu
  have hat : groups_at s g = (owner, members) := groups_at_of_find hg
  have hval : cmd_leave_group s u g =
      (if owner = u then
        if (set_erase u members).isEmpty then
          { state := { s with groups := map_erase s.groups g,
                              requests := map_erase s.requests g,
                              files := erase_owned_files s.files u g },
            reply := "OK".toList, bcast := some ("LEAVE_GROUP ".toList ++ u ++ ' ' :: g) }
        else
          { state := { s with groups := map_assign s.groups g
                                ((set_erase u members).headD [], set_erase u members),
                              files := erase_owned_files s.files u g },
            reply := "OK".toList, bcast := some ("LEAVE_GROUP ".toList ++ u ++ ' ' :: g) }
      else
        { state := { s with groups := map_assign s.groups g (owner, set_erase u members),
                            files := erase_owned_files s.files u g },
          reply := "OK".toList, bcast := some ("LEAVE_GROUP ".toList ++ u ++ ' ' :: g) }) := by
    unfold cmd_leave_group
    simp only [hmem, hat, Bool.not_true, Bool.false_eq_true, if_false]
  rw [hval]
  by_cases hou : owner = u
  · by_cases hemp : (set_erase u members).isEmpty = true
    · have hnil : set_erase u members = [] := List.isEmpty_iff.mp hemp
      rw [if_pos hou, if_pos hemp]
      refine ⟨rfl, rfl, ?_, ?_, ?_⟩
      · intro m
        have hnone : map_find (map_erase s.groups g) g = none := map_find_erase_same _ _
        simp only [is_member, hnone]
        constructor
        · intro hf; cases hf
        · rintro ⟨hm, hne⟩
          have : m ∈ set_erase u members := mem_set_erase.mpr ⟨hm, hne⟩
          rw [hnil] at this
          cases this
      · rintro ⟨m, hm, hne⟩
        have : m ∈ set_erase u members := mem_set_erase.mpr ⟨hm, hne⟩
        rw [hnil] at this
        cases this
      · intro _ _
        exact ⟨map_find_erase_same _ _, map_find_erase_same _ _⟩
    · have hhead : (set_erase u members).headD [] ∈ set_erase u members :=
        headD_mem (by simpa using hemp)
      rw [if_pos hou, if_neg hemp]
      refine ⟨rfl, rfl, ?_, ?_, ?_⟩
      · intro m
        rw [is_member_eq (map_find_assign_same _ _ _)]
        simp only [decide_eq_true_eq]
        exact mem_set_erase
      · intro _
        refine ⟨_, map_find_assign_same _ _ _, fun hc => absurd hou hc, fun _ => ?_⟩
        refine ⟨(mem_set_erase.mp hhead).1, (mem_set_erase.mp hhead).2, ?_⟩
        intro hsorted m hm hmu
        exact strictly_sorted_head (strictly_sorted_erase u hsorted) m
          (mem_set_erase.mpr ⟨hm, hmu⟩)
      · intro hall _
        have := hall _ (mem_set_erase.mp hhead).1
        exact absurd this (mem_set_erase.mp hhead).2
  · rw [if_neg hou]
    refine ⟨rfl, rfl, ?_, ?_, ?_⟩
    · intro m
      rw [is_member_eq (map_find_assign_same _ _ _)]
      simp only [decide_eq_true_eq]
      exact mem_set_erase
    · intro _
      exact ⟨_, map_find_assign_same _ _ _, fun _ => rfl, fun hc => absurd hc hou⟩
    · intro hall hown
      exact absurd (hall owner hown) hou

theorem ex_team_step :
    handle_command ex_team ["LEAVE_GROUP".toList, "O".toList, "grp".toList] =
      .ok { state := ex_team_left, reply := "OK".toList,
            bcast := some "LEAVE_GROUP O grp".toList } := by
  decide

/-- C13, amended, at the example of the claim: owner `O`, member `M`, file `f1` owned by
`O` and `f2` owned by `M`; after `LEAVE_GROUP O grp` the record `f1` is gone, `f2` is kept
and the owner is `M`. -/
theorem leave_group_spec_witness :
    ∃ h, handle_command ex_team ["LEAVE_GROUP".toList, "O".toList, "grp".toList] = .ok h ∧
      h.reply = "OK".toList ∧
      h.state.files = ex_team.files.filter
        (fun p => !(decide (p.2.group = "grp".toList) && decide (p.2.owner = "O".toList))) ∧
      (∀ m, is_member h.state m "grp".toList = true ↔
        m ∈ ["M".toList, "O".toList] ∧ m ≠ "O".toList) ∧
      ((∃ m ∈ ["M".toList, "O".toList], m ≠ "O".toList) →
        ∃ o, map_find h.state.groups "grp".toList =
            some (o, set_erase "O".toList ["M".toList, "O".toList]) ∧
          ("O".toList ≠ "O".toList → o = "O".toList) ∧
          ("O".toList = "O".toList → o ∈ ["M".toList, "O".toList] ∧ o ≠ "O".toList ∧
            (strictly_sorted ["M".toList, "O".toList] →
              ∀ m ∈ ["M".toList, "O".toList], m ≠ "O".toList → m = o ∨ str_lt o m = true))) ∧
      ((∀ m ∈ ["M".toList, "O".toList], m = "O".toList) →
        "O".toList ∈ ["M".toList, "O".toList] →
        map_find h.state.groups "grp".toList = none ∧
          map_find h.state.requests "grp".toList = none) :=
  leave_group_spec ex_team "O".toList "grp".toList "O".toList ["M".toList, "O".toList]
    (by rfl) (by decide)

/-! ## Uploads: decimal fields, the record read from a command, owner and replies -/

theorem digits_value_append (xs : List Char) (c : Char) :
    digits_value (xs ++ [c]) = 10 * digits_value xs + (c.toNat - 48) := by
  unfold digits_value
  rw [List.foldl_append]
  rfl

theorem digitChar_digit : ∀ k, k < 10 →
    isdigit (Nat.digitChar k) = true ∧ (Nat.digitChar k).toNat - 48 = k := by
  decide

theorem toDigitsCore_spec : ∀ (fuel n : Nat) (ds : List Char), n < fuel →
    ∃ pre, Nat.toDigitsCore 10 fuel n ds = pre ++ ds ∧ pre ≠ [] ∧
      (∀ c ∈ pre, isdigit c = true) ∧ digits_value pre = n := by
  intro fuel
  induction fuel with
  | zero => intro n ds h; omega
  | succ fuel ih =>
    intro n ds hn
    have hd := digitChar_digit (n % 10) (Nat.mod_lt _ (by norm_num))
    unfold Nat.toDigitsCore
    dsimp only
    by_cases h0 : n / 10 = 0
    · rw [if_pos h0]
      refine ⟨[Nat.digitChar (n % 10)], rfl, by simp, ?_, ?_⟩
      · intro c hc
        rw [List.mem_singleton] at hc
        rw [hc]; exact hd.1
      · have := digits_value_append [] (Nat.digitChar (n % 10))
        rw [List.nil_append] at this
        rw [this, hd.2]
        show 10 * 0 + n % 10 = n
        omega
    · rw [if_neg h0]
      obtain ⟨pre, hpre, _, hdig, hval⟩ := ih (n / 10) (Nat.digitChar (n % 10) :: ds) (by omega)
      refine ⟨pre ++ [Nat.digitChar (n % 10)], ?_, by simp, ?_, ?_⟩
      · rw [hpre, List.append_assoc]; rfl
      · intro c hc
        rcases List.mem_append.mp hc with h | h
        · exact hdig c h
        · rw [List.mem_singleton] at h
          rw [h]; exact hd.1
      · rw [digits_value_append, hval, hd.2]
        omega

theorem to_string_spec (n : Nat) :
    to_string n ≠ [] ∧ (∀ c ∈ to_string n, isdigit c = true) ∧ digits_value (to_string n) = n := by
  obtain ⟨pre, hpre, hne, hdig, hval⟩ := toDigitsCore_spec (n + 1) n [] (by omega)
  have e : to_string n = pre := by
    rw [List.append_nil] at hpre
    exact hpre
  rw [e]
  exact ⟨hne, hdig, hval⟩

theorem isdigit_not_space {c : Char} (h : isdigit c = true) : isspace c = false := by
  unfold isdigit at h
  unfold isspace
  simp only [Bool.and_eq_true, decide_eq_true_eq] at h
  simp only [Bool.or_eq_false_iff, decide_eq_false_iff_not, Bool.and_eq_false_imp,
    decide_eq_true_eq]
  omega

theorem to_string_token (n : Nat) : is_token (to_string n) :=
  ⟨(to_string_spec n).1, fun c hc => isdigit_not_space ((to_string_spec n).2.1 c hc)⟩

theorem takeWhile_digits {ds r : List Char} (hd : ∀ c ∈ ds, isdigit c = true)
    (hr : r = [] ∨ ∃ c r1, r = c :: r1 ∧ isdigit c = false) :
    (ds ++ r).takeWhile isdigit = ds ∧ (ds ++ r).dropWhile isdigit = r := by
  induction ds with
  | nil =>
    rcases hr with h | ⟨c, r1, h, hc⟩
    · subst h; simp
    · subst h
      simp [List.takeWhile_cons, List.dropWhile_cons, hc]
  | cons c cs ih =>
    have hc : isdigit c = true := hd c (List.mem_cons_self _ _)
    have ih1 := ih (fun x hx => hd x (List.mem_cons_of_mem _ hx))
    simp only [List.cons_append, List.takeWhile_cons, List.dropWhile_cons, hc, if_true]
    exact ⟨by rw [ih1.1], ih1.2⟩

theorem isdigit_not_sign {c : Char} (h : isdigit c = true) :
    c ≠ Char.ofNat 45 ∧ c ≠ Char.ofNat 43 := by
  constructor <;> intro e <;> rw [e] at h <;> exact absurd h (by decide)

theorem getU64_digits {ds r : List Char} (hne : ds ≠ []) (hd : ∀ c ∈ ds, isdigit c = true)
    (hr : r = [] ∨ ∃ c r1, r = c :: r1 ∧ isdigit c = false)
    (hv : digits_value ds ≤ 18446744073709551615) :
    IStream.getU64 { buf := ds ++ r, fail := false } =
      (digits_value ds, { buf := r, fail := false }) := by
  cases ds with
  | nil => exact absurd rfl hne
  | cons c cs =>
    have hc : isdigit c = true := hd c (List.mem_cons_self _ _)
    have hsp : isspace c = false := isdigit_not_space hc
    have hsg := isdigit_not_sign hc
    have htw := takeWhile_digits hd hr
    have hdw : (c :: cs ++ r).dropWhile isspace = c :: cs ++ r := by
      rw [List.cons_append, List.dropWhile_cons, if_neg (by simp [hsp])]
    have hhead : (c :: cs ++ r).head? = some c := rfl
    unfold IStream.getU64
    dsimp only
    rw [if_neg (by decide), hdw, hhead]
    have h1 : ¬ (some c = some (Char.ofNat 45) ∨ some c = some (Char.ofNat 43)) := by
      rintro (h | h) <;> injection h with h
      · exact hsg.1 h
      · exact hsg.2 h
    have h2 : decide (some c = some (Char.ofNat 45)) = false := by
      apply decide_eq_false
      intro h; injection h with h; exact hsg.1 h
    simp only [if_neg h1, htw.1, htw.2, h2]
    rw [if_neg (by simp), if_neg (by omega)]
    simp

theorem getU64_space_digits {ds r : List Char} (hne : ds ≠ [])
    (hd : ∀ c ∈ ds, isdigit c = true)
    (hr : r = [] ∨ ∃ c r1, r = c :: r1 ∧ isdigit c = false)
    (hv : digits_value ds ≤ 18446744073709551615) :
    IStream.getU64 { buf := ' ' :: (ds ++ r), fail := false } =
      (digits_value ds, { buf := r, fail := false }) := by
  have h := getU64_digits hne hd hr hv
  have hdw : (' ' :: (ds ++ r)).dropWhile isspace = (ds ++ r).dropWhile isspace := by
    rw [List.dropWhile_cons, if_pos (by decide)]
  unfold IStream.getU64 at h ⊢
  dsimp only at h ⊢
  rw [if_neg (by decide)] at h ⊢
  rw [hdw]
  exact h

theorem stoi_digits {ds : List Char} (hne : ds ≠ []) (hd : ∀ c ∈ ds, isdigit c = true)
    (hv : digits_value ds ≤ 2147483647) : stoi ds = .ok (digits_value ds : Int) := by
  cases ds with
  | nil => exact absurd rfl hne
  | cons c cs =>
    have hc : isdigit c = true := hd c (List.mem_cons_self _ _)
    have hsp : isspace c = false := isdigit_not_space hc
    have hsg := isdigit_not_sign hc
    have htw := takeWhile_digits (r := []) hd (Or.inl rfl)
    rw [List.append_nil] at htw
    have hdw : (c :: cs).dropWhile isspace = c :: cs := by
      rw [List.dropWhile_cons, if_neg (by simp [hsp])]
    have hhead : (c :: cs).head? = some c := rfl
    have h1 : ¬ (some c = some (Char.ofNat 45) ∨ some c = some (Char.ofNat 43)) := by
      rintro (h | h) <;> injection h with h
      · exact hsg.1 h
      · exact hsg.2 h
    have h2 : decide (some c = some (Char.ofNat 45)) = false := by
      apply decide_eq_false
      intro h; injection h with h; exact hsg.1 h
    unfold stoi
    dsimp only
    rw [hdw, hhead]
    simp only [if_neg h1, htw.1, h2]
    rw [if_neg (by simp)]
    simp only [Bool.false_eq_true, if_false]
    rw [if_neg (by omega)]

theorem split_ws_go_token : ∀ (t r cur : List Char), (∀ c ∈ t, isspace c = false) →
    split_ws_go (t ++ r) cur = split_ws_go r (cur ++ t) := by
  intro t
  induction t with
  | nil => intro r cur _; simp
  | cons c cs ih =>
    intro r cur ht
    have hc : isspace c = false := ht c (List.mem_cons_self _ _)
    rw [List.cons_append, split_ws_go]
    simp only [hc, Bool.false_eq_true, if_false]
    rw [ih r (cur ++ [c]) (fun x hx => ht x (List.mem_cons_of_mem _ hx)), List.append_assoc]
    rfl

theorem split_ws_join_sp : ∀ (hs : List Str), (∀ h ∈ hs, is_token h) →
    split_ws (join_sp hs) = hs
  | [], _ => rfl
  | [h], ht => by
    have hh := ht h (by simp)
    unfold split_ws
    have := split_ws_go_token h [] [] hh.2
    rw [List.append_nil, List.nil_append] at this
    rw [join_sp, this, split_ws_go]
    have : h.isEmpty = false := by
      cases h with
      | nil => exact absurd rfl hh.1
      | cons _ _ => rfl
    simp [this]
  | h :: k :: rest, ht => by
    have hh := ht h (by simp)
    have ih := split_ws_join_sp (k :: rest) (fun x hx => ht x (List.mem_cons_of_mem _ hx))
    unfold split_ws at ih ⊢
    have := split_ws_go_token h (' ' :: join_sp (k :: rest)) [] hh.2
    rw [List.nil_append] at this
    have hemp : h.isEmpty = false := by
      cases h with
      | nil => exact absurd rfl hh.1
      | cons _ _ => rfl
    rw [join_sp, this, split_ws_go]
    have hs : isspace ' ' = true := by decide
    simp only [hs, if_true, hemp, Bool.false_eq_true, if_false]
    rw [ih]

theorem split_ws_space (x : List Char) : split_ws (' ' :: x) = split_ws x := by
  unfold split_ws
  rw [split_ws_go]
  have hs : isspace ' ' = true := by decide
  simp [hs]

theorem hash_loop_eq (n : Nat) : ∀ (hs acc : List Str),
    hash_loop (n : Int) hs acc =
      if acc.length < n then
        acc ++ (hs.filter (fun h => decide (h.length = 40))).take (n - acc.length)
      else acc := by
  intro hs
  induction hs with
  | nil => intro acc; simp [hash_loop]
  | cons h hs ih =>
    intro acc
    rw [hash_loop]
    by_cases hlt : acc.length < n
    · have hlt' : (acc.length : Int) < (n : Int) := by exact_mod_cast hlt
      rw [if_pos hlt', if_pos hlt]
      by_cases h40 : h.length = 40
      · rw [if_pos h40, ih (acc ++ [h]), List.filter_cons, if_pos (decide_eq_true h40)]
        have hl : (acc ++ [h]).length = acc.length + 1 := by simp
        by_cases hlt2 : (acc ++ [h]).length < n
        · rw [if_pos hlt2]
          have e : n - acc.length = (n - (acc ++ [h]).length) + 1 := by omega
          rw [e, List.take_succ_cons, List.append_assoc]
          rfl
        · rw [if_neg hlt2]
          have e : n - acc.length = 1 := by omega
          rw [e, List.take_succ_cons, List.take_zero]
      · rw [if_neg h40, ih acc, if_pos hlt, List.filter_cons, if_neg (by simpa using h40)]
    · have hlt' : ¬ (acc.length : Int) < (n : Int) := by
        intro hc; exact hlt (by exact_mod_cast hc)
      rw [if_neg hlt', if_neg hlt]

theorem hash_loop_kept (n : Nat) (hs : List Str) : hash_loop (n : Int) hs [] = kept_hashes n hs := by
  rw [hash_loop_eq]
  unfold kept_hashes
  by_cases h : n = 0
  · subst h; simp
  · rw [if_pos (by simpa using Nat.pos_of_ne_zero h)]
    simp

theorem join_sp_tail (u : Str) (hs : List Str) : join_sp (u :: hs) = u ++ tail_tokens hs := by
  cases hs with
  | nil => simp [join_sp, tail_tokens]
  | cons h rest => rfl

theorem tail_tokens_shape (hs : List Str) :
    tail_tokens hs = [] ∨ ∃ r1, tail_tokens hs = ' ' :: r1 := by
  cases hs with
  | nil => exact Or.inl rfl
  | cons h rest => exact Or.inr ⟨_, rfl⟩

theorem tokens_tail_tokens (hs : List Str) (ht : ∀ h ∈ hs, is_token h) :
    IStream.tokens { buf := tail_tokens hs, fail := false } = hs := by
  unfold IStream.tokens
  dsimp only
  rw [if_neg Bool.false_ne_true]
  cases hs with
  | nil => rfl
  | cons h rest =>
    show split_ws (' ' :: join_sp (h :: rest)) = h :: rest
    rw [split_ws_space, split_ws_join_sp _ ht]

theorem extract_upload_tokens {g name sha peer user : Str} {size n : Nat} {hs : List Str}
    (hg : is_token g) (hname : is_token name) (hsha : is_token sha) (hpeer : is_token peer)
    (huser : is_token user) (hsize : size < 18446744073709551616) :
    extract_upload
        { buf := (join_sp (upload_cmd g name size n sha peer user hs)).drop 12, fail := false } =
      ({ group := g, filename := name, size := size, np_str := to_string n, sha := sha,
         peer := peer, user := user },
       { buf := tail_tokens hs, fail := false }) := by
  have hdrop : (join_sp (upload_cmd g name size n sha peer user hs)).drop 12 =
      g ++ ' ' :: (name ++ ' ' :: (to_string size ++ ' ' :: (to_string n ++ ' ' ::
        (sha ++ ' ' :: (peer ++ ' ' :: (user ++ tail_tokens hs)))))) := by
    rw [← join_sp_tail]
    rfl
  have hs1 := to_string_spec size
  have hsp : isdigit ' ' = false := by decide
  rw [hdrop]
  unfold extract_upload
  dsimp only
  rw [getStr_token hg (Or.inr ⟨_, rfl⟩)]
  dsimp only
  rw [getStr_space_token hname (Or.inr ⟨_, rfl⟩)]
  dsimp only
  rw [getU64_space_digits hs1.1 hs1.2.1 (Or.inr ⟨' ', _, rfl, hsp⟩) (by rw [hs1.2.2]; omega)]
  dsimp only
  rw [getStr_space_token (to_string_token n) (Or.inr ⟨_, rfl⟩)]
  dsimp only
  rw [getStr_space_token hsha (Or.inr ⟨_, rfl⟩)]
  dsimp only
  rw [getStr_space_token hpeer (Or.inr ⟨_, rfl⟩)]
  dsimp only
  rw [getStr_space_token huser (tail_tokens_shape hs), hs1.2.2]

theorem handle_command_upload_cmd (s : Registry) (g name : Str) (size n : Nat)
    (sha peer user : Str) (hs : List Str) :
    handle_command s (upload_cmd g name size n sha peer user hs) =
      cmd_upload_meta s (join_sp (upload_cmd g name size n sha peer user hs)) := rfl

theorem kept_hashes_length (n : Nat) (hs : List Str) :
    (kept_hashes n hs).length = min n (hs.filter (fun h => decide (h.length = 40))).length := by
  unfold kept_hashes
  rw [List.length_take]

theorem cmd_upload_meta_tokens (s : Registry) {g name sha peer user : Str} {size n : Nat}
    {hs : List Str} (hg : is_token g) (hname : is_token name) (hsha : is_token sha)
    (hpeer : is_token peer) (huser : is_token user) (hhs : ∀ h ∈ hs, is_token h)
    (hsize : size < 18446744073709551616) (hn : n < 2147483648) :
    cmd_upload_meta s (join_sp (upload_cmd g name size n sha peer user hs)) =
      .ok (if is_member s user g = false then
             { state := s, reply := "ERR not_member".toList, bcast := none }
           else if (hs.filter (fun h => decide (h.length = 40))).length < n then
             { state := s, reply := "ERR piece_count_mismatch".toList, bcast := none }
           else
             { state := store_upload s (UploadFields.mk g name size (to_string n) sha peer user)
                          (kept_hashes n hs),
               reply := "OK".toList,
               bcast := some ("UPLOAD_META ".toList ++
                 (join_sp (upload_cmd g name size n sha peer user hs)).drop 12) }) := by
  have hlen : ¬ (join_sp (upload_cmd g name size n sha peer user hs)).length < 12 := by
    have : join_sp (upload_cmd g name size n sha peer user hs) =
        "UPLOAD_META ".toList ++ join_sp (g :: name :: to_string size :: to_string n :: sha ::
          peer :: user :: hs) := rfl
    rw [this, List.length_append]
    have : "UPLOAD_META ".toList.length = 12 := rfl
    omega
  have hn1 := to_string_spec n
  have hstoi : stoi (to_string n) = .ok (n : Int) := by
    have := stoi_digits hn1.1 hn1.2.1 (by rw [hn1.2.2]; omega)
    rw [hn1.2.2] at this
    exact this
  unfold cmd_upload_meta
  rw [if_neg hlen]
  dsimp only
  rw [extract_upload_tokens hg hname hsha hpeer huser hsize]
  dsimp only
  rw [hstoi]
  dsimp only
  rw [tokens_tail_tokens hs hhs, hash_loop_kept]
  by_cases hm : is_member s user g = true
  · have hm' : ¬ is_member s user g = false := by simp [hm]
    rw [if_neg (by simp [hm]), if_neg hm']
    by_cases hk : (hs.filter (fun h => decide (h.length = 40))).length < n
    · have hne : ((kept_hashes n hs).length : Int) ≠ (n : Int) := by
        rw [kept_hashes_length]
        intro hc
        have : min n (hs.filter (fun h => decide (h.length = 40))).length = n := by
          exact_mod_cast hc
        omega
      rw [if_pos hne, if_pos hk]
    · have he : ¬ ((kept_hashes n hs).length : Int) ≠ (n : Int) := by
        rw [kept_hashes_length]
        intro hc
        apply hc
        have : min n (hs.filter (fun h => decide (h.length = 40))).length = n := by omega
        exact_mod_cast this
      rw [if_neg he, if_neg hk]
  · have hm' : is_member s user g = false := by simpa using hm
    rw [if_pos (by simp [hm']), if_pos hm']

/-- C14 fails on the code: in the group `g` with members `a` and `b`, the upload of file
`f` by `a` is accepted and makes `a` the owner; the later upload of the same file by `b` is
accepted too and the record's owner is then `b`, not the first publisher `a`. -/
theorem upload_meta_owner_replaced :
    ∃ h1 h2,
      handle_command ex_pair
          (upload_cmd "g".toList "f".toList 10 1 "x".toList "p".toList "a".toList [ex_hash]) =
        .ok h1 ∧ h1.reply = "OK".toList ∧
      map_find h1.state.files "g f".toList = some ex_file ∧ ex_file.owner = "a".toList ∧
      handle_command h1.state
          (upload_cmd "g".toList "f".toList 10 1 "x".toList "q".toList "b".toList [ex_hash]) =
        .ok h2 ∧ h2.reply = "OK".toList ∧
      map_find h2.state.files "g f".toList = some ex_file_b ∧ ex_file_b.owner = "b".toList :=
  ⟨_, _, rfl, rfl, rfl, rfl, rfl, rfl, rfl, rfl⟩

/-- C14, amended: the owner of a file record is the user of the upload accepted last: when
`UPLOAD_META g name size n sha peer user ...` is accepted (reply OK), in any registry and
whoever owned a record of `(g, name)` before, the record of `(g, name)` afterwards has
owner `user`. -/
theorem upload_meta_owner_is_last_uploader (s : Registry) (g name sha peer user : Str)
    (size n : Nat) (hs : List Str) (h : Handled)
    (hg : is_token g) (hname : is_token name) (hsha : is_token sha) (hpeer : is_token peer)
    (huser : is_token user) (hhs : ∀ t ∈ hs, is_token t)
    (hsize : size < 18446744073709551616) (hn : n < 2147483648)
    (hh : handle_command s (upload_cmd g name size n sha peer user hs) = .ok h)
    (hok : h.reply = "OK".toList) :
    ∃ f, map_find h.state.files (g ++ ' ' :: name) = some f ∧ f.owner = user := by
  rw [handle_command_upload_cmd,
    cmd_upload_meta_tokens s hg hname hsha hpeer huser hhs hsize hn] at hh
  injection hh with hh
  by_cases hm : is_member s user g = false
  · rw [if_pos hm] at hh
    rw [← hh] at hok
    dsimp only at hok
    exact absurd hok (by decide)
  · rw [if_neg hm] at hh
    by_cases hk : (hs.filter (fun t => decide (t.length = 40))).length < n
    · rw [if_pos hk] at hh
      rw [← hh] at hok
      dsimp only at hok
      exact absurd hok (by decide)
    · rw [if_neg hk] at hh
      rw [← hh]
      exact ⟨_, map_find_assign_same _ _ _, rfl⟩

theorem upload_meta_owner_is_last_uploader_witness :
    ∃ f, map_find ex_shared.files ("g".toList ++ ' ' :: "f".toList) = some f ∧
      f.owner = "a".toList :=
  upload_meta_owner_is_last_uploader ex_group "g".toList "f".toList "x".toList "p".toList
    "a".toList 10 1 [ex_hash]
    (Handled.mk ex_shared "OK".toList (some ("UPLOAD_META g f 10 1 x p a ".toList ++ ex_hash)))
    (by decide) (by decide) (by decide) (by decide) (by decide) (by decide) (by decide)
    (by decide) (by rfl) (by rfl)

/-- C15 fails on the code: `UPLOAD_META g f 10 1 x p a <hash> <hash>` from the member `a`
supplies two piece hashes for the one piece it declares; the tracker does not reply
`ERR piece_count_mismatch` but OK, and stores the record with the first hash only. -/
theorem upload_meta_accepts_excess_hashes :
    is_member ex_group "a".toList "g".toList = true ∧ [ex_hash, ex_hash].length ≠ 1 ∧
    ∃ h, handle_command ex_group
          (upload_cmd "g".toList "f".toList 10 1 "x".toList "p".toList "a".toList
            [ex_hash, ex_hash]) = .ok h ∧
      h.reply = "OK".toList ∧ h.reply ≠ "ERR piece_count_mismatch".toList ∧
      h.state = ex_shared :=
  ⟨rfl, by decide, _, rfl, rfl, by decide, rfl⟩

/-- C15, amended: for the command `UPLOAD_META g name size n sha peer user h1 .. hk` (fields
whitespace-free tokens, `size` and `n` written as `std::to_string` writes a number, with
`size < 2^64` and `n < 2^31`) the tracker replies `ERR not_member` when
`user` is not a member of `g`; otherwise `ERR piece_count_mismatch` when fewer than `n` of
the tokens `h1 .. hk` have 40 characters; otherwise OK, and it stores under `(g, name)` a
record with the given size and file hash, as piece hashes the first `n` tokens of 40
characters in order (all of `h1 .. hk` when they are `n` such tokens), owner `user` and
peer set `{peer}`.  A rejected command leaves the registry as it was. -/
theorem upload_meta_replies (s : Registry) (g name sha peer user : Str) (size n : Nat)
    (hs : List Str) (hg : is_token g) (hname : is_token name) (hsha : is_token sha)
    (hpeer : is_token peer) (huser : is_token user) (hhs : ∀ t ∈ hs, is_token t)
    (hsize : size < 18446744073709551616) (hn : n < 2147483648) :
    ∃ h, handle_command s (upload_cmd g name size n sha peer user hs) = .ok h ∧
      (is_member s user g = false → h.reply = "ERR not_member".toList ∧ h.state = s) ∧
      (is_member s user g = true →
        (hs.filter (fun t => decide (t.length = 40))).length < n →
        h.reply = "ERR piece_count_mismatch".toList ∧ h.state = s) ∧
      (is_member s user g = true →
        n ≤ (hs.filter (fun t => decide (t.length = 40))).length →
        h.reply = "OK".toList ∧
        ∃ f, map_find h.state.files (g ++ ' ' :: name) = some f ∧
          f.group = g ∧ f.filename = name ∧ f.size = size ∧ f.sha = sha ∧
          f.piece_sha = kept_hashes n hs ∧ f.owner = user ∧ f.peers = [peer]) ∧
      ((∀ t ∈ hs, t.length = 40) → hs.length = n → kept_hashes n hs = hs) := by
  rw [handle_command_upload_cmd,
    cmd_upload_meta_tokens s hg hname hsha hpeer huser hhs hsize hn]
  refine ⟨_, rfl, ?_, ?_, ?_, ?_⟩
  · intro hm
    rw [if_pos hm]
    exact ⟨rfl, rfl⟩
  · intro hm hk
    rw [if_neg (by simp [hm]), if_pos hk]
    exact ⟨rfl, rfl⟩
  · intro hm hk
    rw [if_neg (by simp [hm]), if_neg (by omega)]
    exact ⟨rfl, _, map_find_assign_same _ _ _, rfl, rfl, rfl, rfl, rfl, rfl, rfl⟩
  · intro hall hlen
    unfold kept_hashes
    have : hs.filter (fun t => decide (t.length = 40)) = hs := by
      rw [List.filter_eq_self]
      intro t ht
      exact decide_eq_true (hall t ht)
    rw [this, ← hlen, List.take_length]

theorem upload_meta_replies_witness :
    ∃ h, handle_command ex_group
        (upload_cmd "g".toList "f".toList 10 1 "x".toList "p".toList "a".toList [ex_hash]) =
        .ok h ∧ h.reply = "OK".toList := by
  obtain ⟨h, hh, _, _, hok, _⟩ := upload_meta_replies ex_group "g".toList "f".toList
    "x".toList "p".toList "a".toList 10 1 [ex_hash] (by decide) (by decide) (by decide)
    (by decide) (by decide) (by decide) (by decide) (by decide)
  exact ⟨h, hh, (hok rfl (by decide)).1⟩

/-! ## The manifest: reply of GET_FILE_PEERS and its parsing by the client -/

theorem getInt_space_digits {ds r : List Char} (old : Int) (hne : ds ≠ [])
    (hd : ∀ c ∈ ds, isdigit c = true)
    (hr : r = [] ∨ ∃ c r1, r = c :: r1 ∧ isdigit c = false)
    (hv : digits_value ds ≤ 2147483647) :
    IStream.getInt { buf := ' ' :: (ds ++ r), fail := false } old =
      ((digits_value ds : Int), { buf := r, fail := false }) := by
  cases ds with
  | nil => exact absurd rfl hne
  | cons c cs =>
    have hc : isdigit c = true := hd c (List.mem_cons_self _ _)
    have hsp : isspace c = false := isdigit_not_space hc
    have hsg := isdigit_not_sign hc
    have htw := takeWhile_digits hd hr
    have hdw : (' ' :: (c :: cs ++ r)).dropWhile isspace = c :: cs ++ r := by
      rw [List.dropWhile_cons, if_pos (by decide), List.cons_append, List.dropWhile_cons,
        if_neg (by simp [hsp])]
    have hhead : (c :: cs ++ r).head? = some c := rfl
    have h1 : ¬ (some c = some (Char.ofNat 45) ∨ some c = some (Char.ofNat 43)) := by
      rintro (h | h) <;> injection h with h
      · exact hsg.1 h
      · exact hsg.2 h
    have h2 : decide (some c = some (Char.ofNat 45)) = false := by
      apply decide_eq_false
      intro h; injection h with h; exact hsg.1 h
    unfold IStream.getInt
    dsimp only
    rw [if_neg (by decide), hdw, hhead]
    simp only [if_neg h1, htw.1, htw.2, h2]
    rw [if_neg (by simp)]
    simp only [Bool.false_eq_true, if_false]
    rw [if_neg (by omega), if_neg (by omega)]

theorem takeWhile_line {t rest : List Char} (ht : ∀ c ∈ t, c ≠ '\n') :
    (t ++ '\n' :: rest).takeWhile (fun x => x ≠ '\n') = t ∧
      (t ++ '\n' :: rest).dropWhile (fun x => x ≠ '\n') = '\n' :: rest := by
  induction t with
  | nil => simp [List.takeWhile_cons, List.dropWhile_cons]
  | cons c cs ih =>
    have hc : c ≠ '\n' := ht c (List.mem_cons_self _ _)
    have ih1 := ih (fun x hx => ht x (List.mem_cons_of_mem _ hx))
    simp only [List.cons_append, List.takeWhile_cons, List.dropWhile_cons, hc, ne_eq,
      not_false_eq_true, decide_True, if_true]
    exact ⟨by rw [ih1.1], ih1.2⟩

theorem getline_line {t rest : List Char} (ht : ∀ c ∈ t, c ≠ '\n') :
    IStream.getline { buf := t ++ '\n' :: rest, fail := false } =
      (t, { buf := rest, fail := false }) := by
  have h := @takeWhile_line t rest ht
  unfold IStream.getline
  dsimp only
  rw [if_neg Bool.false_ne_true]
  cases hb : t ++ '\n' :: rest with
  | nil => cases t <;> cases hb
  | cons c cs =>
    dsimp only
    rw [← hb, h.1, h.2]
    rfl

theorem getline_empty : IStream.getline { buf := [], fail := false } =
    ([], { buf := [], fail := true }) := rfl

theorem is_lower_hex_isxdigit : ∀ c, is_lower_hex c → isxdigit c = true := by
  intro c hc
  unfold is_lower_hex at hc
  simp only [String.toList, List.mem_cons, List.mem_singleton, List.not_mem_nil, or_false] at hc
  rcases hc with h | h | h | h | h | h | h | h | h | h | h | h | h | h | h | h <;> rw [h] <;> rfl

theorem isxdigit_ne {c : Char} (h : isxdigit c = true) : c ≠ '\n' ∧ c ≠ ',' := by
  constructor <;> intro e <;> rw [e] at h <;> exact absurd h (by decide)

theorem dropWhile_hash {h r : List Char} (hh : is_hash h) :
    (h ++ r).dropWhile (fun c => !isxdigit c) = h ++ r := by
  cases h with
  | nil => exact absurd hh.1 (by decide)
  | cons c cs =>
    have hc : isxdigit c = true := hh.2 c (List.mem_cons_self _ _)
    rw [List.cons_append, List.dropWhile_cons, if_neg (by simp [hc])]

theorem parse_hashes_go_join : ∀ (hs : List Str) (fuel : Nat) (acc : List Str),
    hs.length < fuel → (∀ h ∈ hs, is_hash h) →
    parse_hashes_go fuel (join_comma hs) acc = acc ++ hs
  | [], fuel, acc, hf, _ => by
    cases fuel with
    | zero => omega
    | succ fuel => simp [parse_hashes_go, join_comma]
  | [h], fuel, acc, hf, hh => by
    have hh1 := hh h (by simp)
    cases fuel with
    | zero => omega
    | succ fuel =>
      have hd := dropWhile_hash (r := []) hh1
      rw [List.append_nil] at hd
      have hne : h.isEmpty = false := by
        cases h with
        | nil => exact absurd hh1.1 (by decide)
        | cons _ _ => rfl
      have hall : h.all isxdigit = true := by
        rw [List.all_eq_true]
        exact hh1.2
      have htake : h.take 40 = h := by rw [← hh1.1, List.take_length]
      have hdrop : h.drop 40 = [] := by rw [← hh1.1, List.drop_length]
      rw [join_comma, parse_hashes_go]
      simp only [hne, Bool.false_eq_true, if_false, hd, hh1.1, le_refl, if_true, htake, hall,
        hdrop, List.head?_nil]
      rw [if_neg (by simp)]
      cases fuel with
      | zero => rfl
      | succ fuel => rw [parse_hashes_go]; rfl
  | h :: k :: rest, fuel, acc, hf, hh => by
    have hh1 := hh h (by simp)
    cases fuel with
    | zero => omega
    | succ fuel =>
      have hd := dropWhile_hash (r := ',' :: join_comma (k :: rest)) hh1
      have hne : (h ++ ',' :: join_comma (k :: rest)).isEmpty = false := by
        cases h with
        | nil => exact absurd hh1.1 (by decide)
        | cons _ _ => rfl
      have htake : (h ++ ',' :: join_comma (k :: rest)).take 40 = h := by
        rw [← hh1.1, List.take_left]
      have hdrop : (h ++ ',' :: join_comma (k :: rest)).drop 40 = ',' :: join_comma (k :: rest) := by
        rw [← hh1.1, List.drop_left]
      have hall : h.all isxdigit = true := by
        rw [List.all_eq_true]
        exact hh1.2
      have hlen : 40 ≤ (h ++ ',' :: join_comma (k :: rest)).length := by
        rw [List.length_append, hh1.1]; omega
      have ih := parse_hashes_go_join (k :: rest) fuel (acc ++ [h])
        (by simp only [List.length_cons] at hf ⊢; omega)
        (fun x hx => hh x (List.mem_cons_of_mem _ hx))
      rw [join_comma, parse_hashes_go]
      simp only [hne, Bool.false_eq_true, if_false, hd, hlen, if_true, htake, hall, hdrop,
        List.head?_cons, List.tail_cons]
      rw [ih, List.append_assoc]
      rfl

theorem join_comma_length (hs : List Str) (hh : ∀ h ∈ hs, is_hash h) :
    hs.length ≤ (join_comma hs).length := by
  induction hs with
  | nil => simp [join_comma]
  | cons h rest ih =>
    have hh1 := hh h (by simp)
    have ih1 := ih (fun x hx => hh x (List.mem_cons_of_mem _ hx))
    cases rest with
    | nil => simp [join_comma, hh1.1]
    | cons k rest =>
      rw [join_comma, List.length_append, List.length_cons, hh1.1]
      simp only [List.length_cons] at ih1 ⊢
      omega

theorem parse_hashes_join_comma (hs : List Str) (hh : ∀ h ∈ hs, is_hash h) :
    parse_hashes (join_comma hs) = hs := by
  unfold parse_hashes
  rw [parse_hashes_go_join hs _ [] (by have := join_comma_length hs hh; omega) hh]
  rfl

theorem join_comma_no_newline (hs : List Str) (hh : ∀ h ∈ hs, is_hash h) :
    ∀ c ∈ join_comma hs, c ≠ '\n' := by
  induction hs with
  | nil => intro c hc; simp [join_comma] at hc
  | cons h rest ih =>
    have hh1 := hh h (by simp)
    have ih1 := ih (fun x hx => hh x (List.mem_cons_of_mem _ hx))
    cases rest with
    | nil =>
      intro c hc
      exact (isxdigit_ne (hh1.2 c hc)).1
    | cons k rest =>
      intro c hc
      rw [join_comma] at hc
      rcases List.mem_append.mp hc with h1 | h1
      · exact (isxdigit_ne (hh1.2 c h1)).1
      · rcases List.mem_cons.mp h1 with h2 | h2
        · rw [h2]; decide
        · exact ih1 c h2

theorem lines_of_cons (p : Str) (ps : List Str) : lines_of (p :: ps) = p ++ '\n' :: lines_of ps :=
  rfl

theorem read_peers_lines : ∀ (peers : List Str) (fuel : Nat) (acc : List Str),
    peers.length < fuel → (∀ p ∈ peers, p ≠ [] ∧ ∀ c ∈ p, c ≠ '\n') →
    read_peers fuel { buf := lines_of peers, fail := false } acc = acc ++ peers
  | [], fuel, acc, hf, _ => by
    cases fuel with
    | zero => omega
    | succ fuel =>
      rw [read_peers]
      show (if (IStream.getline { buf := [], fail := false }).2.fail = true then acc else _) = _
      rw [getline_empty]
      simp
  | p :: ps, fuel, acc, hf, hp => by
    have hp1 := hp p (by simp)
    cases fuel with
    | zero => omega
    | succ fuel =>
      have hne : p.isEmpty = false := by
        cases p with
        | nil => exact absurd rfl hp1.1
        | cons _ _ => rfl
      have ih := read_peers_lines ps fuel (acc ++ [p])
        (by simp only [List.length_cons] at hf; omega)
        (fun x hx => hp x (List.mem_cons_of_mem _ hx))
      rw [read_peers, lines_of_cons, getline_line hp1.2]
      simp only [Bool.false_eq_true, if_false, hne]
      rw [ih, List.append_assoc]
      rfl

theorem lines_of_length (peers : List Str) : peers.length ≤ (lines_of peers).length := by
  induction peers with
  | nil => simp [lines_of]
  | cons p ps ih =>
    rw [lines_of_cons, List.length_append, List.length_cons, List.length_cons]
    omega

theorem skip_to_peers_found (fuel : Nat) (rest : List Char) :
    skip_to_peers (fuel + 1) { buf := "PEERS".toList ++ '\n' :: rest, fail := false } =
      { buf := rest, fail := false } := by
  rw [skip_to_peers, getline_line (by decide)]
  simp

theorem handle_command_get_file_peers (s : Registry) (g name u : Str) :
    handle_command s ["GET_FILE_PEERS".toList, g, name, u] =
      .ok (cmd_get_file_peers s g name u) := rfl

theorem getline_newline (x : List Char) :
    IStream.getline { buf := '\n' :: x, fail := false } = ([], { buf := x, fail := false }) :=
  getline_line (t := []) (by simp)

theorem manifest_text_shape (f : File) :
    manifest_text f =
      to_string f.size ++ ' ' :: (to_string f.piece_sha.length ++ '\n' ::
        (f.sha ++ '\n' :: (join_comma f.piece_sha ++ '\n' ::
          ("PEERS".toList ++ '\n' :: lines_of f.peers)))) := by
  unfold manifest_text
  simp [List.append_assoc]

theorem parse_manifest_text (f : File) (np0 : Int) (hpeers : f.peers ≠ [])
    (hhash : ∀ h ∈ f.piece_sha, is_hash h)
    (hsize : f.size < 18446744073709551616) (hcount : f.piece_sha.length < 2147483648)
    (hsha : ∀ c ∈ f.sha, c ≠ '\n') (hp : ∀ p ∈ f.peers, p ≠ [] ∧ ∀ c ∈ p, c ≠ '\n') :
    parse_manifest np0 (manifest_text f) =
      some { fsz := f.size, np := f.piece_sha.length, file_sha := f.sha,
             hashes := f.piece_sha, peers := f.peers } := by
  have hs1 := to_string_spec f.size
  have hs2 := to_string_spec f.piece_sha.length
  have hsp : isdigit ' ' = false := by decide
  have hnl : isdigit '\n' = false := by decide
  have herr : ¬ (manifest_text f).take 3 = "ERR".toList := by
    rw [manifest_text_shape]
    cases hts : to_string f.size with
    | nil => exact absurd hts hs1.1
    | cons c cs =>
      have hc : isdigit c = true := hs1.2.1 c (by rw [hts]; exact List.mem_cons_self _ _)
      intro he
      have : c = 'E' := by
        have h0 := congrArg List.head? he
        simpa using h0
      rw [this] at hc
      exact absurd hc (by decide)
  have hfuel : f.peers.length < (manifest_text f).length + 1 := by
    have h1 := lines_of_length f.peers
    have h2 : (lines_of f.peers).length ≤ (manifest_text f).length := by
      unfold manifest_text
      rw [List.length_append]
      omega
    omega
  unfold parse_manifest
  rw [if_neg herr]
  dsimp only
  generalize (manifest_text f).length = L at hfuel ⊢
  rw [manifest_text_shape,
    getU64_digits hs1.1 hs1.2.1 (Or.inr ⟨' ', _, rfl, hsp⟩) (by rw [hs1.2.2]; omega)]
  dsimp only
  rw [getInt_space_digits np0 hs2.1 hs2.2.1 (Or.inr ⟨'\n', _, rfl, hnl⟩) (by rw [hs2.2.2]; omega)]
  dsimp only
  rw [getline_newline]
  dsimp only
  rw [getline_line hsha]
  dsimp only
  rw [getline_line (join_comma_no_newline _ hhash)]
  dsimp only
  rw [parse_hashes_join_comma _ hhash, to_int32_of_lt hcount, hs2.2.2, if_neg (by simp),
    skip_to_peers_found, read_peers_lines f.peers (L + 1) [] hfuel hp, hs1.2.2]
  have hne : ([] ++ f.peers).isEmpty = false := by
    cases hpe : f.peers with
    | nil => exact absurd hpe hpeers
    | cons _ _ => rfl
  rw [if_neg (by rw [hne]; exact Bool.false_ne_true)]
  rfl

/-- The reply of GET_FILE_PEERS to a member, and what the client reads from it, for a
record with the properties of `record_ok` spelled out. -/
theorem get_file_peers_roundtrip_of_record (s : Registry) (g name u : Str) (f : File)
    (np0 : Int) (hm : is_member s u g = true)
    (hf : map_find s.files (g ++ ' ' :: name) = some f) (hpeers : f.peers ≠ [])
    (hhash : ∀ h ∈ f.piece_sha, h.length = 40 ∧ ∀ c ∈ h, is_lower_hex c)
    (hsize : f.size < 18446744073709551616) (hcount : f.piece_sha.length < 2147483648)
    (hsha : ∀ c ∈ f.sha, c ≠ '\n') (hp : ∀ p ∈ f.peers, p ≠ [] ∧ ∀ c ∈ p, c ≠ '\n') :
    ∃ h, handle_command s ["GET_FILE_PEERS".toList, g, name, u] = .ok h ∧
      h.reply = manifest_text f ∧
      parse_manifest np0 h.reply =
        some { fsz := f.size, np := f.piece_sha.length, file_sha := f.sha,
               hashes := f.piece_sha, peers := f.peers } := by
  have hreply : (cmd_get_file_peers s g name u).reply = manifest_text f := by
    have hne : f.peers.isEmpty = false := by
      cases hpe : f.peers with
      | nil => exact absurd hpe hpeers
      | cons _ _ => rfl
    unfold cmd_get_file_peers
    simp only [hm, Bool.not_true, Bool.false_eq_true, if_false, hf, hne]
    unfold manifest_text
    simp [List.append_assoc]
  refine ⟨_, handle_command_get_file_peers s g name u, hreply, ?_⟩
  rw [hreply]
  exact parse_manifest_text f np0 hpeers
    (fun h hh => ⟨(hhash h hh).1, fun c hc => is_lower_hex_isxdigit c ((hhash h hh).2 c hc)⟩)
    hsize hcount hsha hp

/-! ## The round trip to the trackers -/

theorem send_to_endpoint_ok (link : Option Str) {addr : Str} (h : port_ok addr = true) :
    send_to_endpoint link addr = .ok (if ':' ∈ addr then link else none) := by
  unfold port_ok at h
  unfold send_to_endpoint
  by_cases hc : ':' ∈ addr
  · rw [if_neg (not_not.mpr hc)] at h ⊢
    rw [if_pos hc]
    cases hs : stoi ((addr.dropWhile (fun c => c ≠ ':')).drop 1) with
    | error e => rw [hs] at h; cases h
    | ok v => rfl
  · rw [if_pos hc, if_neg hc]

theorem try_trackers_spec (net : Net) (connected msg : Str) :
    ∀ (ts : List Str) (i : Nat), (∀ t ∈ ts, port_ok t = true) →
      ∃ r, try_trackers net connected msg ts i = .ok r ∧
        (∀ j t reply, ts.get? j = some t → t ≠ connected →
            responds net msg t (i + j + 1) = some reply →
            (∀ k t1, k < j → ts.get? k = some t1 → t1 ≠ connected →
              responds net msg t1 (i + k + 1) = none) →
            r = (some reply, t)) ∧
        ((∀ j t, ts.get? j = some t → t ≠ connected →
            responds net msg t (i + j + 1) = none) → r = (none, connected)) := by
  intro ts
  induction ts with
  | nil =>
    intro i _
    refine ⟨_, rfl, ?_, fun _ => rfl⟩
    intro j t reply hj
    simp at hj
  | cons t ts ih =>
    intro i hok
    have hok1 : port_ok t = true := hok t (List.mem_cons_self _ _)
    obtain ⟨r, hr, hfirst, hnone⟩ := ih (i + 1) (fun x hx => hok x (List.mem_cons_of_mem _ hx))
    rw [try_trackers]
    by_cases hne : t ≠ connected
    · rw [if_pos hne, send_to_endpoint_ok _ hok1]
      cases hresp : (if ':' ∈ t then net t msg (i + 1) else none) with
      | some reply0 =>
        refine ⟨_, rfl, ?_, ?_⟩
        · intro j t1 reply hj hne1 hrep hbefore
          cases j with
          | zero =>
            simp only [List.get?_cons_zero, Option.some.injEq] at hj
            subst hj
            unfold responds at hrep
            rw [Nat.add_zero, hresp] at hrep
            injection hrep with hrep
            rw [hrep]
          | succ j =>
            have h0 := hbefore 0 t (by omega) rfl hne
            unfold responds at h0
            rw [Nat.add_zero, hresp] at h0
            cases h0
        · intro hall
          have h0 := hall 0 t rfl hne
          unfold responds at h0
          rw [Nat.add_zero, hresp] at h0
          cases h0
      | none =>
        refine ⟨r, hr, ?_, ?_⟩
        · intro j t1 reply hj hne1 hrep hbefore
          cases j with
          | zero =>
            simp only [List.get?_cons_zero, Option.some.injEq] at hj
            subst hj
            unfold responds at hrep
            rw [Nat.add_zero, hresp] at hrep
            cases hrep
          | succ j =>
            refine hfirst j t1 reply hj hne1 (by rw [← hrep]; congr 1; omega) ?_
            intro k t2 hk hk2 hne2
            have := hbefore (k + 1) t2 (by omega) hk2 hne2
            rw [← this]; congr 1; omega
        · intro hall
          apply hnone
          intro j t1 hj hne1
          have := hall (j + 1) t1 hj hne1
          rw [← this]; congr 1; omega
    · rw [if_neg hne]
      refine ⟨r, hr, ?_, ?_⟩
      · intro j t1 reply hj hne1 hrep hbefore
        cases j with
        | zero =>
          simp only [List.get?_cons_zero, Option.some.injEq] at hj
          subst hj
          exact absurd hne1 hne
        | succ j =>
          refine hfirst j t1 reply hj hne1 (by rw [← hrep]; congr 1; omega) ?_
          intro k t2 hk hk2 hne2
          have := hbefore (k + 1) t2 (by omega) hk2 hne2
          rw [← this]; congr 1; omega
      · intro hall
        apply hnone
        intro j t1 hj hne1
        have := hall (j + 1) t1 hj hne1
        rw [← this]; congr 1; omega

theorem try_trackers_none (net : Net) (connected msg : Str) :
    ∀ (ts : List Str) (i : Nat) (r : Option Str × Str), (∀ t ∈ ts, port_ok t = true) →
      try_trackers net connected msg ts i = .ok r → r.1 = none →
      r.2 = connected ∧
        ∀ j t, ts.get? j = some t → t ≠ connected → responds net msg t (i + j + 1) = none := by
  intro ts
  induction ts with
  | nil =>
    intro i r _ hr _
    rw [try_trackers] at hr
    injection hr with hr
    rw [← hr]
    refine ⟨rfl, ?_⟩
    intro j t hj
    simp at hj
  | cons t ts ih =>
    intro i r hok hr hnone
    have hok1 : port_ok t = true := hok t (List.mem_cons_self _ _)
    have hrest := ih (i + 1) r (fun x hx => hok x (List.mem_cons_of_mem _ hx))
    rw [try_trackers] at hr
    by_cases hne : t ≠ connected
    · rw [if_pos hne, send_to_endpoint_ok _ hok1] at hr
      cases hresp : (if ':' ∈ t then net t msg (i + 1) else none) with
      | some reply0 =>
        rw [hresp] at hr
        injection hr with hr
        rw [← hr] at hnone
        cases hnone
      | none =>
        rw [hresp] at hr
        obtain ⟨h1, h2⟩ := hrest hr hnone
        refine ⟨h1, ?_⟩
        intro j t1 hj hne1
        cases j with
        | zero =>
          simp only [List.get?_cons_zero, Option.some.injEq] at hj
          subst hj
          unfold responds
          rw [Nat.add_zero, hresp]
        | succ j =>
          have := h2 j t1 hj hne1
          rw [← this]; congr 1; omega
    · rw [if_neg hne] at hr
      obtain ⟨h1, h2⟩ := hrest hr hnone
      refine ⟨h1, ?_⟩
      intro j t1 hj hne1
      cases j with
      | zero =>
        simp only [List.get?_cons_zero, Option.some.injEq] at hj
        subst hj
        exact absurd hne1 hne
      | succ j =>
        have := h2 j t1 hj hne1
        rw [← this]; congr 1; omega

/-- With tracker addresses on which `send_to_endpoint` does not throw (no colon, or a
decimal port), `tracker_roundtrip` returns.  If the current tracker responds, its reply is
returned and it stays current.  If not, the other configured trackers are tried in list
order: the reply of the first that responds is returned and that tracker becomes the
current one.  It reports failure exactly when neither the current tracker nor any other
configured tracker responds, and the current tracker is then unchanged. -/
theorem tracker_roundtrip_spec (net : Net) (trackers : List Str) (connected msg : Str)
    (hc : port_ok connected = true) (ht : ∀ t ∈ trackers, port_ok t = true) :
    ∃ r, tracker_roundtrip net trackers connected msg = .ok r ∧
      (∀ reply, responds net msg connected 0 = some reply → r = (some reply, connected)) ∧
      (responds net msg connected 0 = none →
        ∀ j t reply, trackers.get? j = some t → t ≠ connected →
          responds net msg t (j + 1) = some reply →
          (∀ k t1, k < j → trackers.get? k = some t1 → t1 ≠ connected →
            responds net msg t1 (k + 1) = none) →
          r = (some reply, t)) ∧
      (r.1 = none ↔
        responds net msg connected 0 = none ∧
          ∀ j t, trackers.get? j = some t → t ≠ connected →
            responds net msg t (j + 1) = none) ∧
      (r.1 = none → r.2 = connected) := by
  obtain ⟨r, hr, hfirst, hnone⟩ := try_trackers_spec net connected msg trackers 0 ht
  have hnone2 := try_trackers_none net connected msg trackers 0 r ht hr
  simp only [Nat.zero_add] at hfirst hnone hnone2
  unfold tracker_roundtrip
  rw [send_to_endpoint_ok _ hc]
  cases hresp : (if ':' ∈ connected then net connected msg 0 else none) with
  | some reply0 =>
    have hresp' : responds net msg connected 0 = some reply0 := hresp
    refine ⟨_, rfl, ?_, ?_, ?_, ?_⟩
    · intro reply hrep
      rw [hresp'] at hrep
      injection hrep with hrep
      rw [hrep]
    · intro h0
      rw [hresp'] at h0
      cases h0
    · constructor
      · intro h0; cases h0
      · rintro ⟨h0, _⟩
        rw [hresp'] at h0
        cases h0
    · intro h0; cases h0
  | none =>
    have hresp' : responds net msg connected 0 = none := hresp
    refine ⟨r, hr, ?_, ?_, ?_, ?_⟩
    · intro reply hrep
      rw [hresp'] at hrep
      cases hrep
    · intro _
      exact hfirst
    · constructor
      · intro h0
        exact ⟨hresp', (hnone2 h0).2⟩
      · rintro ⟨_, hall⟩
        rw [hnone hall]
    · intro h0
      exact (hnone2 h0).1

theorem ex_tracker_step :
    tracker_roundtrip ex_tracker_net ["127.0.0.1:5000".toList, "127.0.0.1:5001".toList]
        "127.0.0.1:5000".toList "LIST_GROUPS".toList =
      .ok (some "OK".toList, "127.0.0.1:5001".toList) := by
  decide

theorem tracker_roundtrip_spec_witness :
    ∃ r, tracker_roundtrip ex_tracker_net ["127.0.0.1:5000".toList, "127.0.0.1:5001".toList]
        "127.0.0.1:5000".toList "LIST_GROUPS".toList = .ok r ∧
      (r.1 = none → r.2 = "127.0.0.1:5000".toList) := by
  obtain ⟨r, hr, _, _, _, h4⟩ := tracker_roundtrip_spec ex_tracker_net
    ["127.0.0.1:5000".toList, "127.0.0.1:5001".toList] "127.0.0.1:5000".toList
    "LIST_GROUPS".toList (by decide) (by decide)
  exact ⟨r, hr, h4⟩

/-! ## Fetching one piece -/

theorem fetch_one_piece_cases (answer : Option (List Char)) (peer : Str) (idx : Nat)
    (disk : Option (List Char)) (expected_sha : Str) (r : Bool × Option (List Char))
    (h : fetch_one_piece answer peer idx disk expected_sha = .ok r) :
    r = (false, disk) ∨
    ∃ bytes b0 b1 b2 b3 body content,
      answer = some bytes ∧
      recv_msg bytes = some ("OK".toList, b0 :: b1 :: b2 :: b3 :: body) ∧
      u32_of_be b0 b1 b2 b3 ≤ PIECE_SZ ∧ u32_of_be b0 b1 b2 b3 ≤ body.length ∧
      sha1_hex (body.take (u32_of_be b0 b1 b2 b3)) = expected_sha ∧
      disk = some content ∧
      r = (true, some (write_at content (idx * PIECE_SZ) (body.take (u32_of_be b0 b1 b2 b3)))) := by
  unfold fetch_one_piece at h
  by_cases hc : ¬ (':' ∈ peer)
  · rw [if_pos hc] at h
    injection h with h; exact Or.inl h.symm
  rw [if_neg hc] at h
  cases hs : stoi ((peer.dropWhile (fun c => c ≠ ':')).drop 1) with
  | error e => rw [hs] at h; cases h
  | ok v =>
    rw [hs] at h
    dsimp only at h
    cases answer with
    | none => injection h with h; exact Or.inl h.symm
    | some bytes =>
      dsimp only at h
      cases hr : recv_msg bytes with
      | none => rw [hr] at h; injection h with h; exact Or.inl h.symm
      | some p =>
        obtain ⟨rep, rest⟩ := p
        rw [hr] at h
        dsimp only at h
        by_cases hrep : rep ≠ "OK".toList
        · rw [if_pos hrep] at h
          injection h with h; exact Or.inl h.symm
        rw [if_neg hrep] at h
        have hrep' : rep = "OK".toList := not_not.mp hrep
        match rest, hr, h with
        | [], _, h => injection h with h; exact Or.inl h.symm
        | [_], _, h => injection h with h; exact Or.inl h.symm
        | [_, _], _, h => injection h with h; exact Or.inl h.symm
        | [_, _, _], _, h => injection h with h; exact Or.inl h.symm
        | b0 :: b1 :: b2 :: b3 :: body, hr, h =>
          dsimp only at h
          by_cases h1 : PIECE_SZ < u32_of_be b0 b1 b2 b3
          · rw [if_pos h1] at h
            injection h with h; exact Or.inl h.symm
          rw [if_neg h1] at h
          by_cases h2 : body.length < u32_of_be b0 b1 b2 b3
          · rw [if_pos h2] at h
            injection h with h; exact Or.inl h.symm
          rw [if_neg h2] at h
          by_cases h3 : sha1_hex (body.take (u32_of_be b0 b1 b2 b3)) ≠ expected_sha
          · rw [if_pos h3] at h
            injection h with h; exact Or.inl h.symm
          rw [if_neg h3] at h
          cases disk with
          | none => injection h with h; exact Or.inl h.symm
          | some content =>
            dsimp only at h
            injection h with h
            refine Or.inr ⟨bytes, b0, b1, b2, b3, body, content, rfl, ?_, by omega, by omega,
              not_not.mp h3, rfl, h.symm⟩
            rw [hr, hrep']

theorem fetch_one_piece_mismatch (peer : Str) (idx : Nat) (disk : Option (List Char))
    (expected_sha : Str) (v : Int) (bytes : List Char) (b0 b1 b2 b3 : Char) (body : List Char)
    (hc : ':' ∈ peer) (hport : stoi ((peer.dropWhile (fun c => c ≠ ':')).drop 1) = .ok v)
    (hr : recv_msg bytes = some ("OK".toList, b0 :: b1 :: b2 :: b3 :: body))
    (h1 : u32_of_be b0 b1 b2 b3 ≤ PIECE_SZ) (h2 : u32_of_be b0 b1 b2 b3 ≤ body.length)
    (h3 : sha1_hex (body.take (u32_of_be b0 b1 b2 b3)) ≠ expected_sha) :
    fetch_one_piece (some bytes) peer idx disk expected_sha = .ok (false, disk) := by
  unfold fetch_one_piece
  rw [if_neg (not_not.mpr hc), hport]
  dsimp only
  rw [hr]
  dsimp only
  rw [if_neg (by simp), if_neg (by omega), if_neg (by omega), if_pos h3]

set_option maxRecDepth 1000000

theorem ex_fetch_step :
    fetch_one_piece (some (send_msg "OK".toList ++ u32_be 3 ++ "abc".toList))
        "127.0.0.1:20001".toList 0 (some [Char.ofNat 0, Char.ofNat 0, Char.ofNat 0])
        (sha1_hex "abc".toList) = .ok (true, some "abc".toList) := by
  decide

set_option maxRecDepth 512

/-- C18: `fetch_one_piece` returns true only if the peer replied OK and declared a length
of at most 524288, that many bytes were received, their lowercase hex SHA-1 equals the
expected piece hash, and the destination file is the old one with those bytes written at
offset `idx * 524288`.  Whenever bytes were received and their hash differs from the
expected one, it returns false and the destination file is as before; it is as before
after every call that returns false. -/
theorem fetch_one_piece_spec (answer : Option (List Char)) (peer : Str) (idx : Nat)
    (disk : Option (List Char)) (expected_sha : Str) :
    (∀ disk1, fetch_one_piece answer peer idx disk expected_sha = .ok (true, disk1) →
      ∃ bytes b0 b1 b2 b3 body content,
        answer = some bytes ∧
        recv_msg bytes = some ("OK".toList, b0 :: b1 :: b2 :: b3 :: body) ∧
        u32_of_be b0 b1 b2 b3 ≤ 524288 ∧ u32_of_be b0 b1 b2 b3 ≤ body.length ∧
        sha1_hex (body.take (u32_of_be b0 b1 b2 b3)) = expected_sha ∧
        disk = some content ∧
        disk1 = some (write_at content (idx * 524288) (body.take (u32_of_be b0 b1 b2 b3)))) ∧
    (∀ v bytes b0 b1 b2 b3 body, ':' ∈ peer →
      stoi ((peer.dropWhile (fun c => c ≠ ':')).drop 1) = .ok v →
      answer = some bytes →
      recv_msg bytes = some ("OK".toList, b0 :: b1 :: b2 :: b3 :: body) →
      u32_of_be b0 b1 b2 b3 ≤ 524288 → u32_of_be b0 b1 b2 b3 ≤ body.length →
      sha1_hex (body.take (u32_of_be b0 b1 b2 b3)) ≠ expected_sha →
      fetch_one_piece answer peer idx disk expected_sha = .ok (false, disk)) ∧
    (∀ disk1, fetch_one_piece answer peer idx disk expected_sha = .ok (false, disk1) →
      disk1 = disk) := by
  refine ⟨?_, ?_, ?_⟩
  · intro disk1 h
    rcases fetch_one_piece_cases answer peer idx disk expected_sha _ h with h1 | h1
    · cases h1
    · obtain ⟨bytes, b0, b1, b2, b3, body, content, ha, hr, hn, hl, hs, hd, hres⟩ := h1
      injection hres with _ hres
      exact ⟨bytes, b0, b1, b2, b3, body, content, ha, hr, hn, hl, hs, hd, hres⟩
  · intro v bytes b0 b1 b2 b3 body hc hport ha hr h1 h2 h3
    rw [ha]
    exact fetch_one_piece_mismatch peer idx disk expected_sha v bytes b0 b1 b2 b3 body hc hport
      hr h1 h2 h3
  · intro disk1 h
    rcases fetch_one_piece_cases answer peer idx disk expected_sha _ h with h1 | h1
    · injection h1 with _ h1
    · obtain ⟨_, _, _, _, _, _, _, _, _, _, _, _, _, hres⟩ := h1
      injection hres with hres _
      cases hres

set_option maxRecDepth 1000000

theorem fetch_one_piece_spec_witness :
    ∃ bytes b0 b1 b2 b3 body content,
      some (send_msg "OK".toList ++ u32_be 3 ++ "abc".toList) = some bytes ∧
      recv_msg bytes = some ("OK".toList, b0 :: b1 :: b2 :: b3 :: body) ∧
      u32_of_be b0 b1 b2 b3 ≤ 524288 ∧ u32_of_be b0 b1 b2 b3 ≤ body.length ∧
      sha1_hex (body.take (u32_of_be b0 b1 b2 b3)) = sha1_hex "abc".toList ∧
      some [Char.ofNat 0, Char.ofNat 0, Char.ofNat 0] = some content ∧
      some "abc".toList =
        some (write_at content (0 * 524288) (body.take (u32_of_be b0 b1 b2 b3))) :=
  (fetch_one_piece_spec (some (send_msg "OK".toList ++ u32_be 3 ++ "abc".toList))
    "127.0.0.1:20001".toList 0 (some [Char.ofNat 0, Char.ofNat 0, Char.ofNat 0])
    (sha1_hex "abc".toList)).1 (some "abc".toList) (by decide)

set_option maxRecDepth 512

/-! ## The owner of a file is a member of its group; setting up a group -/

theorem is_member_groups {s s1 : Registry} (hg : s1.groups = s.groups) (u g : Str) :
    is_member s1 u g = is_member s u g := by
  unfold is_member
  rw [hg]

theorem is_member_of_find_eq {s s1 : Registry} {g : Str}
    (hg : map_find s1.groups g = map_find s.groups g) (u : Str) :
    is_member s1 u g = is_member s u g := by
  unfold is_member
  rw [hg]

theorem owner_inv_of {s s1 : Registry} (hinv : owner_inv s) (hg : s1.groups = s.groups)
    (hf : ∀ p ∈ s1.files, ∃ q ∈ s.files, q.2.owner = p.2.owner ∧ q.2.group = p.2.group) :
    owner_inv s1 := by
  intro p hp
  obtain ⟨q, hq, ho, hgr⟩ := hf p hp
  rw [is_member_groups hg, ← ho, ← hgr]
  exact hinv q hq

theorem owner_inv_same {s s1 : Registry} (hinv : owner_inv s) (hg : s1.groups = s.groups)
    (hf : s1.files = s.files) : owner_inv s1 :=
  owner_inv_of hinv hg (fun p hp => ⟨p, by rw [← hf]; exact hp, rfl, rfl⟩)

theorem owner_inv_origin {s s1 : Registry} (hinv : owner_inv s) (hg : s1.groups = s.groups)
    (hf : ∀ p ∈ s1.files, file_origin s [] p) : owner_inv s1 := by
  apply owner_inv_of hinv hg
  intro p hp
  rcases hf p hp with h | ⟨f, peers, hm, -, he⟩ | ⟨iss, np, hsite, -⟩
  · exact ⟨p, h, rfl, rfl⟩
  · exact ⟨(p.1, f), hm, by rw [he], by rw [he]⟩
  · unfold upload_site at hsite
    rcases hsite with ⟨h, -⟩ | ⟨h, -⟩ | ⟨h, -⟩ <;> exact absurd h (by decide)

theorem cmd_create_group_owner_inv {s : Registry} (hinv : owner_inv s) (p1 p2 : Str) :
    owner_inv (cmd_create_group s p1 p2).state := by
  unfold cmd_create_group
  by_cases hc : map_count s.groups p2 = true
  · rw [if_pos hc]; exact hinv
  · rw [if_neg hc]
    intro p hp
    have hm := hinv p hp
    obtain ⟨gi, hfind, -⟩ := is_member_find hm
    have hne : p.2.group ≠ p2 := by
      intro e
      rw [e] at hfind
      apply hc
      unfold map_count
      rw [hfind]
      rfl
    have : map_find (map_assign s.groups p2 (p1, set_insert p1 [])) p.2.group =
        map_find s.groups p.2.group := map_find_assign_other _ _ hne
    rw [← hm]
    exact is_member_of_find_eq this _

theorem cmd_accept_request_owner_inv {s : Registry} (hinv : owner_inv s) (p1 p2 p3 : Str) :
    owner_inv (cmd_accept_request s p1 p2 p3).state := by
  unfold cmd_accept_request
  dsimp only
  split_ifs with h1 h2
  · exact hinv
  · obtain ⟨gi, hg, -⟩ := is_owner_find (by simpa using h1)
    rw [groups_at_of_find hg]
    intro p hp
    have hm := hinv p hp
    by_cases he : p.2.group = p1
    · rw [he] at hm ⊢
      rw [is_member_eq hg] at hm
      rw [is_member_eq (map_find_assign_same _ _ _)]
      exact decide_eq_true (mem_set_insert.mpr (Or.inr (of_decide_eq_true hm)))
    · rw [← hm]
      exact is_member_of_find_eq (map_find_assign_other _ _ he) _
  · exact owner_inv_same hinv rfl rfl

theorem cmd_leave_group_owner_inv {s : Registry} (hinv : owner_inv s) (p1 p2 : Str) :
    owner_inv (cmd_leave_group s p1 p2).state := by
  unfold cmd_leave_group
  by_cases hmem : is_member s p1 p2 = true
  · obtain ⟨gi, hg, -⟩ := is_member_find hmem
    simp only [hmem, Bool.not_true, Bool.false_eq_true, if_false, groups_at_of_find hg]
    have key : ∀ (groups1 : List (Str × (Str × List Str))) (requests1 : List (Str × List Str)),
        (∀ g, g ≠ p2 → map_find groups1 g = map_find s.groups g) →
        (map_find groups1 p2 = none ∧ set_erase p1 gi.2 = [] ∨
          ∃ o, map_find groups1 p2 = some (o, set_erase p1 gi.2)) →
        owner_inv (Registry.mk s.users groups1 requests1 (erase_owned_files s.files p1 p2)) := by
      intro groups1 requests1 hother hsame p hp
      have hps : p ∈ s.files := mem_erase_owned_files hp
      have hkeep : ¬ (p.2.group = p2 ∧ p.2.owner = p1) := by
        have hp2 : p ∈ erase_owned_files s.files p1 p2 := hp
        unfold erase_owned_files at hp2
        have := (List.mem_filter.mp hp2).2
        intro hc
        simp [hc.1, hc.2] at this
      have hm := hinv p hps
      by_cases he : p.2.group = p2
      · have hown : p.2.owner ≠ p1 := fun e => hkeep ⟨he, e⟩
        rw [he] at hm ⊢
        rw [is_member_eq hg] at hm
        have hin : p.2.owner ∈ set_erase p1 gi.2 :=
          mem_set_erase.mpr ⟨of_decide_eq_true hm, hown⟩
        rcases hsame with ⟨-, hnil⟩ | ⟨o, ho⟩
        · rw [hnil] at hin; cases hin
        · rw [is_member_eq (s := Registry.mk s.users groups1 requests1
            (erase_owned_files s.files p1 p2)) ho]
          exact decide_eq_true hin
      · rw [← hm]
        exact @is_member_of_find_eq s (Registry.mk s.users groups1 requests1
          (erase_owned_files s.files p1 p2)) _ (hother _ he) _
    by_cases hown : gi.1 = p1
    · by_cases hemp : (set_erase p1 gi.2).isEmpty = true
      · rw [if_pos hown, if_pos hemp]
        exact key _ _ (fun g hne => map_find_erase_other _ hne)
          (Or.inl ⟨map_find_erase_same _ _, List.isEmpty_iff.mp hemp⟩)
      · rw [if_pos hown, if_neg hemp]
        exact key _ s.requests (fun g hne => map_find_assign_other _ _ hne)
          (Or.inr ⟨_, map_find_assign_same _ _ _⟩)
    · rw [if_neg hown]
      exact key _ s.requests (fun g hne => map_find_assign_other _ _ hne)
        (Or.inr ⟨_, map_find_assign_same _ _ _⟩)
  · have : (!is_member s p1 p2) = true := by simpa using hmem
    rw [if_pos this]
    exact hinv

theorem cmd_upload_meta_owner_inv {s : Registry} {full : Str} {h : Handled}
    (hinv : owner_inv s) (hh : cmd_upload_meta s full = .ok h) : owner_inv h.state := by
  obtain ⟨-, np, -, h1 | h1 | h1⟩ := cmd_upload_meta_ok hh
  · rw [h1.2]; exact hinv
  · rw [h1.2.2]; exact hinv
  · obtain ⟨hm, -, he⟩ := h1
    rw [he]
    intro p hp
    have hg : (store_upload s (extract_upload { buf := full.drop 12, fail := false }).1
        (hash_loop np (extract_upload { buf := full.drop 12, fail := false }).2.tokens [])).groups =
        s.groups := rfl
    show is_member (store_upload s _ _) p.2.owner p.2.group = true
    rw [is_member_groups hg]
    rcases mem_map_assign hp with e | e
    · rw [e]; exact hm
    · exact hinv p e

theorem handle_command_owner_inv {s : Registry} {parts : List Str} {h : Handled}
    (hinv : owner_inv s) (hc : client_command parts)
    (hh : handle_command s parts = .ok h) : owner_inv h.state := by
  have hd := handle_command_dispatched hh
  unfold dispatched at hd
  rcases hd with ⟨-, -, e⟩ | ⟨-, -, e⟩ | ⟨-, -, e⟩ | ⟨-, -, e⟩ | ⟨-, e⟩ | ⟨-, -, e⟩ | ⟨-, -, e⟩ |
    ⟨-, -, e⟩ | ⟨-, -, e⟩ | ⟨-, -, e⟩ | ⟨-, -, e⟩ | ⟨-, -, e⟩ | e | e | e
  · subst e; unfold cmd_register; split_ifs <;> exact owner_inv_same hinv rfl rfl
  · subst e; unfold cmd_login; split <;> [skip; split_ifs] <;> exact owner_inv_same hinv rfl rfl
  · subst e; exact cmd_create_group_owner_inv hinv _ _
  · subst e; unfold cmd_join_group; dsimp only; split_ifs <;> exact owner_inv_same hinv rfl rfl
  · subst e; exact hinv
  · subst e; unfold cmd_list_requests; dsimp only
    split_ifs <;> exact owner_inv_same hinv rfl rfl
  · subst e; exact cmd_accept_request_owner_inv hinv _ _ _
  · subst e; exact cmd_leave_group_owner_inv hinv _ _
  · subst e; unfold cmd_list_files; split_ifs <;> exact hinv
  · subst e; unfold cmd_get_file_peers
    split_ifs <;> [exact hinv; (split <;> [skip; (dsimp only; split_ifs)] <;> exact hinv)]
  · subst e
    refine owner_inv_origin hinv ?_ (fun p hp => cmd_stop_share_files _ _ _ hp)
    unfold cmd_stop_share; dsimp only; split <;> [skip; split_ifs] <;> rfl
  · subst e
    refine owner_inv_origin hinv ?_ (fun p hp => cmd_add_peer_files _ _ _ hp)
    unfold cmd_add_peer; dsimp only; split <;> rfl
  · exact cmd_upload_meta_owner_inv hinv e.2
  · exact absurd e.1 hc
  · subst e; exact hinv

theorem reachable_owner_inv {s : Registry} (hr : Reachable client_command s) :
    owner_inv s := by
  induction hr with
  | init => intro p hp; cases hp
  | step _ _ hc hh ih => exact handle_command_owner_inv ih hc hh

theorem handle_command_create_group (s : Registry) (u g : Str) :
    handle_command s ["CREATE_GROUP".toList, u, g] = .ok (cmd_create_group s u g) := rfl

theorem handle_command_join_group (s : Registry) (u g : Str) :
    handle_command s ["JOIN_GROUP".toList, u, g] = .ok (cmd_join_group s u g) := rfl

theorem handle_command_accept_request (s : Registry) (g u o : Str) :
    handle_command s ["ACCEPT_REQUEST".toList, g, u, o] = .ok (cmd_accept_request s g u o) := rfl

theorem handle_command_list_files (s : Registry) (g u : Str) :
    handle_command s ["LIST_FILES".toList, g, u] = .ok (cmd_list_files s g u) := rfl

theorem requests_at_assign_same (s : Registry) (groups1 : List (Str × (Str × List Str)))
    (g : Str) (v : List Str) :
    requests_at (Registry.mk s.users groups1 (map_assign s.requests g v) s.files) g = v := by
  unfold requests_at
  show (map_find (map_assign s.requests g v) g).getD [] = v
  rw [map_find_assign_same]
  rfl

theorem no_files_of_missing_group {s : Registry} (hinv : owner_inv s) {g : Str}
    (hg : map_find s.groups g = none) :
    s.files.filter (fun p => decide (p.2.group = g)) = [] := by
  rw [List.filter_eq_nil_iff]
  intro p hp hc
  have he : p.2.group = g := of_decide_eq_true hc
  obtain ⟨gi, hfind, -⟩ := is_member_find (hinv p hp)
  rw [he, hg] at hfind
  cases hfind

theorem group_setup_sequence {s : Registry} (hinv : owner_inv s) (g u v : Str)
    (hg : map_find s.groups g = none) (huv : u ≠ v) :
    ∃ h1 h2 h3 h4,
      handle_command s ["CREATE_GROUP".toList, u, g] = .ok h1 ∧ h1.reply = "OK".toList ∧
      handle_command h1.state ["JOIN_GROUP".toList, v, g] = .ok h2 ∧ h2.reply = "OK".toList ∧
      handle_command h2.state ["ACCEPT_REQUEST".toList, g, v, u] = .ok h3 ∧
        h3.reply = "OK".toList ∧
      handle_command h3.state ["LIST_FILES".toList, g, v] = .ok h4 ∧
        h4.reply ≠ "ERR not_member".toList ∧ h4.reply = [] := by
  -- CREATE_GROUP
  have c1 : map_count s.groups g = false := by unfold map_count; rw [hg]; rfl
  have e1 : cmd_create_group s u g =
      Handled.mk (Registry.mk s.users (map_assign s.groups g (u, set_insert u [])) s.requests
        s.files) "OK".toList (some ("CREATE_GROUP ".toList ++ u ++ ' ' :: g)) := by
    unfold cmd_create_group
    rw [if_neg (by rw [c1]; exact Bool.false_ne_true)]
  have f1 : map_find (map_assign s.groups g (u, set_insert u [])) g = some (u, [u]) :=
    map_find_assign_same _ _ _
  -- JOIN_GROUP
  have e2 : ∃ v1, v ∈ v1 ∧
      cmd_join_group (Registry.mk s.users (map_assign s.groups g (u, set_insert u []))
          s.requests s.files) v g =
        Handled.mk (Registry.mk s.users (map_assign s.groups g (u, set_insert u []))
          (map_assign s.requests g v1) s.files) "OK".toList
          (some ("JOIN_GROUP ".toList ++ v ++ ' ' :: g)) := by
    have c2 : map_count (map_assign s.groups g (u, set_insert u [])) g = true := by
      unfold map_count; rw [f1]; rfl
    have m2 : is_member (Registry.mk s.users (map_assign s.groups g (u, set_insert u []))
        s.requests s.files) v g = false := by
      rw [@is_member_eq _ _ (u, [u]) f1]
      exact decide_eq_false (by simp [Ne.symm huv])
    unfold cmd_join_group
    dsimp only
    rw [c2, m2]
    simp only [Bool.not_true, Bool.false_eq_true, if_false]
    by_cases hin : v ∈ requests_at (Registry.mk s.users
        (map_assign s.groups g (u, set_insert u [])) s.requests s.files) g
    · exact ⟨_, hin, by rw [if_pos hin]⟩
    · exact ⟨_, List.mem_append_right _ (List.mem_singleton_self v), by rw [if_neg hin]⟩
  obtain ⟨v1, hv1, e2⟩ := e2
  -- ACCEPT_REQUEST
  have o3 : is_owner (Registry.mk s.users (map_assign s.groups g (u, set_insert u []))
      (map_assign s.requests g v1) s.files) u g = true := by
    unfold is_owner
    show (match map_find (map_assign s.groups g (u, set_insert u [])) g with
      | none => false
      | some gi => decide (gi.1 = u)) = true
    rw [f1]
    exact decide_eq_true rfl
  have r3 := requests_at_assign_same s (map_assign s.groups g (u, set_insert u [])) g v1
  have g3 : groups_at (Registry.mk s.users (map_assign s.groups g (u, set_insert u []))
      (map_assign s.requests g v1) s.files) g = (u, [u]) := groups_at_of_find f1
  have e3 : ∃ s3 : Registry, s3.files = s.files ∧
      map_find s3.groups g = some (u, set_insert v [u]) ∧
      cmd_accept_request (Registry.mk s.users (map_assign s.groups g (u, set_insert u []))
          (map_assign s.requests g v1) s.files) g v u =
        Handled.mk s3 "OK".toList (some ("ACCEPT_REQUEST ".toList ++ g ++ ' ' :: v)) := by
    unfold cmd_accept_request
    dsimp only
    rw [o3, r3, g3]
    simp only [Bool.not_true, Bool.false_eq_true, if_false, if_pos hv1]
    exact ⟨Registry.mk s.users
      (map_assign (map_assign s.groups g (u, set_insert u [])) g (u, set_insert v [u]))
      (map_assign (map_assign s.requests g v1) g (v1.erase v)) s.files,
      rfl, map_find_assign_same _ _ _, rfl⟩
  obtain ⟨s3, hfiles3, hfind3, e3⟩ := e3
  -- LIST_FILES
  have m4 : is_member s3 v g = true := by
    rw [is_member_eq hfind3]
    exact decide_eq_true (mem_set_insert.mpr (Or.inl rfl))
  have e4 : (cmd_list_files s3 g v).reply = [] := by
    unfold cmd_list_files
    rw [m4]
    simp only [Bool.not_true, Bool.false_eq_true, if_false]
    rw [hfiles3, no_files_of_missing_group hinv hg]
    rfl
  refine ⟨cmd_create_group s u g, cmd_join_group (cmd_create_group s u g).state v g,
    cmd_accept_request (cmd_join_group (cmd_create_group s u g).state v g).state g v u,
    cmd_list_files (cmd_accept_request
      (cmd_join_group (cmd_create_group s u g).state v g).state g v u).state g v,
    handle_command_create_group s u g, ?_, handle_command_join_group _ v g, ?_,
    handle_command_accept_request _ g v u, ?_, handle_command_list_files _ g v, ?_, ?_⟩
  · rw [e1]
  · rw [e1, e2]
  · rw [e1, e2, e3]
  · rw [e1, e2, e3, e4]; decide
  · rw [e1, e2, e3, e4]

/-- C19: from any registry reachable by client commands in which group `g` does not exist,
and for distinct users `u` and `v`, the commands `CREATE_GROUP u g`, `JOIN_GROUP v g` and
`ACCEPT_REQUEST g v u` each reply OK, and the following `LIST_FILES g v` is not rejected
with `ERR not_member`: it returns the empty file list. -/
theorem reachable_group_setup_lists_no_files (s : Registry) (hr : Reachable client_command s)
    (g u v : Str) (hg : map_find s.groups g = none) (huv : u ≠ v) :
    ∃ h1 h2 h3 h4,
      handle_command s ["CREATE_GROUP".toList, u, g] = .ok h1 ∧ h1.reply = "OK".toList ∧
      handle_command h1.state ["JOIN_GROUP".toList, v, g] = .ok h2 ∧ h2.reply = "OK".toList ∧
      handle_command h2.state ["ACCEPT_REQUEST".toList, g, v, u] = .ok h3 ∧
        h3.reply = "OK".toList ∧
      handle_command h3.state ["LIST_FILES".toList, g, v] = .ok h4 ∧
        h4.reply ≠ "ERR not_member".toList ∧ h4.reply = [] :=
  group_setup_sequence (reachable_owner_inv hr) g u v hg huv

theorem reachable_group_setup_lists_no_files_witness :
    ∃ h1 h2 h3 h4,
      handle_command Registry.empty ["CREATE_GROUP".toList, "a".toList, "g".toList] = .ok h1 ∧
        h1.reply = "OK".toList ∧
      handle_command h1.state ["JOIN_GROUP".toList, "b".toList, "g".toList] = .ok h2 ∧
        h2.reply = "OK".toList ∧
      handle_command h2.state ["ACCEPT_REQUEST".toList, "g".toList, "b".toList, "a".toList] =
        .ok h3 ∧ h3.reply = "OK".toList ∧
      handle_command h3.state ["LIST_FILES".toList, "g".toList, "b".toList] = .ok h4 ∧
        h4.reply ≠ "ERR not_member".toList ∧ h4.reply = [] :=
  reachable_group_setup_lists_no_files Registry.empty Reachable.init "g".toList "a".toList
    "b".toList (by rfl) (by decide)

/-! ## Rejected commands -/

theorem same_content_refl (s : Registry) : same_content s s := ⟨rfl, rfl, rfl, fun _ => rfl⟩

theorem same_content_touch (s : Registry) (g : Str) :
    same_content s { s with requests := map_assign s.requests g (requests_at s g) } := by
  refine ⟨rfl, rfl, rfl, ?_⟩
  intro g1
  unfold requests_at
  by_cases h : g1 = g
  · subst h
    show (map_find (map_assign s.requests g1 ((map_find s.requests g1).getD [])) g1).getD [] = _
    rw [map_find_assign_same]
    rfl
  · show (map_find (map_assign s.requests g ((map_find s.requests g).getD [])) g1).getD [] = _
    rw [map_find_assign_other _ _ h]

theorem not_err_ok : ¬ ("OK".toList.take 3 = "ERR".toList) := by decide

/-- C20 fails on the code: in the registry with the one group `g` of owner `a` and no
request list, `ACCEPT_REQUEST g v a` is rejected with `ERR no_request`, and the registry is
not the same afterwards: `requests[g]` has created an empty request list for `g`. -/
theorem accept_request_error_changes_registry :
    ∃ h, handle_command ex_group
        ["ACCEPT_REQUEST".toList, "g".toList, "v".toList, "a".toList] = .ok h ∧
      h.reply = "ERR no_request".toList ∧ h.reply.take 3 = "ERR".toList ∧
      h.state ≠ ex_group ∧ ex_group.requests = [] ∧ h.state.requests = [("g".toList, [])] :=
  ⟨_, rfl, rfl, rfl, by decide, rfl, rfl⟩

/-- C20, amended: when `handle_command` replies with a message that begins with `ERR`, the
content of the registry is unchanged (the same users, groups and file records, and for
every group the same pending join requests; the requests table may have gained an empty
list for a group) and nothing is broadcast. -/
theorem rejected_command_keeps_content (s : Registry) (parts : List Str) (h : Handled)
    (hh : handle_command s parts = .ok h) (herr : h.reply.take 3 = "ERR".toList) :
    h.state.users = s.users ∧ h.state.groups = s.groups ∧ h.state.files = s.files ∧
      (∀ g, requests_at h.state g = requests_at s g) ∧ h.bcast = none := by
  have goal : same_content s h.state ∧ h.bcast = none := by
    have hd := handle_command_dispatched hh
    unfold dispatched at hd
    rcases hd with ⟨-, -, e⟩ | ⟨-, -, e⟩ | ⟨-, -, e⟩ | ⟨-, -, e⟩ | ⟨-, e⟩ | ⟨-, -, e⟩ |
      ⟨-, -, e⟩ | ⟨-, -, e⟩ | ⟨-, -, e⟩ | ⟨-, -, e⟩ | ⟨-, -, e⟩ | ⟨-, -, e⟩ | e | e | e
    · subst e
      unfold cmd_register at herr ⊢
      split_ifs at herr ⊢
      · exact ⟨same_content_refl s, rfl⟩
      · exact absurd herr not_err_ok
    · subst e
      unfold cmd_login at herr ⊢
      split at herr
      · exact ⟨same_content_refl s, rfl⟩
      · split_ifs at herr ⊢
        · exact ⟨same_content_refl s, rfl⟩
        · exact absurd herr not_err_ok
    · subst e
      unfold cmd_create_group at herr ⊢
      split_ifs at herr ⊢
      · exact ⟨same_content_refl s, rfl⟩
      · exact absurd herr not_err_ok
    · subst e
      unfold cmd_join_group at herr ⊢
      dsimp only at herr ⊢
      split_ifs at herr ⊢
      all_goals first | exact ⟨same_content_refl s, rfl⟩ | exact absurd herr not_err_ok
    · subst e; exact ⟨same_content_refl s, rfl⟩
    · subst e
      unfold cmd_list_requests
      dsimp only
      split_ifs
      · exact ⟨same_content_refl s, rfl⟩
      · exact ⟨same_content_touch s _, rfl⟩
    · subst e
      unfold cmd_accept_request at herr ⊢
      dsimp only at herr ⊢
      split_ifs at herr ⊢
      · exact ⟨same_content_refl s, rfl⟩
      · exact absurd herr not_err_ok
      · exact ⟨same_content_touch s _, rfl⟩
    · subst e
      unfold cmd_leave_group at herr ⊢
      dsimp only at herr ⊢
      split_ifs at herr ⊢
      · exact ⟨same_content_refl s, rfl⟩
      all_goals exact absurd herr not_err_ok
    · subst e
      unfold cmd_list_files
      split_ifs <;> exact ⟨same_content_refl s, rfl⟩
    · subst e
      unfold cmd_get_file_peers
      split_ifs
      · exact ⟨same_content_refl s, rfl⟩
      · split
        · exact ⟨same_content_refl s, rfl⟩
        · dsimp only; split_ifs <;> exact ⟨same_content_refl s, rfl⟩
    · subst e
      unfold cmd_stop_share at herr
      dsimp only at herr
      split at herr
      · exact absurd herr not_err_ok
      · split_ifs at herr <;> exact absurd herr not_err_ok
    · subst e
      unfold cmd_add_peer at herr
      dsimp only at herr
      split at herr <;> exact absurd herr not_err_ok
    · obtain ⟨-, np, -, h1 | h1 | h1⟩ := cmd_upload_meta_ok e.2
      · rw [h1.2]; exact ⟨same_content_refl s, rfl⟩
      · rw [h1.2.2]; exact ⟨same_content_refl s, rfl⟩
      · rw [h1.2.2] at herr; exact absurd herr not_err_ok
    · obtain ⟨hok, -, -⟩ := cmd_sync_ok e.2
      rw [hok] at herr
      exact absurd herr not_err_ok
    · subst e; exact ⟨same_content_refl s, rfl⟩
  exact ⟨goal.1.1, goal.1.2.1, goal.1.2.2.1, goal.1.2.2.2, goal.2⟩

theorem rejected_command_keeps_content_witness :
    (cmd_accept_request ex_group "g".toList "v".toList "a".toList).state.users =
        ex_group.users ∧
      (cmd_accept_request ex_group "g".toList "v".toList "a".toList).state.groups =
        ex_group.groups ∧
      (cmd_accept_request ex_group "g".toList "v".toList "a".toList).state.files =
        ex_group.files ∧
      (∀ g, requests_at (cmd_accept_request ex_group "g".toList "v".toList "a".toList).state g =
        requests_at ex_group g) ∧
      (cmd_accept_request ex_group "g".toList "v".toList "a".toList).bcast = none :=
  rejected_command_keeps_content ex_group
    ["ACCEPT_REQUEST".toList, "g".toList, "v".toList, "a".toList]
    (cmd_accept_request ex_group "g".toList "v".toList "a".toList) (by rfl) (by rfl)

/-! ## Member sets stay sorted -/

theorem str_lt_irrefl : ∀ a : Str, str_lt a a = false
  | [] => rfl
  | c :: cs => by
    rw [str_lt, if_neg (Nat.lt_irrefl _), if_neg (Nat.lt_irrefl _)]
    exact str_lt_irrefl cs

theorem str_lt_trans : ∀ a b c : Str, str_lt a b = true → str_lt b c = true → str_lt a c = true
  | [], [], _, h, _ => by cases h
  | [], _ :: _, [], _, h => by cases h
  | [], _ :: _, _ :: _, _, _ => rfl
  | _ :: _, [], _, h, _ => by cases h
  | _ :: _, _ :: _, [], _, h => by cases h
  | x :: xs, y :: ys, z :: zs, h1, h2 => by
    rw [str_lt] at h1 h2 ⊢
    by_cases hxy : x.toNat < y.toNat
    · by_cases hyz : y.toNat < z.toNat
      · rw [if_pos (by omega)]
      · rw [if_neg hyz] at h2
        by_cases hzy : z.toNat < y.toNat
        · rw [if_pos hzy] at h2; cases h2
        · rw [if_pos (by omega)]
    · rw [if_neg hxy] at h1
      by_cases hyx : y.toNat < x.toNat
      · rw [if_pos hyx] at h1; cases h1
      · rw [if_neg hyx] at h1
        by_cases hyz : y.toNat < z.toNat
        · rw [if_pos (by omega)]
        · rw [if_neg hyz] at h2
          by_cases hzy : z.toNat < y.toNat
          · rw [if_pos hzy] at h2; cases h2
          · rw [if_neg hzy] at h2
            rw [if_neg (by omega), if_neg (by omega)]
            exact str_lt_trans xs ys zs h1 h2

theorem char_eq_of_toNat {x y : Char} (h : x.toNat = y.toNat) : x = y := by
  apply Char.ext
  apply UInt32.ext
  exact h

theorem str_lt_total : ∀ a b : Str, a ≠ b → str_lt a b = false → str_lt b a = true
  | [], [], h, _ => absurd rfl h
  | [], _ :: _, _, h => by cases h
  | _ :: _, [], _, _ => rfl
  | x :: xs, y :: ys, hne, h => by
    rw [str_lt] at h ⊢
    by_cases hxy : x.toNat < y.toNat
    · rw [if_pos hxy] at h; cases h
    · rw [if_neg hxy] at h
      by_cases hyx : y.toNat < x.toNat
      · rw [if_pos hyx]
      · rw [if_neg hyx] at h
        rw [if_neg hyx, if_neg hxy]
        have hc : x = y := char_eq_of_toNat (by omega)
        apply str_lt_total xs ys _ h
        intro e
        exact hne (by rw [hc, e])

theorem strictly_sorted_insert (x : Str) : ∀ l : List Str, strictly_sorted l →
    strictly_sorted (set_insert x l)
  | [], _ => by unfold set_insert strictly_sorted; simp
  | y :: ys, h => by
    unfold strictly_sorted at h ⊢
    rw [set_insert]
    by_cases hxy : x = y
    · rw [if_pos hxy]; exact h
    · rw [if_neg hxy]
      by_cases hlt : str_lt x y = true
      · rw [if_pos hlt]
        refine List.pairwise_cons.mpr ⟨?_, h⟩
        intro z hz
        rcases List.mem_cons.mp hz with e | e
        · rw [e]; exact hlt
        · exact str_lt_trans x y z hlt ((List.pairwise_cons.mp h).1 z e)
      · rw [if_neg hlt]
        have hyx : str_lt y x = true := str_lt_total x y hxy (by simpa using hlt)
        have ih := strictly_sorted_insert x ys (List.pairwise_cons.mp h).2
        refine List.pairwise_cons.mpr ⟨?_, ih⟩
        intro z hz
        rcases mem_set_insert.mp hz with e | e
        · rw [e]; exact hyx
        · exact (List.pairwise_cons.mp h).1 z e

theorem sets_sorted_groups {s s1 : Registry} (h : sets_sorted s) (hg : s1.groups = s.groups) :
    sets_sorted s1 := by
  unfold sets_sorted
  rw [hg]
  exact h

theorem groups_at_sorted {s : Registry} (h : sets_sorted s) (g : Str) :
    strictly_sorted (groups_at s g).2 := by
  unfold groups_at
  cases hf : map_find s.groups g with
  | none => unfold strictly_sorted; simp
  | some gi => exact h _ (map_find_mem hf)

theorem accept_groups_sorted {s : Registry} (h : sets_sorted s) (g u : Str) :
    ∀ p ∈ map_assign s.groups g ((groups_at s g).1, set_insert u (groups_at s g).2),
      strictly_sorted p.2.2 :=
  forall_map_assign h (strictly_sorted_insert u _ (groups_at_sorted h g))

theorem create_groups_sorted {s : Registry} (h : sets_sorted s) (g u : Str) :
    ∀ p ∈ map_assign s.groups g (u, set_insert u []), strictly_sorted p.2.2 :=
  forall_map_assign h (strictly_sorted_insert u [] (by unfold strictly_sorted; simp))

theorem cmd_leave_group_sorted {s : Registry} (h : sets_sorted s) (p1 p2 : Str) :
    sets_sorted (cmd_leave_group s p1 p2).state := by
  have he : strictly_sorted (set_erase p1 (groups_at s p2).2) :=
    strictly_sorted_erase p1 (groups_at_sorted h p2)
  unfold cmd_leave_group
  dsimp only
  split_ifs
  · exact h
  · exact forall_map_erase h
  · exact forall_map_assign h he
  · exact forall_map_assign h he

theorem sync_leave_group_sorted {s : Registry} (h : sets_sorted s) (iss : IStream) :
    sets_sorted (sync_leave_group s iss) := by
  unfold sync_leave_group
  dsimp only
  split_ifs
  · exact h
  · split
    · exact h
    · next gi hg =>
      have he : strictly_sorted (set_erase (iss.getStr.1) gi.2) :=
        strictly_sorted_erase _ (h _ (map_find_mem hg))
      split_ifs
      · exact forall_map_erase h
      · exact forall_map_assign h he
      · exact forall_map_assign h he
      · exact h

theorem handle_sync_sorted {s s1 : Registry} {sync_data : Str} (h : sets_sorted s)
    (hh : handle_sync s sync_data = .ok s1) : sets_sorted s1 := by
  have hs := handle_sync_synced hh
  unfold synced at hs
  rcases hs with e | ⟨-, e⟩ | ⟨-, e⟩ | ⟨-, e⟩ | ⟨-, e⟩ | ⟨-, e⟩ | ⟨-, e⟩ | ⟨-, e⟩ | ⟨-, e⟩ | ⟨-, e⟩
  · rw [e]; exact h
  · rw [e]; unfold sync_register; dsimp only; split_ifs <;> exact h
  · rw [e]; unfold sync_create_group; dsimp only; split_ifs
    · exact h
    · exact create_groups_sorted h _ _
  · rw [e]; unfold sync_join_group; dsimp only; split_ifs <;> exact h
  · rw [e]; unfold sync_accept_request; dsimp only; split_ifs
    · exact h
    · exact accept_groups_sorted h _ _
    · exact h
  · rw [e]; exact sync_leave_group_sorted h _
  · rw [e]; unfold sync_stop_share; dsimp only; split_ifs
    · exact h
    · split
      · exact h
      · split_ifs <;> exact h
  · rw [e]; unfold sync_add_peer; dsimp only; split_ifs
    · exact h
    · split <;> exact h
  · rcases sync_upload_meta_ok e with e1 | ⟨-, np, -, -, e1⟩
    · rw [e1]; exact h
    · rw [e1]; exact h
  · rcases sync_upload_meta_ok e with e1 | ⟨-, np, -, -, e1⟩
    · rw [e1]; exact h
    · rw [e1]; exact h

theorem handle_command_sorted {s : Registry} {parts : List Str} {h : Handled}
    (hinv : sets_sorted s) (hh : handle_command s parts = .ok h) : sets_sorted h.state := by
  have hd := handle_command_dispatched hh
  unfold dispatched at hd
  rcases hd with ⟨-, -, e⟩ | ⟨-, -, e⟩ | ⟨-, -, e⟩ | ⟨-, -, e⟩ | ⟨-, e⟩ | ⟨-, -, e⟩ | ⟨-, -, e⟩ |
    ⟨-, -, e⟩ | ⟨-, -, e⟩ | ⟨-, -, e⟩ | ⟨-, -, e⟩ | ⟨-, -, e⟩ | e | e | e
  · subst e; unfold cmd_register; split_ifs <;> exact hinv
  · subst e; unfold cmd_login; split <;> [skip; split_ifs] <;> exact hinv
  · subst e; unfold cmd_create_group; split_ifs
    · exact hinv
    · exact create_groups_sorted hinv _ _
  · subst e; unfold cmd_join_group; dsimp only; split_ifs <;> exact hinv
  · subst e; exact hinv
  · subst e; unfold cmd_list_requests; dsimp only; split_ifs <;> exact hinv
  · subst e; unfold cmd_accept_request; dsimp only; split_ifs
    · exact hinv
    · exact accept_groups_sorted hinv _ _
    · exact hinv
  · subst e; exact cmd_leave_group_sorted hinv _ _
  · subst e; unfold cmd_list_files; split_ifs <;> exact hinv
  · subst e; unfold cmd_get_file_peers
    split_ifs <;> [exact hinv; (split <;> [skip; (dsimp only; split_ifs)] <;> exact hinv)]
  · subst e; unfold cmd_stop_share; dsimp only; split <;> [skip; split_ifs] <;> exact hinv
  · subst e; unfold cmd_add_peer; dsimp only; split <;> exact hinv
  · exact sets_sorted_groups hinv (cmd_upload_meta_groups e.2)
  · obtain ⟨-, -, e1 | e1⟩ := cmd_sync_ok e.2
    · rw [e1]; exact hinv
    · exact handle_sync_sorted hinv e1
  · subst e; exact hinv

theorem reachable_sets_sorted {s : Registry} (hr : Reachable any_command s) :
    sets_sorted s := by
  induction hr with
  | init => intro p hp; cases hp
  | step _ _ _ hh ih => exact handle_command_sorted ih hh

theorem reachable_mono {allow1 allow2 : List Str → Prop} (hsub : ∀ parts, allow1 parts → allow2 parts)
    {s : Registry} (hr : Reachable allow1 s) : Reachable allow2 s := by
  induction hr with
  | init => exact Reachable.init
  | step _ hne hc hh ih => exact Reachable.step ih hne (hsub _ hc) hh

/-! ## File records stay well-formed; the manifest round trip on reachable registries -/

theorem getStr_no_space (x : IStream) : ∀ c ∈ x.getStr.1, isspace c = false := by
  unfold IStream.getStr
  by_cases hx : x.fail = true
  · rw [if_pos hx]; intro c hc; cases hc
  · rw [if_neg hx]
    cases hd : x.buf.dropWhile isspace with
    | nil => intro c hc; cases hc
    | cons a as =>
      intro c hc
      have := List.mem_takeWhile_imp hc
      simpa using this

theorem getStr_ok (x : IStream) (h : x.getStr.2.fail = false) :
    x.fail = false ∧ x.getStr.1 ≠ [] := by
  unfold IStream.getStr at h ⊢
  by_cases hx : x.fail = true
  · rw [if_pos hx] at h
    rw [hx] at h; cases h
  · rw [if_neg hx] at h ⊢
    refine ⟨by simpa using hx, ?_⟩
    cases hd : x.buf.dropWhile isspace with
    | nil => rw [hd] at h; cases h
    | cons a as =>
      have ha : isspace a = false := by
        have := List.head_dropWhile_not isspace x.buf (by rw [hd]; simp)
        simpa [hd] using this
      dsimp only
      rw [List.takeWhile_cons, if_pos (by simp [ha])]
      simp

theorem getStr_token_of_ok (x : IStream) (h : x.getStr.2.fail = false) :
    is_token x.getStr.1 :=
  ⟨(getStr_ok x h).2, getStr_no_space x⟩

theorem no_newline_of_no_space {t : Str} (h : ∀ c ∈ t, isspace c = false) :
    ∀ c ∈ t, c ≠ '\n' := by
  intro c hc e
  have := h c hc
  rw [e] at this
  exact absurd this (by decide)

theorem getU64_ok (x : IStream) (h : x.getU64.2.fail = false) : x.fail = false := by
  unfold IStream.getU64 at h
  by_cases hx : x.fail = true
  · rw [if_pos hx] at h; rw [hx] at h; cases h
  · simpa using hx

theorem getU64_lt (x : IStream) : x.getU64.1 < 18446744073709551616 := by
  unfold IStream.getU64
  dsimp only
  split_ifs
  all_goals dsimp only
  all_goals omega

theorem stoi_range {t : Str} {v : Int} (h : stoi t = .ok v) :
    -2147483648 ≤ v ∧ v ≤ 2147483647 := by
  unfold stoi at h
  dsimp only at h
  by_cases h1 : (List.takeWhile isdigit
      (if (List.dropWhile isspace t).head? = some (Char.ofNat 45) ∨
          (List.dropWhile isspace t).head? = some (Char.ofNat 43) then
        (List.dropWhile isspace t).tail
      else List.dropWhile isspace t)).isEmpty = true
  · rw [if_pos h1] at h; cases h
  · rw [if_neg h1] at h
    split_ifs at h with h2 h3
    all_goals (injection h with h; subst h; constructor <;> omega)

theorem token_no_newline {t : Str} (h : is_token t) : t ≠ [] ∧ ∀ c ∈ t, c ≠ '\n' :=
  ⟨h.1, no_newline_of_no_space h.2⟩

theorem record_ok_peers {f : File} (h : record_ok f) (peers : List Str)
    (hp : ∀ p ∈ peers, p ∈ f.peers ∨ is_token p) : record_ok { f with peers := peers } := by
  refine ⟨h.1, h.2.1, h.2.2.1, ?_⟩
  intro p hpm
  rcases hp p hpm with e | e
  · exact h.2.2.2 p e
  · exact token_no_newline e

theorem extract_upload_peer_token (iss : IStream) (h : (extract_upload iss).2.fail = false) :
    is_token (extract_upload iss).1.peer := by
  unfold extract_upload at h ⊢
  dsimp only at h ⊢
  exact getStr_token_of_ok _ (getStr_ok _ h).1

theorem upload_record_ok (iss : IStream) (np : Int) (piece_sha : List Str)
    (hfail : (extract_upload iss).2.fail = false)
    (hst : stoi (extract_upload iss).1.np_str = .ok np)
    (hlen : (piece_sha.length : Int) = np) :
    record_ok (upload_file_record (extract_upload iss).1 piece_sha) := by
  have hr := stoi_range hst
  have hpeer := extract_upload_peer_token iss hfail
  unfold upload_file_record
  refine ⟨?_, ?_, ?_, ?_⟩
  · unfold extract_upload; dsimp only; exact getU64_lt _
  · dsimp only; omega
  · unfold extract_upload; dsimp only
    exact no_newline_of_no_space (getStr_no_space _)
  · intro p hp
    dsimp only at hp
    rcases mem_set_insert.mp hp with e | e
    · rw [e]; exact token_no_newline hpeer
    · cases e

theorem getD_mem_of_lt {parts : List Str} {i : Nat} (h : i < parts.length) :
    parts.getD i [] ∈ parts := by
  rw [List.getD_eq_getElem _ _ h]
  exact List.getElem_mem h

theorem reg_ok_same {s s1 : Registry} (h : reg_ok s) (hg : s1.groups = s.groups)
    (hf : s1.files = s.files) : reg_ok s1 := by
  unfold reg_ok no_empty_member files_ok
  rw [hg, hf]
  exact h

theorem insert_no_empty {u : Str} {l : List Str} (hu : u ≠ []) (hl : ([] : Str) ∉ l) :
    ([] : Str) ∉ set_insert u l := by
  intro hc
  rcases mem_set_insert.mp hc with e | e
  · exact hu e.symm
  · exact hl e

theorem erase_no_empty {u : Str} {l : List Str} (hl : ([] : Str) ∉ l) :
    ([] : Str) ∉ set_erase u l := fun hc => hl (mem_set_erase.mp hc).1

theorem groups_at_no_empty {s : Registry} (h : no_empty_member s) (g : Str) :
    ([] : Str) ∉ (groups_at s g).2 := by
  unfold groups_at
  cases hf : map_find s.groups g with
  | none => simp
  | some gi => exact h _ (map_find_mem hf)

theorem files_ok_erase_owned {s : Registry} (h : files_ok s) (u g : Str) :
    ∀ p ∈ erase_owned_files s.files u g, record_ok p.2 :=
  fun p hp => h p (mem_erase_owned_files hp)

theorem leave_reg_ok {s : Registry} (h : reg_ok s) (u g : Str) (gi : Str × List Str)
    (hgi : ([] : Str) ∉ gi.2) :
    reg_ok
      (if gi.1 = u then
        if (set_erase u gi.2).isEmpty then
          { s with groups := map_erase s.groups g, requests := map_erase s.requests g,
                   files := erase_owned_files s.files u g }
        else
          { s with groups := map_assign s.groups g ((set_erase u gi.2).headD [], set_erase u gi.2),
                   files := erase_owned_files s.files u g }
      else
        { s with groups := map_assign s.groups g (gi.1, set_erase u gi.2),
                 files := erase_owned_files s.files u g }) := by
  have he : ([] : Str) ∉ set_erase u gi.2 := erase_no_empty hgi
  split_ifs
  · exact ⟨forall_map_erase h.1, files_ok_erase_owned h.2 u g⟩
  · exact ⟨forall_map_assign h.1 he, files_ok_erase_owned h.2 u g⟩
  · exact ⟨forall_map_assign h.1 he, files_ok_erase_owned h.2 u g⟩

theorem cmd_leave_group_reg_ok {s : Registry} (h : reg_ok s) (p1 p2 : Str) :
    reg_ok (cmd_leave_group s p1 p2).state := by
  have hl := leave_reg_ok h p1 p2 (groups_at s p2) (groups_at_no_empty h.1 p2)
  unfold cmd_leave_group
  dsimp only
  split_ifs at hl ⊢
  all_goals first | exact h | exact hl

theorem sync_leave_group_reg_ok {s : Registry} (h : reg_ok s) (iss : IStream) :
    reg_ok (sync_leave_group s iss) := by
  unfold sync_leave_group
  dsimp only
  split_ifs
  · exact h
  · split
    · exact h
    · next gi hg =>
      have hl := leave_reg_ok h iss.getStr.1 iss.getStr.2.getStr.1 gi (h.1 _ (map_find_mem hg))
      split_ifs at hl ⊢
      all_goals first | exact h | exact hl

theorem stop_share_reg_ok {s : Registry} (h : reg_ok s) (key peer : Str) :
    reg_ok
      (match map_find s.files key with
      | none => s
      | some f =>
        if (set_erase peer f.peers).isEmpty then { s with files := map_erase s.files key }
        else { s with files := map_assign s.files key { f with peers := set_erase peer f.peers } }) := by
  split
  · exact h
  · next f hf =>
    split_ifs
    · exact ⟨h.1, forall_map_erase h.2⟩
    · refine ⟨h.1, forall_map_assign h.2 ?_⟩
      exact record_ok_peers (h.2 _ (map_find_mem hf)) _
        (fun p hp => Or.inl (mem_set_erase.mp hp).1)

theorem add_peer_reg_ok {s : Registry} (h : reg_ok s) (key peer : Str) (hp : is_token peer) :
    reg_ok
      (match map_find s.files key with
      | none => s
      | some f =>
        { s with files := map_assign s.files key { f with peers := set_insert peer f.peers } }) := by
  split
  · exact h
  · next f hf =>
    refine ⟨h.1, forall_map_assign h.2 ?_⟩
    refine record_ok_peers (h.2 _ (map_find_mem hf)) _ ?_
    intro p hpm
    rcases mem_set_insert.mp hpm with e | e
    · rw [e]; exact Or.inr hp
    · exact Or.inl e

theorem cmd_stop_share_reg_ok {s : Registry} (h : reg_ok s) (p1 p2 p3 : Str) :
    reg_ok (cmd_stop_share s p1 p2 p3).state := by
  have hl := stop_share_reg_ok h (p1 ++ ' ' :: p2) p3
  unfold cmd_stop_share
  dsimp only
  cases hf : map_find s.files (p1 ++ ' ' :: p2) with
  | none => exact h
  | some f =>
    rw [hf] at hl
    dsimp only at hl ⊢
    split_ifs at hl ⊢ <;> exact hl

theorem cmd_add_peer_reg_ok {s : Registry} (h : reg_ok s) (p1 p2 p3 : Str) (hp : is_token p3) :
    reg_ok (cmd_add_peer s p1 p2 p3).state := by
  have hl := add_peer_reg_ok h (p1 ++ ' ' :: p2) p3 hp
  unfold cmd_add_peer
  dsimp only
  cases hf : map_find s.files (p1 ++ ' ' :: p2) with
  | none => exact h
  | some f =>
    rw [hf] at hl
    exact hl

theorem sync_stop_share_reg_ok {s : Registry} (h : reg_ok s) (iss : IStream) :
    reg_ok (sync_stop_share s iss) := by
  have hl := stop_share_reg_ok h (iss.getStr.1 ++ ' ' :: iss.getStr.2.getStr.1)
    iss.getStr.2.getStr.2.getStr.1
  unfold sync_stop_share
  dsimp only
  split_ifs
  · exact h
  · exact hl

theorem sync_add_peer_reg_ok {s : Registry} (h : reg_ok s) (iss : IStream) :
    reg_ok (sync_add_peer s iss) := by
  unfold sync_add_peer
  dsimp only
  split_ifs with hf
  · exact h
  · exact add_peer_reg_ok h _ _ (getStr_token_of_ok _ (by simpa using hf))

theorem sync_upload_meta_reg_ok {s s1 : Registry} {iss : IStream} (h : reg_ok s)
    (hh : sync_upload_meta s iss = .ok s1) : reg_ok s1 := by
  rcases sync_upload_meta_ok hh with e | ⟨hfail, np, hst, hlen, e⟩
  · rw [e]; exact h
  · rw [e]
    exact ⟨h.1, forall_map_assign h.2 (upload_record_ok iss np _ hfail hst hlen)⟩

theorem cmd_upload_meta_reg_ok {s : Registry} {full : Str} {h : Handled} (hinv : reg_ok s)
    (hh : cmd_upload_meta s full = .ok h) : reg_ok h.state := by
  obtain ⟨-, np, hst, h1 | h1 | h1⟩ := cmd_upload_meta_ok hh
  · rw [h1.2]; exact hinv
  · rw [h1.2.2]; exact hinv
  · obtain ⟨hm, hlen, he⟩ := h1
    rw [he]
    have hfail : (extract_upload { buf := full.drop 12, fail := false }).2.fail = false := by
      by_contra hf
      have hu := extract_upload_fail_user _ (by simpa using hf)
      rw [hu] at hm
      obtain ⟨gi, hfind, hin⟩ := is_member_find hm
      exact hinv.1 _ (map_find_mem hfind) hin
    exact ⟨hinv.1, forall_map_assign hinv.2 (upload_record_ok _ np _ hfail hst hlen)⟩

theorem handle_sync_reg_ok {s s1 : Registry} {sync_data : Str} (h : reg_ok s)
    (hh : handle_sync s sync_data = .ok s1) : reg_ok s1 := by
  have hs := handle_sync_synced hh
  unfold synced at hs
  rcases hs with e | ⟨-, e⟩ | ⟨-, e⟩ | ⟨-, e⟩ | ⟨-, e⟩ | ⟨-, e⟩ | ⟨-, e⟩ | ⟨-, e⟩ | ⟨-, e⟩ | ⟨-, e⟩
  · rw [e]; exact h
  · rw [e]; unfold sync_register; dsimp only; split_ifs <;> exact reg_ok_same h rfl rfl
  · rw [e]; unfold sync_create_group; dsimp only; split_ifs with hf
    · exact h
    · refine ⟨forall_map_assign h.1 (insert_no_empty ?_ (by simp)), h.2⟩
      exact (getStr_ok _ (getStr_ok _ (by simpa using hf)).1).2
  · rw [e]; unfold sync_join_group; dsimp only; split_ifs <;> exact reg_ok_same h rfl rfl
  · rw [e]; unfold sync_accept_request; dsimp only; split_ifs with hf hin
    · exact h
    · refine ⟨forall_map_assign h.1 (insert_no_empty ?_ (groups_at_no_empty h.1 _)), h.2⟩
      exact (getStr_ok _ (by simpa using hf)).2
    · exact reg_ok_same h rfl rfl
  · rw [e]; exact sync_leave_group_reg_ok h _
  · rw [e]; exact sync_stop_share_reg_ok h _
  · rw [e]; exact sync_add_peer_reg_ok h _
  · exact sync_upload_meta_reg_ok h e
  · exact sync_upload_meta_reg_ok h e

theorem handle_command_reg_ok {s : Registry} {parts : List Str} {h : Handled}
    (hinv : reg_ok s) (htok : token_command parts)
    (hh : handle_command s parts = .ok h) : reg_ok h.state := by
  have hd := handle_command_dispatched hh
  unfold dispatched at hd
  rcases hd with ⟨-, -, e⟩ | ⟨-, -, e⟩ | ⟨-, hl, e⟩ | ⟨-, -, e⟩ | ⟨-, e⟩ | ⟨-, -, e⟩ |
    ⟨-, hl, e⟩ | ⟨-, -, e⟩ | ⟨-, -, e⟩ | ⟨-, -, e⟩ | ⟨-, -, e⟩ | ⟨-, hl, e⟩ | e | e | e
  · subst e; unfold cmd_register; split_ifs <;> exact reg_ok_same hinv rfl rfl
  · subst e; unfold cmd_login; split <;> [skip; split_ifs] <;> exact reg_ok_same hinv rfl rfl
  · subst e; unfold cmd_create_group; split_ifs
    · exact hinv
    · refine ⟨forall_map_assign hinv.1 (insert_no_empty ?_ (by simp)), hinv.2⟩
      exact (htok _ (getD_mem_of_lt (by omega))).1
  · subst e; unfold cmd_join_group; dsimp only; split_ifs <;> exact reg_ok_same hinv rfl rfl
  · subst e; exact hinv
  · subst e; unfold cmd_list_requests; dsimp only
    split_ifs <;> exact reg_ok_same hinv rfl rfl
  · subst e; unfold cmd_accept_request; dsimp only; split_ifs
    · exact hinv
    · refine ⟨forall_map_assign hinv.1 (insert_no_empty ?_ (groups_at_no_empty hinv.1 _)),
        hinv.2⟩
      exact (htok _ (getD_mem_of_lt (by omega))).1
    · exact reg_ok_same hinv rfl rfl
  · subst e; exact cmd_leave_group_reg_ok hinv _ _
  · subst e; unfold cmd_list_files; split_ifs <;> exact hinv
  · subst e; unfold cmd_get_file_peers
    split_ifs <;> [exact hinv; (split <;> [skip; (dsimp only; split_ifs)] <;> exact hinv)]
  · subst e; exact cmd_stop_share_reg_ok hinv _ _ _
  · subst e; exact cmd_add_peer_reg_ok hinv _ _ _ (htok _ (getD_mem_of_lt (by omega)))
  · exact cmd_upload_meta_reg_ok hinv e.2
  · obtain ⟨-, -, e1 | e1⟩ := cmd_sync_ok e.2
    · rw [e1]; exact hinv
    · exact handle_sync_reg_ok hinv e1
  · subst e; exact hinv

theorem reachable_reg_ok {s : Registry} (hr : Reachable token_command s) : reg_ok s := by
  induction hr with
  | init => exact ⟨fun p hp => (by cases hp), fun p hp => (by cases hp)⟩
  | step _ _ hc hh ih => exact handle_command_reg_ok ih hc hh

theorem reachable_leave_hypotheses {s : Registry} (hr : Reachable client_command s)
    {g owner : Str} {members : List Str} (hg : map_find s.groups g = some (owner, members)) :
    owner ∈ members ∧ strictly_sorted members :=
  ⟨reachable_group_inv hr _ (map_find_mem hg),
   reachable_sets_sorted (reachable_mono (fun _ _ => trivial) hr) _ (map_find_mem hg)⟩

theorem ex_shared_token_reachable : Reachable token_command ex_shared :=
  Reachable.step
    (Reachable.step Reachable.init (by simp) (by unfold token_command; decide) ex_group_step)
    (by simp [ex_upload_cmd]) (by unfold token_command ex_upload_cmd; decide) ex_shared_step

/-- C16: in every registry reachable by commands given as tokens, for every file record
that has at least one peer and whose piece hashes are 40-character lowercase hex strings,
the GET_FILE_PEERS reply to a member is `manifest_text`: `<size> <nPieces>`, the file hash,
the piece hashes separated by commas, `PEERS`, and one line a peer; and the manifest parsing
of the client (`parse_manifest`, with `parse_hashes`) recovers from that reply exactly the
size, the piece count, the file hash, the piece hashes in order and all peers. -/
theorem get_file_peers_manifest_roundtrip (s : Registry) (hr : Reachable token_command s)
    (g name u : Str) (f : File) (np0 : Int) (hm : is_member s u g = true)
    (hf : map_find s.files (g ++ ' ' :: name) = some f) (hpeers : f.peers ≠ [])
    (hhash : ∀ h ∈ f.piece_sha, h.length = 40 ∧ ∀ c ∈ h, is_lower_hex c) :
    ∃ h, handle_command s ["GET_FILE_PEERS".toList, g, name, u] = .ok h ∧
      h.reply = manifest_text f ∧
      parse_manifest np0 h.reply =
        some { fsz := f.size, np := f.piece_sha.length, file_sha := f.sha,
               hashes := f.piece_sha, peers := f.peers } := by
  have hok : record_ok f := (reachable_reg_ok hr).2 _ (map_find_mem hf)
  exact get_file_peers_roundtrip_of_record s g name u f np0 hm hf hpeers hhash hok.1 hok.2.1
    hok.2.2.1 hok.2.2.2

theorem get_file_peers_manifest_roundtrip_witness :
    ∃ h, handle_command ex_shared ["GET_FILE_PEERS".toList, "g".toList, "f".toList, "a".toList] =
        .ok h ∧
      h.reply = manifest_text ex_file ∧
      parse_manifest 0 h.reply =
        some { fsz := ex_file.size, np := ex_file.piece_sha.length, file_sha := ex_file.sha,
               hashes := ex_file.piece_sha, peers := ex_file.peers } :=
  get_file_peers_manifest_roundtrip ex_shared ex_shared_token_reachable "g".toList "f".toList
    "a".toList ex_file 0 (by rfl) (by rfl) (by decide) (by unfold is_lower_hex; decide)

/-! ## The port of the piece server -/

theorem bind_loop_spec (socket_ok : Nat → Bool) (bind_ok : Nat → Nat → Bool)
    (left tries port : Nat) :
    (bind_loop socket_ok bind_ok left tries port).peer_port + tries =
        port + (bind_loop socket_ok bind_ok left tries port).tries ∧
      tries ≤ (bind_loop socket_ok bind_ok left tries port).tries ∧
      (bind_loop socket_ok bind_ok left tries port).tries ≤ tries + left ∧
      ∀ p, (bind_loop socket_ok bind_ok left tries port).listener = some p →
        p = (bind_loop socket_ok bind_ok left tries port).peer_port ∧
        (bind_loop socket_ok bind_ok left tries port).tries < tries + left ∧
        socket_ok (bind_loop socket_ok bind_ok left tries port).tries = true ∧
        bind_ok (bind_loop socket_ok bind_ok left tries port).tries p = true := by
  induction left generalizing tries port with
  | zero =>
    unfold bind_loop
    exact ⟨rfl, le_refl _, le_refl _, fun p hp => by cases hp⟩
  | succ left ih =>
    unfold bind_loop
    by_cases hs : (!socket_ok tries) = true
    · rw [if_pos hs]
      obtain ⟨h1, h2, h3, h4⟩ := ih (tries + 1) (port + 1)
      refine ⟨by omega, by omega, by omega, fun p hp => ?_⟩
      obtain ⟨q1, q2, q3, q4⟩ := h4 p hp
      exact ⟨q1, by omega, q3, q4⟩
    · rw [if_neg hs]
      by_cases hb : bind_ok tries port = true
      · rw [if_pos hb]
        refine ⟨rfl, le_refl _, by dsimp only; omega, fun p hp => ?_⟩
        dsimp only at hp ⊢
        injection hp with hp
        subst hp
        exact ⟨rfl, by omega, by simpa using hs, hb⟩
      · rw [if_neg hb]
        obtain ⟨h1, h2, h3, h4⟩ := ih (tries + 1) (port + 1)
        refine ⟨by omega, by omega, by omega, fun p hp => ?_⟩
        obtain ⟨q1, q2, q3, q4⟩ := h4 p hp
        exact ⟨q1, by omega, q3, q4⟩

/-- C21 as stated fails: when `rand() % 15000` is 14999 and the first two binds fail,
the third bind succeeds on port 35001, which `start_peer_server` records in `peer_port`
and the listener uses; 35001 is above 35000. -/
theorem start_peer_server_port_above_range :
    start_peer_server 14999 (fun _ => true) (fun tries _ => decide (2 ≤ tries)) =
        PeerServer.mk 35001 (some 35001) 2 ∧
      ¬ (start_peer_server 14999 (fun _ => true) (fun tries _ => decide (2 ≤ tries))).peer_port
          ≤ 35000 := by
  decide

/-- C21, amended: for every value of `rand()` and every pattern of `socket` and `bind`
failures, the port recorded in `peer_port` is the drawn port `20000 + rand() % 15000`
(in `[20000, 34999]`) plus the number of failed passes, at most 40, so it lies in
`[20000, 35039]`; a listener is started only on a port whose bind succeeded, which is the
recorded port, reached after fewer than 40 failed passes and at most 35038. -/
theorem start_peer_server_port_range (rand : Nat) (socket_ok : Nat → Bool)
    (bind_ok : Nat → Nat → Bool) :
    (start_peer_server rand socket_ok bind_ok).peer_port =
        20000 + rand % 15000 + (start_peer_server rand socket_ok bind_ok).tries ∧
      (start_peer_server rand socket_ok bind_ok).tries ≤ 40 ∧
      20000 ≤ (start_peer_server rand socket_ok bind_ok).peer_port ∧
      (start_peer_server rand socket_ok bind_ok).peer_port ≤ 35039 ∧
      ∀ p, (start_peer_server rand socket_ok bind_ok).listener = some p →
        p = (start_peer_server rand socket_ok bind_ok).peer_port ∧
        (start_peer_server rand socket_ok bind_ok).tries < 40 ∧
        bind_ok (start_peer_server rand socket_ok bind_ok).tries p = true ∧
        p ≤ 35038 := by
  obtain ⟨h1, h2, h3, h4⟩ := bind_loop_spec socket_ok bind_ok 40 0 (20000 + rand % 15000)
  have hr : rand % 15000 < 15000 := Nat.mod_lt _ (by decide)
  unfold start_peer_server
  refine ⟨by omega, by omega, by omega, by omega, fun p hp => ?_⟩
  obtain ⟨q1, q2, q3, q4⟩ := h4 p hp
  exact ⟨q1, by omega, q4, by omega⟩

/-! ## Replication after a lost message -/

/-- C22 fails on the code: a tracker that missed `CREATE_GROUP a g` handles
`SYNC JOIN_GROUP u g` (reply OK) and holds a request for a group it does not have; the
group invariant holds there.  `handle_sync` on `ACCEPT_REQUEST g u` then creates the
group `g` with the empty string as owner and `u` as only member: the owner is not a
member. -/
theorem handle_sync_accept_request_breaks_group_inv :
    handle_command Registry.empty
        ["SYNC".toList, "JOIN_GROUP".toList, "u".toList, "g".toList] =
      .ok (Handled.mk ex_orphan_request "OK".toList none) ∧
    group_inv ex_orphan_request ∧
    handle_sync ex_orphan_request "ACCEPT_REQUEST g u".toList = .ok ex_ownerless ∧
    ¬ group_inv ex_ownerless := by
  refine ⟨rfl, ?_, rfl, ?_⟩
  · unfold group_inv ex_orphan_request
    intro p hp
    cases hp
  · unfold group_inv ex_ownerless
    intro h
    have h1 := h ("g".toList, ([], ["u".toList])) (List.mem_cons_self _ _)
    revert h1
    decide

/-! ## Reloading a snapshot -/

theorem hash_scan_stuck (fuel : Nat) : hash_scan ex_stuck_hash 1 fuel (1, []) = none := by
  induction fuel with
  | zero => rfl
  | succ fuel ih =>
    unfold hash_scan
    rw [if_pos (by decide)]
    have hstep : hash_scan_step ex_stuck_hash (1, []) = (1, []) := by decide
    rw [hstep]
    exact ih

theorem hash_scan_stuck_start (fuel : Nat) :
    hash_scan ex_stuck_hash 1 fuel (0, []) = none := by
  cases fuel with
  | zero => rfl
  | succ fuel =>
    unfold hash_scan
    rw [if_pos (by decide)]
    have hstep : hash_scan_step ex_stuck_hash (0, []) = (1, []) := by decide
    rw [hstep]
    exact hash_scan_stuck fuel

theorem load_file_line_stuck (fuel : Nat) :
    load_file_line [] ex_stuck_line fuel = .ok none := by
  have hline : load_file_line [] ex_stuck_line fuel =
      match hash_scan ex_stuck_hash 1 fuel (0, []) with
      | none => .ok none
      | some piece_sha =>
        .ok (some (map_assign [] "g f".toList
          (File.mk "g".toList "f".toList "a".toList "x".toList 10 piece_sha ["p".toList]))) := by
    rfl
  rw [hline, hash_scan_stuck_start]

theorem ex_stuck_shared_step :
    handle_command ex_group ex_stuck_upload_cmd =
      .ok (Handled.mk ex_stuck_shared "OK".toList
        (some "UPLOAD_META g f 10 1 x p a zaaaaaaaaaaaaaaaaaaaaaaaaaaaaaaaaaaaaaaa".toList)) := by
  rfl

/-- C24 fails on the code: the registry after `CREATE_GROUP a g` and the accepted
`UPLOAD_META g f 10 1 x p a z<39 times a>` is reachable by client commands, `save` writes
the line `g f 10 1 x a z<39 times a> p` for it, and on that line the piece-hash loop of
`load` stays at position 1 with no hash collected after its first pass: one more pass
changes nothing, so the loop is still running after any number of passes. -/
theorem load_never_returns_on_saved_hash :
    Reachable client_command ex_stuck_shared ∧
    (save ex_stuck_shared).files_txt = ex_stuck_line ++ ['\n'] ∧
    hash_scan_step ex_stuck_hash (1, []) = (1, []) ∧
    ∀ fuel, load Registry.empty (save ex_stuck_shared) fuel = .ok none := by
  refine ⟨?_, by decide, by decide, fun fuel => ?_⟩
  · exact Reachable.step (ex_group_reachable _ (by unfold client_command; decide))
      (by decide) (by unfold client_command; decide) ex_stuck_shared_step
  · have hlines : read_lines (save ex_stuck_shared).files_txt = [ex_stuck_line] := by decide
    unfold load
    dsimp only
    rw [hlines]
    unfold load_file_lines
    have he : Registry.empty.files = [] := rfl
    rw [he, load_file_line_stuck]

/-! ## Replication of an accepted command through its broadcast message -/

theorem sync_upload_meta_skip_space (s : Registry) (x : List Char) :
    sync_upload_meta s { buf := ' ' :: x, fail := false } =
      sync_upload_meta s { buf := x, fail := false } := by
  unfold sync_upload_meta
  rw [extract_upload_skip_space]

theorem handle_sync_upload_meta_text (s : Registry) (x : List Char) :
    handle_sync s ("UPLOAD_META ".toList ++ x) =
      sync_upload_meta s { buf := x, fail := false } := by
  have h1 : IStream.getStr { buf := "UPLOAD_META".toList ++ ' ' :: x, fail := false } =
      ("UPLOAD_META".toList, { buf := ' ' :: x, fail := false }) :=
    getStr_token (by unfold is_token; decide) (Or.inr ⟨_, rfl⟩)
  have e : "UPLOAD_META ".toList ++ x = "UPLOAD_META".toList ++ ' ' :: x := rfl
  rw [e, handle_sync_head h1 rfl, if_neg (by decide), if_neg (by decide), if_neg (by decide),
    if_neg (by decide), if_neg (by decide), if_neg (by decide), if_neg (by decide), if_pos rfl,
    sync_upload_meta_skip_space]

theorem handle_sync_upload_meta_tokens (s : Registry) (T : List Str) :
    handle_sync s (join_sp ("UPLOAD_META".toList :: T)) =
      sync_upload_meta s { buf := join_sp T, fail := false } := by
  cases T with
  | nil => rfl
  | cons a r => exact handle_sync_upload_meta_text s (join_sp (a :: r))

theorem cmd_upload_meta_sync {s : Registry} {full : Str} {h : Handled}
    (hmem : no_empty_member s) (hh : cmd_upload_meta s full = .ok h)
    (hok : h.reply = "OK".toList) :
    sync_upload_meta s { buf := full.drop 12, fail := false } = .ok h.state ∧
      h.bcast = some ("UPLOAD_META ".toList ++ full.drop 12) := by
  obtain ⟨hlen, np, hst, h1 | h1 | h1⟩ := cmd_upload_meta_ok hh
  · rw [h1.2] at hok; dsimp only at hok; exact absurd hok (by decide)
  · rw [h1.2.2] at hok; dsimp only at hok; exact absurd hok (by decide)
  obtain ⟨hm, hl, hst1⟩ := h1
  have hfail : (extract_upload { buf := full.drop 12, fail := false }).2.fail = false := by
    by_contra hf
    have hu := extract_upload_fail_user _ (by simpa using hf)
    rw [hu] at hm
    obtain ⟨gi, hfind, hin⟩ := is_member_find hm
    exact hmem _ (map_find_mem hfind) hin
  refine ⟨?_, by rw [hst1]⟩
  unfold sync_upload_meta
  dsimp only
  rw [if_neg (by simp [hfail]), hst]
  dsimp only
  rw [if_pos hl, hst1]

theorem split_ws_token_space {t : Str} (r : List Char) (ht : is_token t) :
    split_ws (t ++ ' ' :: r) = t :: split_ws r := by
  unfold split_ws
  rw [split_ws_go_token t (' ' :: r) [] ht.2, List.nil_append, split_ws_go]
  have hs : isspace ' ' = true := by decide
  have hne : t.isEmpty = false := by
    cases t with
    | nil => exact absurd rfl ht.1
    | cons _ _ => rfl
  simp [hs, hne]

theorem upload_rest_shape {parts : List Str} (htok : ∀ t ∈ parts, is_token t)
    (hv : (parts.headD []).take 11 = "UPLOAD_META".toList)
    (hlen : 12 ≤ (join_sp parts).length) :
    ∃ T : List Str, (∀ t ∈ T, is_token t) ∧
      ((join_sp parts).drop 12 = join_sp T ∨ (join_sp parts).drop 12 = ' ' :: join_sp T) := by
  cases parts with
  | nil => exact absurd hv (by decide)
  | cons cmd rest =>
    simp only [List.headD_cons] at hv
    have hcmd : cmd = "UPLOAD_META".toList ++ cmd.drop 11 := by
      conv_lhs => rw [← List.take_append_drop 11 cmd, hv]
    have hrest : ∀ t ∈ rest, is_token t := fun t ht => htok t (List.mem_cons_of_mem _ ht)
    have hsp : ∀ c ∈ cmd.drop 11, isspace c = false := fun c hc =>
      (htok cmd (List.mem_cons_self _ _)).2 c (List.mem_of_mem_drop hc)
    rw [join_sp_tail, hcmd] at hlen ⊢
    generalize cmd.drop 11 = e at hlen hsp ⊢
    have hdrop : ∀ y : List Char, List.drop 12 ("UPLOAD_META".toList ++ y) = List.drop 1 y :=
      fun y => rfl
    rw [List.append_assoc, hdrop]
    cases e with
    | nil =>
      cases rest with
      | nil => exact absurd hlen (by decide)
      | cons a r => exact ⟨a :: r, hrest, Or.inl rfl⟩
    | cons c e1 =>
      cases e1 with
      | nil =>
        cases rest with
        | nil => exact ⟨[], fun t ht => (by cases ht), Or.inl rfl⟩
        | cons a r => exact ⟨a :: r, hrest, Or.inr rfl⟩
      | cons c2 e2 =>
        refine ⟨(c2 :: e2) :: rest, ?_, Or.inl ?_⟩
        · intro t ht
          rcases List.mem_cons.1 ht with q | q
          · subst q
            exact ⟨by simp, fun x hx => hsp x (List.mem_cons_of_mem _ hx)⟩
          · exact hrest t q
        · rw [join_sp_tail]
          rfl

theorem ite_and_neg {p q : Prop} [Decidable p] [Decidable q] {α : Type} (t e : α)
    (hp : ¬ p) : (if p ∧ q then t else e) = e :=
  if_neg (fun h => hp h.1)

theorem handle_command_sync_tokens (s : Registry) (v : Str) (rest : List Str) :
    handle_command s ("SYNC".toList :: v :: rest) = cmd_sync s (v :: rest) := by
  unfold handle_command
  dsimp only [List.headD_cons]
  rw [if_neg (by simp), ite_and_neg _ _ (by decide), ite_and_neg _ _ (by decide),
    ite_and_neg _ _ (by decide), ite_and_neg _ _ (by decide), if_neg (by decide),
    ite_and_neg _ _ (by decide), ite_and_neg _ _ (by decide), ite_and_neg _ _ (by decide),
    ite_and_neg _ _ (by decide), ite_and_neg _ _ (by decide), ite_and_neg _ _ (by decide),
    ite_and_neg _ _ (by decide), if_neg (by decide), if_pos ⟨rfl, by simp⟩]
  rfl

theorem cmd_sync_of_handle_sync {s s1 : Registry} {v : Str} {rest : List Str} (hv : v ≠ [])
    (hs : handle_sync s (join_sp (v :: rest)) = .ok s1) :
    cmd_sync s (v :: rest) = .ok (Handled.mk s1 "OK".toList none) := by
  have hne : (join_sp (v :: rest)).isEmpty = false := by
    rw [join_sp_tail]
    cases v with
    | nil => exact absurd rfl hv
    | cons _ _ => rfl
  unfold cmd_sync
  dsimp only
  rw [if_neg (by simp [hne]), hs]

/-- A tracker that receives `SYNC ` followed by a message of single-spaced tokens splits
it, joins the tokens again and hands the same text to `handle_sync`. -/
theorem sync_delivered {s s1 : Registry} {v : Str} {rest : List Str}
    (ht : ∀ t ∈ v :: rest, is_token t)
    (hs : handle_sync s (join_sp (v :: rest)) = .ok s1) :
    handle_sync s (join_sp (v :: rest)) = .ok s1 ∧
      handle_command s (split_ws ("SYNC ".toList ++ join_sp (v :: rest))) =
        .ok (Handled.mk s1 "OK".toList none) := by
  refine ⟨hs, ?_⟩
  have e : "SYNC ".toList ++ join_sp (v :: rest) = join_sp ("SYNC".toList :: v :: rest) := rfl
  have htok : ∀ t ∈ "SYNC".toList :: v :: rest, is_token t := by
    intro t h
    rcases List.mem_cons.1 h with q | q
    · subst q; unfold is_token; decide
    · exact ht t q
  rw [e, split_ws_join_sp _ htok, handle_command_sync_tokens]
  exact cmd_sync_of_handle_sync (ht v (List.mem_cons_self _ _)).1 hs

theorem cmd_register_bcast {s : Registry} {a b m : Str}
    (hb : (cmd_register s a b).bcast = some m) : m = join_sp ["REGISTER".toList, a, b] := by
  unfold cmd_register at hb
  by_cases c1 : map_count s.users a = true
  · rw [if_pos c1] at hb; dsimp only at hb; cases hb
  · rw [if_neg c1] at hb; dsimp only at hb; injection hb with hb; rw [← hb]; simp [join_sp]

theorem cmd_create_group_bcast {s : Registry} {a b m : Str}
    (hb : (cmd_create_group s a b).bcast = some m) :
    m = join_sp ["CREATE_GROUP".toList, a, b] := by
  unfold cmd_create_group at hb
  by_cases c1 : map_count s.groups b = true
  · rw [if_pos c1] at hb; dsimp only at hb; cases hb
  · rw [if_neg c1] at hb; dsimp only at hb; injection hb with hb; rw [← hb]; simp [join_sp]

theorem cmd_join_group_bcast {s : Registry} {a b m : Str}
    (hb : (cmd_join_group s a b).bcast = some m) :
    m = join_sp ["JOIN_GROUP".toList, a, b] := by
  unfold cmd_join_group at hb
  by_cases c1 : (!map_count s.groups b) = true
  · rw [if_pos c1] at hb; dsimp only at hb; cases hb
  rw [if_neg c1] at hb
  by_cases c2 : is_member s a b = true
  · rw [if_pos c2] at hb; dsimp only at hb; cases hb
  · rw [if_neg c2] at hb; dsimp only at hb; injection hb with hb; rw [← hb]; simp [join_sp]

theorem cmd_accept_request_bcast {s : Registry} {g u o m : Str}
    (hb : (cmd_accept_request s g u o).bcast = some m) :
    m = join_sp ["ACCEPT_REQUEST".toList, g, u] := by
  unfold cmd_accept_request at hb
  by_cases c1 : (!is_owner s o g) = true
  · rw [if_pos c1] at hb; dsimp only at hb; cases hb
  rw [if_neg c1] at hb
  dsimp only at hb
  by_cases c2 : u ∈ requests_at s g
  · rw [if_pos c2] at hb; dsimp only at hb; injection hb with hb; rw [← hb]; simp [join_sp]
  · rw [if_neg c2] at hb; dsimp only at hb; cases hb

theorem cmd_leave_group_bcast {s : Registry} {a b m : Str}
    (hb : (cmd_leave_group s a b).bcast = some m) :
    m = join_sp ["LEAVE_GROUP".toList, a, b] := by
  unfold cmd_leave_group at hb
  by_cases c1 : (!is_member s a b) = true
  · rw [if_pos c1] at hb; dsimp only at hb; cases hb
  rw [if_neg c1] at hb
  dsimp only at hb
  by_cases c2 : (groups_at s b).1 = a
  · rw [if_pos c2] at hb
    by_cases c3 : (set_erase a (groups_at s b).2).isEmpty = true
    · rw [if_pos c3] at hb; dsimp only at hb; injection hb with hb; rw [← hb]; simp [join_sp]
    · rw [if_neg c3] at hb; dsimp only at hb; injection hb with hb; rw [← hb]; simp [join_sp]
  · rw [if_neg c2] at hb; dsimp only at hb; injection hb with hb; rw [← hb]; simp [join_sp]

theorem cmd_stop_share_bcast {s : Registry} {g f p m : Str}
    (hb : (cmd_stop_share s g f p).bcast = some m) :
    m = join_sp ["STOP_SHARE".toList, g, f, p] ∧
      (cmd_stop_share s g f p).reply = "OK".toList := by
  unfold cmd_stop_share at hb ⊢
  dsimp only at hb ⊢
  cases hfind : map_find s.files (g ++ ' ' :: f) with
  | none =>
    rw [hfind] at hb
    dsimp only at hb ⊢
    injection hb with hb
    exact ⟨by rw [← hb]; simp [join_sp], rfl⟩
  | some file =>
    rw [hfind] at hb
    dsimp only at hb ⊢
    split_ifs at hb ⊢
    all_goals (dsimp only at hb ⊢; injection hb with hb; exact ⟨by rw [← hb]; simp [join_sp], rfl⟩)

theorem cmd_add_peer_bcast {s : Registry} {g f p m : Str}
    (hb : (cmd_add_peer s g f p).bcast = some m) :
    m = join_sp ["ADD_PEER".toList, g, f, p] := by
  unfold cmd_add_peer at hb
  dsimp only at hb
  cases hfind : map_find s.files (g ++ ' ' :: f) with
  | none =>
    rw [hfind] at hb
    dsimp only at hb
    injection hb with hb
    rw [← hb]; simp [join_sp]
  | some file =>
    rw [hfind] at hb
    dsimp only at hb
    injection hb with hb
    rw [← hb]; simp [join_sp]

theorem cmd_login_no_bcast (s : Registry) (a b : Str) : (cmd_login s a b).bcast = none := by
  unfold cmd_login
  cases map_find s.users a with
  | none => rfl
  | some u => dsimp only; split_ifs <;> rfl

theorem cmd_list_requests_no_bcast (s : Registry) (a b : Str) :
    (cmd_list_requests s a b).bcast = none := by
  unfold cmd_list_requests
  split_ifs <;> rfl

theorem cmd_list_files_no_bcast (s : Registry) (a b : Str) :
    (cmd_list_files s a b).bcast = none := by
  unfold cmd_list_files
  split_ifs <;> rfl

theorem cmd_get_file_peers_no_bcast (s : Registry) (a b c : Str) :
    (cmd_get_file_peers s a b c).bcast = none := by
  unfold cmd_get_file_peers
  split_ifs
  · rfl
  · cases map_find s.files (a ++ ' ' :: b) with
    | none => rfl
    | some f => dsimp only; split_ifs <;> rfl

theorem sync_accept_request_bcast {s : Registry} {g u o : Str} (hg : is_token g)
    (hu : is_token u) (hok : (cmd_accept_request s g u o).reply = "OK".toList) :
    handle_sync s (join_sp ["ACCEPT_REQUEST".toList, g, u]) =
      .ok (cmd_accept_request s g u o).state := by
  obtain ⟨h1, h2, h3⟩ :=
    sync_stream3 (v := "ACCEPT_REQUEST".toList) (by unfold is_token; decide) hg hu
  rw [handle_sync_head h1 rfl, if_neg (by decide), if_neg (by decide), if_neg (by decide),
    if_pos rfl]
  unfold sync_accept_request cmd_accept_request at *
  dsimp only at hok ⊢
  rw [h2]
  dsimp only
  rw [h3]
  dsimp only
  rw [if_neg (by decide)]
  by_cases c1 : (!is_owner s o g) = true
  · rw [if_pos c1] at hok; dsimp only at hok; exact absurd hok (by decide)
  rw [if_neg c1] at hok ⊢
  by_cases c2 : u ∈ requests_at s g
  · simp only [if_pos c2]
  · rw [if_neg c2] at hok; dsimp only at hok; exact absurd hok (by decide)

/-- C23: when `handle_command` accepts (reply OK) a command, given as the tokens that
`split_ws` delivers, on a registry `s` and broadcasts the message `m`, then `handle_sync`
on `m` from a registry equal to `s` returns the registry `handle_command` left, and a
tracker that receives `SYNC m`, splits it and handles it replies OK, ends in that same
registry and broadcasts nothing.  (In `s` no group has the empty string as a member, as
in every registry the tracker builds: member names are tokens.) -/
theorem replication_converges (s : Registry) (parts : List Str) (h : Handled) (m : Str)
    (htok : ∀ t ∈ parts, is_token t) (hmem : no_empty_member s)
    (hh : handle_command s parts = .ok h) (hok : h.reply = "OK".toList)
    (hb : h.bcast = some m) :
    handle_sync s m = .ok h.state ∧
      handle_command s (split_ws ("SYNC ".toList ++ m)) =
        .ok (Handled.mk h.state "OK".toList none) := by
  have hd := handle_command_dispatched hh
  unfold dispatched at hd
  rcases hd with ⟨hv, hl, e⟩ | ⟨hv, -, e⟩ | ⟨hv, hl, e⟩ | ⟨hv, hl, e⟩ | ⟨hv, e⟩ | ⟨hv, -, e⟩ |
    ⟨hv, hl, e⟩ | ⟨hv, hl, e⟩ | ⟨hv, -, e⟩ | ⟨hv, -, e⟩ | ⟨hv, hl, e⟩ | ⟨hv, hl, e⟩ |
    ⟨hv, e⟩ | ⟨hv, e⟩ | e
  · obtain ⟨v, a, b, rfl⟩ := list_length_three hl
    simp only [List.headD_cons] at hv
    subst hv; subst e
    have hm := cmd_register_bcast hb
    subst hm
    exact sync_delivered htok (sync_register_eq (htok a (by simp)) (htok b (by simp)) hok)
  · subst e; rw [cmd_login_no_bcast] at hb; cases hb
  · obtain ⟨v, a, b, rfl⟩ := list_length_three hl
    simp only [List.headD_cons] at hv
    subst hv; subst e
    have hm := cmd_create_group_bcast hb
    subst hm
    exact sync_delivered htok (sync_create_group_eq (htok a (by simp)) (htok b (by simp)) hok)
  · obtain ⟨v, a, b, rfl⟩ := list_length_three hl
    simp only [List.headD_cons] at hv
    subst hv; subst e
    have hm := cmd_join_group_bcast hb
    subst hm
    exact sync_delivered htok (sync_join_group_eq (htok a (by simp)) (htok b (by simp)) hok)
  · subst e; cases hb
  · subst e; rw [cmd_list_requests_no_bcast] at hb; cases hb
  · obtain ⟨v, a, b, c, rfl⟩ := list_length_four hl
    simp only [List.headD_cons] at hv
    subst hv; subst e
    have hm := cmd_accept_request_bcast hb
    subst hm
    have ha : is_token a := htok a (by simp)
    have hb1 : is_token b := htok b (by simp)
    refine sync_delivered ?_ (sync_accept_request_bcast ha hb1 hok)
    intro t ht
    simp only [List.mem_cons, List.mem_singleton, List.not_mem_nil, or_false] at ht
    rcases ht with q | q | q
    · subst q; exact htok _ (by simp)
    · subst q; exact ha
    · subst q; exact hb1
  · obtain ⟨v, a, b, rfl⟩ := list_length_three hl
    simp only [List.headD_cons] at hv
    subst hv; subst e
    have hm := cmd_leave_group_bcast hb
    subst hm
    exact sync_delivered htok (sync_leave_group_eq (htok a (by simp)) (htok b (by simp)) hok)
  · subst e; rw [cmd_list_files_no_bcast] at hb; cases hb
  · subst e; rw [cmd_get_file_peers_no_bcast] at hb; cases hb
  · obtain ⟨v, a, b, c, rfl⟩ := list_length_four hl
    simp only [List.headD_cons] at hv
    subst hv; subst e
    have hm := (cmd_stop_share_bcast hb).1
    subst hm
    exact sync_delivered htok
      (sync_stop_share_eq (htok a (by simp)) (htok b (by simp)) (htok c (by simp)))
  · obtain ⟨v, a, b, c, rfl⟩ := list_length_four hl
    simp only [List.headD_cons] at hv
    subst hv; subst e
    have hm := cmd_add_peer_bcast hb
    subst hm
    exact sync_delivered htok
      (sync_add_peer_eq (htok a (by simp)) (htok b (by simp)) (htok c (by simp)))
  · obtain ⟨hsync, hbc⟩ := cmd_upload_meta_sync hmem e hok
    rw [hbc] at hb
    injection hb with hb
    subst hb
    obtain ⟨T, hT, hx⟩ := upload_rest_shape htok hv (cmd_upload_meta_ok e).1
    have hsplit : split_ws ((join_sp parts).drop 12) = T ∧
        sync_upload_meta s { buf := join_sp T, fail := false } = .ok h.state := by
      rcases hx with hx | hx
      · rw [hx] at hsync ⊢
        exact ⟨split_ws_join_sp T hT, hsync⟩
      · rw [hx] at hsync ⊢
        rw [sync_upload_meta_skip_space] at hsync
        exact ⟨by rw [split_ws_space, split_ws_join_sp T hT], hsync⟩
    refine ⟨by rw [handle_sync_upload_meta_text]; exact hsync, ?_⟩
    have e1 : "SYNC ".toList ++ ("UPLOAD_META ".toList ++ (join_sp parts).drop 12) =
        "SYNC".toList ++ ' ' :: ("UPLOAD_META".toList ++ ' ' :: (join_sp parts).drop 12) := rfl
    rw [e1, split_ws_token_space _ (by unfold is_token; decide),
      split_ws_token_space _ (by unfold is_token; decide), hsplit.1, handle_command_sync_tokens]
    exact cmd_sync_of_handle_sync (by decide)
      (by rw [handle_sync_upload_meta_tokens]; exact hsplit.2)
  · rw [(cmd_sync_ok e).2.1] at hb; cases hb
  · subst e; cases hb

/-- C23 at the accepted upload `UPLOAD_META g f 10 1 x p a <hash>` on the registry after
`CREATE_GROUP a g`. -/
theorem replication_converges_witness :
    handle_sync ex_group
        "UPLOAD_META g f 10 1 x p a 0123456789abcdef0123456789abcdef01234567".toList =
      .ok ex_shared ∧
    handle_command ex_group (split_ws ("SYNC ".toList ++
        "UPLOAD_META g f 10 1 x p a 0123456789abcdef0123456789abcdef01234567".toList)) =
      .ok (Handled.mk ex_shared "OK".toList none) :=
  replication_converges ex_group ex_upload_cmd
    (Handled.mk ex_shared "OK".toList
      (some "UPLOAD_META g f 10 1 x p a 0123456789abcdef0123456789abcdef01234567".toList))
    "UPLOAD_META g f 10 1 x p a 0123456789abcdef0123456789abcdef01234567".toList
    (by unfold is_token; decide) (by unfold no_empty_member; decide) ex_shared_step rfl rfl

/-! ## Leaving a group whose owner is not a member; a tracker address without a port -/

/-- C13 as stated fails: a tracker that missed `CREATE_GROUP a g` handles
`SYNC JOIN_GROUP u g` and `SYNC ACCEPT_REQUEST g u` (both answered OK) and holds the group
`g` with the empty string as owner and `u` as only member.  The member `u` then issues
`LEAVE_GROUP u g`: the reply is OK and `u` is removed, but `u` is not the owner, so the
test for an empty member set is not reached: no member remains, and the group `g` and its
request list are still there. -/
theorem leave_group_keeps_memberless_group :
    handle_command Registry.empty
        ["SYNC".toList, "JOIN_GROUP".toList, "u".toList, "g".toList] =
      .ok (Handled.mk ex_orphan_request "OK".toList none) ∧
    handle_command ex_orphan_request
        ["SYNC".toList, "ACCEPT_REQUEST".toList, "g".toList, "u".toList] =
      .ok (Handled.mk ex_ownerless "OK".toList none) ∧
    is_member ex_ownerless "u".toList "g".toList = true ∧
    handle_command ex_ownerless ["LEAVE_GROUP".toList, "u".toList, "g".toList] =
      .ok (Handled.mk ex_memberless "OK".toList (some "LEAVE_GROUP u g".toList)) ∧
    map_find ex_memberless.groups "g".toList = some ([], []) ∧
    map_find ex_memberless.requests "g".toList = some [] := by
  decide

/-- C17 fails on the code: the current tracker `127.0.0.1:5000` does not respond, the
list of configured trackers is `127.0.0.1:` followed by `127.0.0.1:5001`, and the tracker
at `127.0.0.1:5001` would respond to the attempt; `tracker_roundtrip` neither returns its
reply nor reports failure: `stoi` throws on the empty port of the first entry.  The same
happens when the current tracker is `127.0.0.1:x`. -/
theorem tracker_roundtrip_throws_on_bad_port :
    tracker_roundtrip ex_tracker_net ["127.0.0.1:".toList, "127.0.0.1:5001".toList]
        "127.0.0.1:5000".toList "LIST_GROUPS".toList = .error .invalid_argument ∧
    responds ex_tracker_net "LIST_GROUPS".toList "127.0.0.1:5000".toList 0 = none ∧
    responds ex_tracker_net "LIST_GROUPS".toList "127.0.0.1:5001".toList 2 =
      some "OK".toList ∧
    tracker_roundtrip ex_tracker_net ["127.0.0.1:5001".toList] "127.0.0.1:x".toList
        "LIST_GROUPS".toList = .error .invalid_argument := by
  decide

end P2P
